import Mathlib

/-!
# NachOS multilevel scheduler (threads/scheduler.cc)

A shallow embedding of `Scheduler::CheckAging`, `Scheduler::ReadyToRun`,
`Scheduler::FindNextToRun` and the dispatch step of `Scheduler::Run`, together
with the two comparison functions `L1cmp` and `L2cmp`.

Threads are heap objects reached through pointers.  A pointer is a natural
number, the kernel state carries the table from pointers to thread records, and
the three ready queues hold pointers.  The C++ `int` values (ticks, priorities,
identifiers) are unbounded integers: the scheduler adds 10 to a priority,
subtracts a wait-start from the tick count and subtracts two priorities, and
for priorities in the documented range [0,149] none of these leaves the 32-bit
range.  A burst
time is a finite `double`; the scheduler only compares burst times, and finite
doubles compare as the rational numbers they denote.

`kernel->currentThread->Yield()` hands the processor over through
threads/thread.cc; the embedding records that the call was made.  The trace
lines written to `cout` are not modelled.
-/

namespace NachOS

/-! ## Data model -/

/-- Modelled from the spec: the status type of a thread is declared in
threads/thread.h, which is not among the source files.  The spec lists the
statuses READY, RUNNING, BLOCKED and FINISHED. -/
inductive ThreadStatus where
  | READY
  | RUNNING
  | BLOCKED
  | FINISHED
  deriving DecidableEq

/-- Modelled from the spec: class Thread is declared in threads/thread.h, which
is not among the source files.  These are the attributes the scheduler reads
and writes through getID, getPriority/setPriority, getStatus/setStatus,
getBurstTime, getWaitTime/setWaitTime, getStartTime/setStartTime and setJump. -/
structure Thread where
  ID : Int
  priority : Int
  status : ThreadStatus
  burstTime : ℚ
  waitTime : Int
  startTime : Int
  jump : Bool
  deriving DecidableEq

/-- Interrupt level, as tested by the assertions of the scheduler. -/
inductive IntStatus where
  | IntOff
  | IntOn
  deriving DecidableEq

/-- The part of the kernel the scheduler works on: the thread objects, the three
ready queues and the deferred-destruction slot of class Scheduler,
`kernel->currentThread`, the tick counters of `kernel->stats` and the interrupt
level. -/
structure Kernel where
  threads : Nat → Thread
  QueueL1 : List Nat
  QueueL2 : List Nat
  QueueL3 : List Nat
  toBeDestroyed : Option Nat
  currentThread : Nat
  totalTicks : Int
  userTicks : Int
  level : IntStatus

/-- Overwrite the thread object behind pointer `p`. -/
def Kernel.store (k : Kernel) (p : Nat) (th : Thread) : Kernel :=
  { k with threads := fun q => if q = p then th else k.threads q }

/-- Effect of `thread->setStatus(st)`. -/
def setStatus (k : Kernel) (thread : Nat) (st : ThreadStatus) : Kernel :=
  k.store thread { k.threads thread with status := st }

/-- Effect of `thread->setPriority(p)`. -/
def setPriority (k : Kernel) (thread : Nat) (p : Int) : Kernel :=
  k.store thread { k.threads thread with priority := p }

/-- Effect of `thread->setWaitTime(t)`. -/
def setWaitTime (k : Kernel) (thread : Nat) (t : Int) : Kernel :=
  k.store thread { k.threads thread with waitTime := t }

/-- Effect of `thread->setStartTime(t)`. -/
def setStartTime (k : Kernel) (thread : Nat) (t : Int) : Kernel :=
  k.store thread { k.threads thread with startTime := t }

/-- Effect of `thread->setJump(b)`. -/
def setJump (k : Kernel) (thread : Nat) (b : Bool) : Kernel :=
  k.store thread { k.threads thread with jump := b }

/-! ## Queue containers -/

/-- Modelled from the spec: the containers List and SortedList live in
lib/list.h and lib/list.cc, which are not among the source files.
`IsEmpty` tells whether the queue holds no task. -/
def IsEmpty (q : List Nat) : Bool := q.isEmpty

/-- Modelled from the spec: lib/list.cc is not among the source files.
`IsInList` is the membership check of the queue containers. -/
def IsInList (q : List Nat) (item : Nat) : Bool := decide (item ∈ q)

/-- Modelled from the spec: lib/list.cc is not among the source files.
`Append` puts the task at the end of the FIFO queue. -/
def Append (q : List Nat) (item : Nat) : List Nat := q ++ [item]

/-- Modelled from the spec: lib/list.cc is not among the source files.
`RemoveFront` returns the front of a queue and the queue without it. -/
def RemoveFront (q : List Nat) : Option (Nat × List Nat) :=
  match q with
  | [] => none
  | x :: rest => some (x, rest)

/-- Modelled from the spec: lib/list.cc is not among the source files.
`Remove` takes the task out of the queue: afterwards it is not a member, and
the other tasks keep their order. -/
def Remove (q : List Nat) (item : Nat) : List Nat := q.filter (fun x => decide (x ≠ item))

/-- Modelled from the spec: lib/list.cc is not among the source files.
`Insert` of a sorted queue places the task in front of the first queued task it
compares strictly smaller than (a negative result of the comparison function),
hence behind every task it ties with: ties keep insertion order. -/
def Insert (compare : Nat → Nat → Int) (item : Nat) : List Nat → List Nat
  | [] => [item]
  | y :: rest =>
    if compare item y < 0 then item :: y :: rest
    else y :: Insert compare item rest

/-! ## scheduler.cc -/

/-- `L1cmp`: shorter burst time first. -/
def L1cmp (threads : Nat → Thread) (a b : Nat) : Int :=
  let T1 := (threads a).burstTime
  let T2 := (threads b).burstTime
  if T1 < T2 then -1
  else if T1 = T2 then 0
  else 1

/-- `L2cmp`: larger priority first. -/
def L2cmp (threads : Nat → Thread) (a b : Nat) : Int :=
  let T1 := (threads a).priority
  let T2 := (threads b).priority
  T2 - T1

/-- What a call of `CheckAging` produced: the returned flag, whether
`kernel->currentThread->Yield()` was called, and the kernel state. -/
structure AgingResult where
  ret : Bool
  yielded : Bool
  state : Kernel

/-- Lines 61-97 of `Scheduler::CheckAging`, the branch "new to L1": the thread
leaves L2 if it is there, is inserted into L1, and the running thread is told
to yield when the aged thread beats it.  `k1` is the state after the priority
and the wait-start of the thread were updated. -/
def CheckAging.newToL1 (k1 : Kernel) (thread : Nat) : AgingResult :=
  let q2 := if IsInList k1.QueueL2 thread then Remove k1.QueueL2 thread else k1.QueueL2
  let q1 := Insert (L1cmp k1.threads) thread k1.QueueL1
  let k2 := { k1 with QueueL1 := q1, QueueL2 := q2 }
  let cur := k2.threads k2.currentThread
  let th := k2.threads thread
  let y : Bool :=
    if cur.priority ≥ 100 then
      if cur.ID ≠ th.ID then
        if th.burstTime < cur.burstTime then true else false
      else false
    else if cur.priority < 100 ∧ cur.ID ≠ th.ID then true
    else false
  { ret := true, yielded := y, state := k2 }

/-- Lines 100-112 of `Scheduler::CheckAging`, the branch "new to L2": the
thread leaves L3 if it is there, is inserted into L2, and a running thread of
the lowest band is told to yield. -/
def CheckAging.newToL2 (k1 : Kernel) (thread : Nat) : AgingResult :=
  let q3 := if IsInList k1.QueueL3 thread then Remove k1.QueueL3 thread else k1.QueueL3
  let q2 := Insert (L2cmp k1.threads) thread k1.QueueL2
  let k2 := { k1 with QueueL2 := q2, QueueL3 := q3 }
  let cur := k2.threads k2.currentThread
  let th := k2.threads thread
  let y : Bool := if cur.priority < 50 ∧ cur.ID ≠ th.ID then true else false
  { ret := true, yielded := y, state := k2 }

/-- `Scheduler::CheckAging`. -/
def CheckAging (k : Kernel) (thread : Nat) : AgingResult :=
  let nowOSTime := k.totalTicks
  if (k.threads thread).status = ThreadStatus.READY
      ∧ nowOSTime - (k.threads thread).waitTime ≥ 1500
      ∧ (k.threads thread).ID ≥ 2 then
    let oldPriority := (k.threads thread).priority
    let newPriority := if oldPriority + 10 ≥ 149 then 149 else oldPriority + 10
    let k1 := setWaitTime (setPriority k thread newPriority) thread nowOSTime
    if oldPriority < 100 ∧ newPriority ≥ 100 then CheckAging.newToL1 k1 thread
    else if oldPriority < 50 ∧ newPriority ≥ 50 then CheckAging.newToL2 k1 thread
    else { ret := false, yielded := false, state := k1 }
  else
    { ret := false, yielded := false, state := k }

/-- Lines 170-181 of `Scheduler::ReadyToRun`: the thread enters the queue of
the band of `threadPriority`, and no queue when the priority is in no band. -/
def ReadyToRun.enqueue (k : Kernel) (thread : Nat) (threadPriority : Int) : Kernel :=
  if threadPriority ≥ 100 ∧ threadPriority ≤ 149 then
    { k with QueueL1 := Insert (L1cmp k.threads) thread k.QueueL1 }
  else if threadPriority ≥ 50 ∧ threadPriority ≤ 99 then
    { k with QueueL2 := Insert (L2cmp k.threads) thread k.QueueL2 }
  else if threadPriority ≥ 0 ∧ threadPriority ≤ 49 then
    { k with QueueL3 := Append k.QueueL3 thread }
  else k

/-- Lines 185-212 of `Scheduler::ReadyToRun`: the preemption decision, recorded
as the flag of the new thread. -/
def ReadyToRun.markJump (k : Kernel) (thread : Nat) (threadPriority : Int) : Kernel :=
  let cur := k.threads k.currentThread
  let th := k.threads thread
  if cur.ID ≠ th.ID ∧ cur.ID ≥ 2 then
    if threadPriority ≥ 100 then
      if cur.priority ≥ 100 then
        if th.burstTime < cur.burstTime then setJump k thread true
        else k
      else setJump k thread true
    else if threadPriority ≥ 50 ∧ cur.priority < 50 then setJump k thread true
    else k
  else k

/-- `Scheduler::ReadyToRun`.  The result is `none` when the assertion on the
interrupt level fails. -/
def ReadyToRun (k : Kernel) (thread : Nat) : Option Kernel :=
  if k.level ≠ IntStatus.IntOff then none
  else
    let k1 := setStatus k thread ThreadStatus.READY
    let threadPriority := (k1.threads thread).priority
    let nowOSTime := k1.totalTicks
    let k2 := setWaitTime k1 thread nowOSTime
    some (ReadyToRun.markJump (ReadyToRun.enqueue k2 thread threadPriority) thread threadPriority)

/-- `Scheduler::FindNextToRun`.  The result is `none` when the assertion on the
interrupt level fails; otherwise it is the returned thread (`none` for NULL)
and the kernel state. -/
def FindNextToRun (k : Kernel) : Option (Option Nat × Kernel) :=
  if k.level ≠ IntStatus.IntOff then none
  else if !IsEmpty k.QueueL1 then
    match RemoveFront k.QueueL1 with
    | some (t, rest) => some (some t, { k with QueueL1 := rest })
    | none => none
  else if !IsEmpty k.QueueL2 then
    match RemoveFront k.QueueL2 with
    | some (t, rest) => some (some t, { k with QueueL2 := rest })
    | none => none
  else if !IsEmpty k.QueueL3 then
    match RemoveFront k.QueueL3 with
    | some (t, rest) => some (some t, { k with QueueL3 := rest })
    | none => none
  else some (none, k)

/-- `Scheduler::Run` up to the call of SWITCH: the start time of the next thread
is stamped, a finishing thread is parked in the deferred-destruction slot, and
the next thread becomes the running one.  The result is `none` when an
assertion fails.  Saving the user registers and the stack check of the old
thread are not modelled. -/
def Run (k : Kernel) (nextThread : Nat) (finishing : Bool) : Option Kernel :=
  let oldThread := k.currentThread
  let nowUserTime := k.userTicks
  let k1 := setStartTime k nextThread nowUserTime
  if k1.level ≠ IntStatus.IntOff then none
  else if finishing = true ∧ k1.toBeDestroyed ≠ none then none
  else
    let k2 := if finishing = true then { k1 with toBeDestroyed := some oldThread } else k1
    let k3 := { k2 with currentThread := nextThread }
    some (setStatus k3 nextThread ThreadStatus.RUNNING)

/-- `Scheduler::CheckToBeDestroyed`: a thread parked in the deferred-destruction
slot is deleted and the slot is emptied.  The release of the thread object is
not modelled beyond the slot. -/
def CheckToBeDestroyed (k : Kernel) : Kernel :=
  if k.toBeDestroyed ≠ none then { k with toBeDestroyed := none }
  else k

/-- `Scheduler::Scheduler`: the three queues start empty and no thread awaits
destruction. -/
def Scheduler.init (k : Kernel) : Kernel :=
  { k with QueueL1 := [], QueueL2 := [], QueueL3 := [], toBeDestroyed := none }

/-! ## Executions -/

/-- The events of an execution: the scheduler calls, the clock advancing by `n`
ticks, and `Thread::setBurstTime` (threads/thread.cc), by which the kernel
records a new burst-time estimate for a thread. -/
inductive Op where
  | readyToRun (thread : Nat)
  | checkAging (thread : Nat)
  | findNextToRun
  | run (nextThread : Nat) (finishing : Bool)
  | tick (n : Nat)
  | setBurstTime (thread : Nat) (b : ℚ)

/-- Effect of one event; `none` when an assertion of the scheduler fails. -/
def applyOp (k : Kernel) : Op → Option Kernel
  | Op.readyToRun t => ReadyToRun k t
  | Op.checkAging t => some (CheckAging k t).state
  | Op.findNextToRun =>
    match FindNextToRun k with
    | some (_, r) => some r
    | none => none
  | Op.run nextThread finishing => Run k nextThread finishing
  | Op.tick n => some { k with totalTicks := k.totalTicks + n }
  | Op.setBurstTime t b => some (k.store t { k.threads t with burstTime := b })

/-- Run a sequence of events from `k`; an event that `allowed` rejects, or at
which an assertion fails, ends the run without a state. -/
def runOps (allowed : Kernel → Op → Bool) : Kernel → List Op → Option Kernel
  | k, [] => some k
  | k, op :: rest =>
    if allowed k op then
      match applyOp k op with
      | some r => runOps allowed r rest
      | none => none
    else none

/-- The states reachable from the empty scheduler by events that `allowed`
admits. -/
def Reachable (allowed : Kernel → Op → Bool) (k : Kernel) : Prop :=
  ∃ k0 ops, runOps allowed (Scheduler.init k0) ops = some k

/-- Every event is admitted. -/
def anyOp (_k : Kernel) (_op : Op) : Bool := true

/-- The burst-time estimate of a task does not change while it is queued in
L1: `setBurstTime` is admitted only for a thread that is not in L1. -/
def burstKeptInL1 (k : Kernel) : Op → Bool
  | Op.setBurstTime t _ => !IsInList k.QueueL1 t
  | _ => true

/-- The priority of a task does not change while it stays queued in L2: a
`CheckAging` that raises the priority of a thread which is in L2 before and
after the call is not admitted. -/
def priorityKeptInL2 (k : Kernel) : Op → Bool
  | Op.checkAging t =>
    !(IsInList k.QueueL2 t && IsInList (CheckAging k t).state.QueueL2 t
      && decide (((CheckAging k t).state.threads t).priority ≠ (k.threads t).priority))
  | _ => true

/-- ReadyToRun is called only on a thread that is in none of the three
queues. -/
def readyOnlyUnqueued (k : Kernel) : Op → Bool
  | Op.readyToRun t =>
    !IsInList k.QueueL1 t && !IsInList k.QueueL2 t && !IsInList k.QueueL3 t
  | _ => true

/-! ## State predicates -/

/-- The three ready queues are pairwise disjoint. -/
def queuesDisjoint (k : Kernel) : Prop :=
  (∀ x ∈ k.QueueL1, x ∉ k.QueueL2) ∧
  (∀ x ∈ k.QueueL1, x ∉ k.QueueL3) ∧
  (∀ x ∈ k.QueueL2, x ∉ k.QueueL3)

/-- Every queued thread sits in the queue of its priority band:
[100,149] in L1, [50,99] in L2, [0,49] in L3. -/
def bandsRespected (k : Kernel) : Prop :=
  (∀ x ∈ k.QueueL1, 100 ≤ (k.threads x).priority ∧ (k.threads x).priority ≤ 149) ∧
  (∀ x ∈ k.QueueL2, 50 ≤ (k.threads x).priority ∧ (k.threads x).priority ≤ 99) ∧
  (∀ x ∈ k.QueueL3, 0 ≤ (k.threads x).priority ∧ (k.threads x).priority ≤ 49)

/-- L1 is in ascending order of burst time. -/
def L1Sorted (k : Kernel) : Prop :=
  k.QueueL1.Pairwise (fun a b => (k.threads a).burstTime ≤ (k.threads b).burstTime)

/-- L2 is in descending order of priority. -/
def L2Sorted (k : Kernel) : Prop :=
  k.QueueL2.Pairwise (fun a b => (k.threads a).priority ≥ (k.threads b).priority)

/-- No thread occurs twice in one ready queue. -/
def queuesNodup (k : Kernel) : Prop :=
  k.QueueL1.Nodup ∧ k.QueueL2.Nodup ∧ k.QueueL3.Nodup

/-- The band of a priority, with the ranges `ReadyToRun` uses to choose a
queue (lines 170-181): 1 for 100 to 149, 2 for 50 to 99, 3 for 0 to 49, and none
outside 0 to 149. -/
def priorityBand (p : Int) : Option Nat :=
  if p ≥ 100 ∧ p ≤ 149 then some 1
  else if p ≥ 50 ∧ p ≤ 99 then some 2
  else if p ≥ 0 ∧ p ≤ 49 then some 3
  else none

/-! ## Sample kernel states -/

/-- Thread objects of the sample states: pointer 0 is the bootstrap thread, the
pointers 2 to 7 are user threads spread over the three bands. -/
def demoThreads : Nat → Thread
  | 2 => { ID := 2, priority := 120, status := ThreadStatus.READY, burstTime := 5,
           waitTime := 0, startTime := 0, jump := false }
  | 3 => { ID := 3, priority := 110, status := ThreadStatus.READY, burstTime := 8,
           waitTime := 0, startTime := 0, jump := false }
  | 4 => { ID := 4, priority := 95, status := ThreadStatus.READY, burstTime := 3,
           waitTime := 0, startTime := 0, jump := false }
  | 5 => { ID := 5, priority := 60, status := ThreadStatus.READY, burstTime := 4,
           waitTime := 0, startTime := 0, jump := false }
  | 6 => { ID := 6, priority := 45, status := ThreadStatus.READY, burstTime := 2,
           waitTime := 0, startTime := 0, jump := false }
  | 7 => { ID := 7, priority := 70, status := ThreadStatus.BLOCKED, burstTime := 6,
           waitTime := 0, startTime := 0, jump := false }
  | 8 => { ID := 8, priority := 130, status := ThreadStatus.RUNNING, burstTime := 9,
           waitTime := 0, startTime := 0, jump := false }
  | 9 => { ID := 9, priority := 30, status := ThreadStatus.RUNNING, burstTime := 1,
           waitTime := 0, startTime := 0, jump := false }
  | 12 => { ID := 12, priority := 75, status := ThreadStatus.BLOCKED, burstTime := 7,
            waitTime := 0, startTime := 0, jump := false }
  | 10 => { ID := 10, priority := 200, status := ThreadStatus.BLOCKED, burstTime := 1,
            waitTime := 0, startTime := 0, jump := false }
  | 11 => { ID := 11, priority := -5, status := ThreadStatus.BLOCKED, burstTime := 1,
            waitTime := 0, startTime := 0, jump := false }
  | _ => { ID := 0, priority := 0, status := ThreadStatus.RUNNING, burstTime := 0,
           waitTime := 0, startTime := 0, jump := false }

/-- Sample state at tick 2000: threads 2 and 3 wait in L1, 4 and 5 in L2, 6 in
L3; thread 8 is running. -/
def demoKernel : Kernel :=
  { threads := demoThreads, QueueL1 := [2, 3], QueueL2 := [4, 5], QueueL3 := [6],
    toBeDestroyed := none, currentThread := 8, totalTicks := 2000, userTicks := 0,
    level := IntStatus.IntOff }

/-- The sample state with the bootstrap thread (pointer 0, id 0, priority 0)
running. -/
def bootKernel : Kernel := { demoKernel with currentThread := 0 }

/-- The empty scheduler at tick 0 over the sample threads, thread 8 running. -/
def startKernel : Kernel := Scheduler.init { demoKernel with totalTicks := 0 }

/-- Thread 7 (priority 70) becomes ready at tick 0 and thread 12 (priority 75)
at tick 1000; at tick 1500 the aging check runs on thread 7. -/
def agingTrace : List Op :=
  [Op.readyToRun 7, Op.tick 1000, Op.readyToRun 12, Op.tick 500, Op.checkAging 7]

/-- Threads 3, 2 and 8 become ready in this order. -/
def burstTrace : List Op :=
  [Op.readyToRun 3, Op.readyToRun 2, Op.tick 10, Op.readyToRun 8]

/-- Threads 5, 12 and 7 become ready in this order. -/
def priorityTrace : List Op :=
  [Op.readyToRun 5, Op.readyToRun 12, Op.tick 10, Op.readyToRun 7]

/-- The state the sample threads are in after `agingTrace`. -/
def agingReached : Kernel :=
  (runOps anyOp startKernel agingTrace).getD startKernel

/-- The state the sample threads are in after `burstTrace`. -/
def burstReached : Kernel :=
  (runOps burstKeptInL1 startKernel burstTrace).getD startKernel

/-- The state the sample threads are in after `priorityTrace`. -/
def priorityReached : Kernel :=
  (runOps priorityKeptInL2 startKernel priorityTrace).getD startKernel

/-- Threads 4, 6 and 2 become ready at tick 0, at tick 1500 the aging check
moves thread 4 from L2 to L1, and the next thread is dequeued. -/
def mixedTrace : List Op :=
  [Op.readyToRun 4, Op.readyToRun 6, Op.readyToRun 2, Op.tick 1500, Op.checkAging 4]

/-- The state the sample threads are in after `mixedTrace`. -/
def mixedReached : Kernel :=
  (runOps readyOnlyUnqueued startKernel mixedTrace).getD startKernel

/-! # NachOS file system (filesys/filesys.cc)

`FileSystem::Create`, `FileSystem::Open`, `FileSystem::Remove`,
`FileSystem::List`, `FileSystem::getSubDir` and `FileSystem::getFileName` are
embedded from the source.  The classes they drive (the bitmap, the directory,
the file header and the open file) are not among the source files and are
modelled from the spec.  A C string is the list of its characters.  The disk is
seen through the records the file system persists: the bitmap, the file header
stored in each sector, and the directory table held by the file whose header
is in a given sector. -/

/-! ## Disk constants -/

/-- Modelled from the spec: the disk geometry (machine/disk.h) and the size of
a directory entry (filesys/directory.h) are not among the source files; they
are the fixed configuration constants of the storage device. -/
structure DiskConfig where
  NumSectors : Nat
  SectorSize : Nat
  DirectoryEntrySize : Nat

/-- `FreeMapSector`: the sector of the header of the bitmap file. -/
def FreeMapSector : Nat := 0

/-- `DirectorySector`: the sector of the header of the root directory file. -/
def DirectorySector : Nat := 1

/-- `FreeMapFileSize`: one bit per sector, eight bits in a byte. -/
def FreeMapFileSize (cfg : DiskConfig) : Nat := cfg.NumSectors / 8

/-- `NumDirEntries`. -/
def NumDirEntries : Nat := 64

/-- `DirectoryFileSize`. -/
def DirectoryFileSize (cfg : DiskConfig) : Nat := cfg.DirectoryEntrySize * NumDirEntries

/-- Modelled from the spec: `divRoundUp` of lib/utility.h, which is not among
the source files: the number of sectors of size `s` that cover `n` bytes, that
is `n / s` rounded up. -/
def divRoundUp (n s : Nat) : Nat := n / s + (if n % s > 0 then 1 else 0)

/-! ## Free-space bitmap -/

/-- Modelled from the spec: class Bitmap (lib/bitmap.cc) is not among the
source files.  `FindAndSet` scans for the lowest-numbered clear bit, sets it
and returns its index; there is no result when all bits are set. -/
def Bitmap.FindAndSet : List Bool → Option (Nat × List Bool)
  | [] => none
  | false :: rest => some (0, true :: rest)
  | true :: rest =>
    match Bitmap.FindAndSet rest with
    | none => none
    | some (i, r) => some (i + 1, true :: r)

/-- Modelled from the spec: lib/bitmap.cc is not among the source files.
`Mark` sets a bit unconditionally. -/
def Bitmap.Mark (m : List Bool) (which : Nat) : List Bool := m.set which true

/-- Modelled from the spec: lib/bitmap.cc is not among the source files.
`Clear` unsets a bit unconditionally. -/
def Bitmap.Clear (m : List Bool) (which : Nat) : List Bool := m.set which false

/-- Modelled from the spec: lib/bitmap.cc is not among the source files.
`Test` tells whether a bit is set. -/
def Bitmap.Test (m : List Bool) (which : Nat) : Bool := m.getD which false

/-- Modelled from the spec: lib/bitmap.cc is not among the source files.
`NumClear` counts the clear bits. -/
def Bitmap.NumClear (m : List Bool) : Nat := m.count false

/-- Number of sectors the bitmap marks allocated. -/
def Bitmap.numSet (m : List Bool) : Nat := m.count true

/-! ## File header -/

/-- Modelled from the spec: class FileHeader (filesys/filehdr.h) is not among
the source files.  A header records the size of the file and the ordered
sequence of its data sectors. -/
structure FileHeader where
  numBytes : Nat
  numSectors : Nat
  dataSectors : List Nat
  deriving DecidableEq

/-- The loop of `FileHeader::Allocate`: one `FindAndSet` per data sector. -/
def FileHeader.allocateSectors : Nat → List Bool → Option (List Nat × List Bool)
  | 0, m => some ([], m)
  | n + 1, m =>
    match Bitmap.FindAndSet m with
    | none => none
    | some (sector, m1) =>
      match FileHeader.allocateSectors n m1 with
      | none => none
      | some (rest, m2) => some (sector :: rest, m2)

/-- Modelled from the spec: filesys/filehdr.cc is not among the source files.
`Allocate` takes enough data sectors out of the bitmap to cover `fileSize`
bytes; it fails, with no result, when the bitmap has too few clear bits. -/
def FileHeader.Allocate (cfg : DiskConfig) (freeMap : List Bool) (fileSize : Nat) :
    Option (FileHeader × List Bool) :=
  let numSectors := divRoundUp fileSize cfg.SectorSize
  if Bitmap.NumClear freeMap < numSectors then none
  else
    match FileHeader.allocateSectors numSectors freeMap with
    | none => none
    | some (sectors, m) =>
      some ({ numBytes := fileSize, numSectors := numSectors, dataSectors := sectors }, m)

/-- Modelled from the spec: filesys/filehdr.cc is not among the source files.
`Deallocate` frees the data sectors of the file in the bitmap, in order. -/
def FileHeader.Deallocate (hdr : FileHeader) (freeMap : List Bool) : List Bool :=
  hdr.dataSectors.foldl Bitmap.Clear freeMap

/-! ## Directory -/

/-- Modelled from the spec: struct DirectoryEntry (filesys/directory.h) is not
among the source files.  An entry has an in-use flag, an is-directory flag, the
sector of the header it refers to, and a name. -/
structure DirectoryEntry where
  inUse : Bool
  isDir : Bool
  sector : Nat
  name : List Char
  deriving DecidableEq

/-- Modelled from the spec: class Directory (filesys/directory.h) is not among
the source files.  A directory is a fixed-capacity ordered table of entries. -/
structure Directory where
  table : List DirectoryEntry
  deriving DecidableEq

/-- Modelled from the spec: filesys/directory.cc is not among the source files.
`new Directory(size)` is a table of `size` entries, none in use. -/
def Directory.new (size : Nat) : Directory :=
  { table := List.replicate size { inUse := false, isDir := false, sector := 0, name := [] } }

/-- The first in-use entry of the table with that exact name. -/
def Directory.lookup (d : Directory) (name : List Char) : Option DirectoryEntry :=
  d.table.find? (fun e => e.inUse && decide (e.name = name))

/-- Modelled from the spec: filesys/directory.cc is not among the source files.
`Find` scans the in-use entries for an exact name match and returns the sector
of the entry, or nothing when the name is not found. -/
def Directory.Find (d : Directory) (name : List Char) : Option Nat :=
  match d.lookup name with
  | some e => some e.sector
  | none => none

/-- Modelled from the spec: filesys/directory.cc is not among the source files.
`isDir` is the is-directory flag of the entry of that name. -/
def Directory.isDir (d : Directory) (name : List Char) : Bool :=
  match d.lookup name with
  | some e => e.isDir
  | none => false

/-- Put an entry into the first slot that is not in use. -/
def Directory.claimSlot (e : DirectoryEntry) : List DirectoryEntry → Option (List DirectoryEntry)
  | [] => none
  | x :: rest =>
    if x.inUse then
      match Directory.claimSlot e rest with
      | none => none
      | some r => some (x :: r)
    else some (e :: rest)

/-- Modelled from the spec: filesys/directory.cc is not among the source files.
`Add` fails if an entry with that name exists or no free slot remains;
otherwise it claims the first free slot.  The result is the returned flag and
the table after the call. -/
def Directory.Add (d : Directory) (name : List Char) (newSector : Nat) (isDir : Bool) :
    Bool × Directory :=
  if (d.lookup name).isSome then (false, d)
  else
    match Directory.claimSlot
      { inUse := true, isDir := isDir, sector := newSector, name := name } d.table with
    | none => (false, d)
    | some t => (true, { table := t })

/-- Clear the in-use flag of the first in-use entry with that name. -/
def Directory.releaseSlot (name : List Char) : List DirectoryEntry → Option (List DirectoryEntry)
  | [] => none
  | x :: rest =>
    if x.inUse && decide (x.name = name) then some ({ x with inUse := false } :: rest)
    else
      match Directory.releaseSlot name rest with
      | none => none
      | some r => some (x :: r)

/-- Modelled from the spec: filesys/directory.cc is not among the source files.
`Remove` clears the in-use flag of the matching entry; it fails if the name is
not found.  The result is the returned flag and the table after the call. -/
def Directory.Remove (d : Directory) (name : List Char) : Bool × Directory :=
  match Directory.releaseSlot name d.table with
  | none => (false, d)
  | some t => (true, { table := t })

/-- Number of in-use entries of a directory. -/
def Directory.inUseCount (d : Directory) : Nat := d.table.countP (fun e => e.inUse)

/-! ## File system state -/

/-- Modelled from the spec: class OpenFile (filesys/openfile.h) is not among the
source files.  An open file is a handle on the file whose header is in
`sector`. -/
structure OpenFile where
  sector : Nat
  deriving DecidableEq

/-- The persisted records and the in-memory members of class FileSystem: the
bitmap kept in the bitmap file, the file header stored in each sector, the
directory table held by the file whose header is in a given sector, the
open-file table and its fill level `top`. -/
structure FileSystem where
  freeMap : List Bool
  headers : Nat → FileHeader
  directories : Nat → Directory
  fileDescriptorTable : List (Option OpenFile)
  top : Nat

/-- Replace what is persisted under `sector`. -/
def writeAt {α : Type} (f : Nat → α) (sector : Nat) (v : α) : Nat → α :=
  fun s => if s = sector then v else f s

/-- `directoryFile`, the root directory file kept open by the file system. -/
def directoryFile : OpenFile := { sector := DirectorySector }

/-! ## Paths -/

/-- Tokens of `strtok(s, "/")` and the following `strtok(NULL, "/")` calls: the
maximal runs of characters other than the slash, in order.  `cur` is the token
being read, reversed. -/
def strtokAux : List Char → List Char → List (List Char)
  | [], cur => if cur = [] then [] else [cur.reverse]
  | c :: rest, cur =>
    if c = '/' then
      if cur = [] then strtokAux rest []
      else cur.reverse :: strtokAux rest []
    else strtokAux rest (c :: cur)

/-- All tokens `strtok` delivers for a path. -/
def strtok (pathName : List Char) : List (List Char) := strtokAux pathName []

/-- The loop of `getFileName`: from index `idx` step down while the index is
positive and the character is not a slash. -/
def getFileName.scan (pathName : List Char) : Nat → Nat
  | 0 => 0
  | idx + 1 => if pathName.getD (idx + 1) ' ' = '/' then idx + 1 else getFileName.scan pathName idx

/-- `FileSystem::getFileName`: what follows the last slash at a positive index,
or, without such a slash, what follows the first character. -/
def getFileName (pathName : List Char) : List Char :=
  if pathName.length = 0 then []
  else pathName.drop (getFileName.scan pathName (pathName.length - 1) + 1)

/-- The loop of `FileSystem::getSubDir`: `cut` is looked up in the current
directory as long as another token follows it. -/
def FileSystem.walk (fs : FileSystem) : OpenFile → List Char → List (List Char) → Option OpenFile
  | curDirFile, _, [] => some curDirFile
  | curDirFile, cut, nextcut :: rest =>
    match (fs.directories curDirFile.sector).Find cut with
    | none => none
    | some subDirSector => FileSystem.walk fs { sector := subDirSector } nextcut rest

/-- `FileSystem::getSubDir`: the directory file that holds the last component of
the path, or nothing (NULL). -/
def FileSystem.getSubDir (fs : FileSystem) (pathName : List Char) : Option OpenFile :=
  match strtok pathName with
  | [] => none
  | cut :: rest => fs.walk directoryFile cut rest

/-- The header sectors of the directory files `getSubDir` opens on its way, the
root directory first and the directory it returns last. -/
def FileSystem.walkSectors (fs : FileSystem) : OpenFile → List Char → List (List Char) → List Nat
  | curDirFile, _, [] => [curDirFile.sector]
  | curDirFile, cut, nextcut :: rest =>
    curDirFile.sector ::
      match (fs.directories curDirFile.sector).Find cut with
      | none => []
      | some subDirSector => FileSystem.walkSectors fs { sector := subDirSector } nextcut rest

/-- The header sectors of the directory files opened while the path is
resolved. -/
def FileSystem.pathSectors (fs : FileSystem) (pathName : List Char) : List Nat :=
  match strtok pathName with
  | [] => []
  | cut :: rest => fs.walkSectors directoryFile cut rest

/-- The components of a path in the words of the spec: the path is split at
every slash and the empty pieces are skipped. -/
def pathComponents (pathName : List Char) : List (List Char) :=
  (pathName.splitOn '/').filter (fun c => !c.isEmpty)

/-- Resolution of a sequence of components in the words of the spec: starting
from a directory file, each component in turn is looked up in the directory
reached so far; the result is the directory file reached after the last one, or
nothing as soon as a lookup finds no entry. -/
def FileSystem.resolveAll (fs : FileSystem) : OpenFile → List (List Char) → Option OpenFile
  | curDirFile, [] => some curDirFile
  | curDirFile, cut :: rest =>
    match (fs.directories curDirFile.sector).Find cut with
    | none => none
    | some subDirSector => FileSystem.resolveAll fs { sector := subDirSector } rest

/-! ## Directory trees -/

/-- A name a path can spell: not empty and without a slash. -/
def plainName (name : List Char) : Bool := !name.isEmpty && !name.contains '/'

/-- The path that spells a sequence of components: each one behind a slash. -/
def pathOf (components : List (List Char)) : List Char :=
  components.flatMap (fun c => '/' :: c)

/-- The in-use entries of the directory whose header is in `sector`, in table
order. -/
def FileSystem.entriesOf (fs : FileSystem) (sector : Nat) : List DirectoryEntry :=
  (fs.directories sector).table.filter (fun e => e.inUse)

/-- The header sectors of the directory files read while a sequence of
components is resolved, the starting directory first. -/
def FileSystem.resolveSectors (fs : FileSystem) : OpenFile → List (List Char) → List Nat
  | curDirFile, [] => [curDirFile.sector]
  | curDirFile, cut :: rest =>
    curDirFile.sector ::
      match (fs.directories curDirFile.sector).Find cut with
      | none => []
      | some subDirSector => FileSystem.resolveSectors fs { sector := subDirSector } rest

/-- The header sectors of the directories of the tree below an entry, the entry
itself included when it is a directory, down to a given depth. -/
def FileSystem.treeDirs (fs : FileSystem) : Nat → DirectoryEntry → List Nat
  | 0, e => if e.isDir then [e.sector] else []
  | depth + 1, e =>
    if e.isDir then e.sector :: (fs.entriesOf e.sector).flatMap (FileSystem.treeDirs fs depth)
    else []

/-- The sectors of the tree below an entry, down to a given depth: for the
entry and for every entry below it, the data sectors and the header sector. -/
def FileSystem.treeSectors (fs : FileSystem) : Nat → DirectoryEntry → List Nat
  | 0, e => (fs.headers e.sector).dataSectors ++ [e.sector]
  | depth + 1, e =>
    (if e.isDir then (fs.entriesOf e.sector).flatMap (FileSystem.treeSectors fs depth) else [])
      ++ ((fs.headers e.sector).dataSectors ++ [e.sector])

/-- The tree below an entry has at most the given depth, and every entry in it
has a plain name. -/
def FileSystem.shaped (fs : FileSystem) : Nat → DirectoryEntry → Bool
  | 0, e => !e.isDir || (fs.entriesOf e.sector).isEmpty
  | depth + 1, e =>
    !e.isDir ||
      (fs.entriesOf e.sector).all (fun c => plainName c.name && FileSystem.shaped fs depth c)

/-! ## filesys.cc -/

/-- `FileSystem::FileSystem`.  `disk` is what the disk holds before the call;
the result is `none` when an assertion of the formatting fails. -/
def FileSystem.init (cfg : DiskConfig) (disk : FileSystem) (format : Bool) : Option FileSystem :=
  if format then
    let freeMap := List.replicate cfg.NumSectors false
    let freeMap := Bitmap.Mark freeMap FreeMapSector
    let freeMap := Bitmap.Mark freeMap DirectorySector
    match FileHeader.Allocate cfg freeMap (FreeMapFileSize cfg) with
    | none => none
    | some (mapHdr, freeMap) =>
      match FileHeader.Allocate cfg freeMap (DirectoryFileSize cfg) with
      | none => none
      | some (dirHdr, freeMap) =>
        some
          { freeMap := freeMap,
            headers := writeAt (writeAt disk.headers FreeMapSector mapHdr) DirectorySector dirHdr,
            directories := writeAt disk.directories DirectorySector (Directory.new NumDirEntries),
            fileDescriptorTable := List.replicate 20 none,
            top := 0 }
  else
    some { disk with fileDescriptorTable := List.replicate 20 none, top := 0 }

/-- `FileSystem::Create`: the returned flag and the file system after the
call. -/
def FileSystem.Create (cfg : DiskConfig) (fs : FileSystem) (pathName : List Char)
    (initialSize : Nat) (isDir : Bool) : Bool × FileSystem :=
  let initialSize := if isDir then DirectoryFileSize cfg else initialSize
  if pathName.length > 255 then (false, fs)
  else
    let name := getFileName pathName
    match fs.getSubDir pathName with
    | none => (false, fs)
    | some curDirFile =>
      let directory := fs.directories curDirFile.sector
      if (directory.Find name).isSome ∨ name.length > 9 then (false, fs)
      else
        match Bitmap.FindAndSet fs.freeMap with
        | none => (false, fs)
        | some (sector, freeMap) =>
          match directory.Add name sector isDir with
          | (false, _) => (false, fs)
          | (true, directory) =>
            match FileHeader.Allocate cfg freeMap initialSize with
            | none => (false, fs)
            | some (hdr, freeMap) =>
              let fs1 := { fs with headers := writeAt fs.headers sector hdr }
              let fs2 := { fs1 with
                directories := writeAt fs1.directories curDirFile.sector directory }
              let fs3 := { fs2 with freeMap := freeMap }
              let fs4 := { fs3 with
                directories := writeAt fs3.directories sector (Directory.new NumDirEntries) }
              (true, fs4)

/-- `FileSystem::Open`: the returned handle (`none` for NULL) and the file
system after the call. -/
def FileSystem.Open (fs : FileSystem) (pathName : List Char) : Option OpenFile × FileSystem :=
  let name := getFileName pathName
  match fs.getSubDir pathName with
  | none => (none, fs)
  | some curDirFile =>
    let directory := fs.directories curDirFile.sector
    match directory.Find name with
    | none => (none, fs)
    | some sector =>
      if fs.top ≥ 20 then (none, fs)
      else
        let openFile : OpenFile := { sector := sector }
        (some openFile,
          { fs with
            fileDescriptorTable := fs.fileDescriptorTable.set fs.top (some openFile),
            top := fs.top + 1 })

/-- The loop of the recursive branch of `FileSystem::Remove`: every in-use
entry of the target directory is removed under the path extended by a slash and
the name of the entry.  `rm` is the recursive call. -/
def FileSystem.removeChildren
    (rm : FileSystem → Bool → List Char → Option (Bool × FileSystem))
    (recursive : Bool) (pathName : List Char) :
    FileSystem → List DirectoryEntry → Option FileSystem
  | fs, [] => some fs
  | fs, e :: rest =>
    if e.inUse then
      match rm fs recursive (pathName ++ '/' :: e.name) with
      | none => none
      | some (_, fs1) => FileSystem.removeChildren rm recursive pathName fs1 rest
    else FileSystem.removeChildren rm recursive pathName fs rest

/-- `FileSystem::Remove`: the returned flag and the file system after the call.
The first argument bounds the depth of the recursion; the result is `none` when
the bound is used up. -/
def FileSystem.Remove : Nat → FileSystem → Bool → List Char → Option (Bool × FileSystem)
  | 0, _, _, _ => none
  | fuel + 1, fs, recursive, pathName =>
    let name := getFileName pathName
    match fs.getSubDir pathName with
    | none => some (false, fs)
    | some curDirFile =>
      let directory := fs.directories curDirFile.sector
      match directory.Find name with
      | none => some (false, fs)
      | some sector =>
        let afterChildren : Option FileSystem :=
          if directory.isDir name && recursive then
            FileSystem.removeChildren (FileSystem.Remove fuel) recursive pathName fs
              (fs.directories sector).table
          else some fs
        match afterChildren with
        | none => none
        | some fs1 =>
          let fileHdr := fs1.headers sector
          let freeMap := fs1.freeMap
          let freeMap := fileHdr.Deallocate freeMap
          let freeMap := Bitmap.Clear freeMap sector
          let directory := (directory.Remove name).2
          some (true,
            { fs1 with
              freeMap := freeMap,
              directories := writeAt fs1.directories curDirFile.sector directory })

/-- `FileSystem::List`: the directory that is printed, with the flag handed to
its listing, or nothing when the path does not resolve.  The file system is
only read. -/
def FileSystem.List (fs : FileSystem) (recursive : Bool) (listDirPath : List Char) :
    Option (Directory × Bool) :=
  if listDirPath = ['/'] then some (fs.directories directoryFile.sector, recursive)
  else
    let name := getFileName listDirPath
    match fs.getSubDir listDirPath with
    | none => none
    | some curDirFile =>
      let directory := fs.directories curDirFile.sector
      match directory.Find name with
      | some sector => some (fs.directories sector, recursive)
      | none => none

/-- The file-system states reachable from the constructor by Create, Open,
Remove and List. -/
inductive FsReachable (cfg : DiskConfig) : FileSystem → Prop where
  | init (disk fs : FileSystem) (format : Bool) :
      FileSystem.init cfg disk format = some fs → FsReachable cfg fs
  | create (fs : FileSystem) (pathName : List Char) (initialSize : Nat) (isDir : Bool) :
      FsReachable cfg fs → FsReachable cfg (fs.Create cfg pathName initialSize isDir).2
  | openFile (fs : FileSystem) (pathName : List Char) :
      FsReachable cfg fs → FsReachable cfg (fs.Open pathName).2
  | remove (fs : FileSystem) (fuel : Nat) (recursive : Bool) (pathName : List Char)
      (r : Bool × FileSystem) :
      FsReachable cfg fs → FileSystem.Remove fuel fs recursive pathName = some r →
      FsReachable cfg r.2
  | list (fs : FileSystem) (recursive : Bool) (listDirPath : List Char)
      (out : Option (Directory × Bool)) :
      FsReachable cfg fs → fs.List recursive listDirPath = out → FsReachable cfg fs

/-- The file-system states reachable from the freshly formatted disk `fs0` by
Create and Remove. -/
inductive FormatReachable (cfg : DiskConfig) (fs0 : FileSystem) : FileSystem → Prop where
  | format (disk : FileSystem) :
      FileSystem.init cfg disk true = some fs0 → FormatReachable cfg fs0 fs0
  | create (fs : FileSystem) (pathName : List Char) (initialSize : Nat) (isDir : Bool) :
      FormatReachable cfg fs0 fs →
      FormatReachable cfg fs0 (fs.Create cfg pathName initialSize isDir).2
  | remove (fs : FileSystem) (fuel : Nat) (recursive : Bool) (pathName : List Char)
      (r : Bool × FileSystem) :
      FormatReachable cfg fs0 fs → FileSystem.Remove fuel fs recursive pathName = some r →
      FormatReachable cfg fs0 r.2

/-- The sectors set aside at formatting: the header sectors of the bitmap file
and of the root directory file, and the data sectors of the two files. -/
def reservedSectors (fs : FileSystem) : List Nat :=
  FreeMapSector :: DirectorySector ::
    ((fs.headers FreeMapSector).dataSectors ++ (fs.headers DirectorySector).dataSectors)

/-- The reserved sectors are kept: the reserved sectors are the ones in `R`, the
bits of `R` are set, and the directories marked by `G`, the root directory
among them, hold only in-use entries that refer to directories marked by `G`
and to header and data sectors outside `R`. -/
def reservedKept (R : List Nat) (G : Nat → Prop) (fs : FileSystem) : Prop :=
  reservedSectors fs = R ∧
  (∀ r ∈ R, Bitmap.Test fs.freeMap r = true) ∧
  G DirectorySector ∧
  ∀ s, G s → ∀ e ∈ (fs.directories s).table, e.inUse = true →
    G e.sector ∧ e.sector ∉ R ∧ ∀ d ∈ (fs.headers e.sector).dataSectors, d ∉ R

/-- What a removal `rm` does to well-formed trees of depth at most `depth`: for
a path whose last component names the entry `e` of the directory `P` reached by
the components in front of it, where the tree below `e` has plain names, its
directories are pairwise different and none of them is read on the way to `P`,
the removal succeeds, writes no header, clears exactly the sectors of the tree
in the bitmap, writes the parent table with the name released, leaves every
directory outside the tree and other than the parent as it was, and does not
touch the open-file table. -/
def removesTree (rm : FileSystem → Bool → List Char → Option (Bool × FileSystem))
    (depth : Nat) : Prop :=
  ∀ (fs : FileSystem) (pathName : List Char) (toks : List (List Char)) (name : List Char)
    (P : OpenFile) (e : DirectoryEntry),
    strtok pathName = toks ++ [name] → getFileName pathName = name →
    fs.resolveAll directoryFile toks = some P →
    (fs.directories P.sector).lookup name = some e →
    fs.shaped depth e = true → (fs.treeDirs depth e).Nodup →
    (∀ s ∈ fs.resolveSectors directoryFile toks, s ∉ fs.treeDirs depth e) →
    ∃ fs2, rm fs true pathName = some (true, fs2) ∧
      fs2.headers = fs.headers ∧
      fs2.freeMap = (fs.treeSectors depth e).foldl Bitmap.Clear fs.freeMap ∧
      fs2.directories P.sector = ((fs.directories P.sector).Remove name).2 ∧
      (∀ s, s ≠ P.sector → s ∉ fs.treeDirs depth e → fs2.directories s = fs.directories s) ∧
      fs2.fileDescriptorTable = fs.fileDescriptorTable ∧ fs2.top = fs.top

/-- The open-file table is in order: at most 20 handles are registered, the
table has its 20 slots, and exactly the slots below `top` hold a handle. -/
def openTableOk (fs : FileSystem) : Prop :=
  fs.top ≤ 20 ∧ fs.fileDescriptorTable.length = 20 ∧
  ∀ i, i < 20 → ((fs.fileDescriptorTable.getD i none).isSome = true ↔ i < fs.top)

/-! ## Sample disks -/

/-- A disk of 16 sectors of 128 bytes whose directory entries take 4 bytes: the
bitmap file takes one data sector and a directory file two. -/
def demoConfig : DiskConfig := { NumSectors := 16, SectorSize := 128, DirectoryEntrySize := 4 }

/-- A disk before formatting. -/
def blankDisk : FileSystem :=
  { freeMap := [],
    headers := fun _ => { numBytes := 0, numSectors := 0, dataSectors := [] },
    directories := fun _ => Directory.new 0,
    fileDescriptorTable := [],
    top := 0 }

/-- The freshly formatted sample disk: sectors 0 to 4 are taken. -/
def formattedDisk : FileSystem :=
  (FileSystem.init demoConfig blankDisk true).getD blankDisk

/-- The path "/a". -/
def pathA : List Char := ['/', 'a']

/-- The path "/d/f". -/
def pathDF : List Char := ['/', 'd', '/', 'f']

/-- The path "/abcdefghij", whose name has ten characters. -/
def pathLongName : List Char := ['/', 'a', 'b', 'c', 'd', 'e', 'f', 'g', 'h', 'i', 'j']

/-- The formatted sample disk after Create("/a", 100 bytes, file). -/
def diskWithA : FileSystem := (formattedDisk.Create demoConfig pathA 100 false).2

/-- The path "/a/b". -/
def pathAB : List Char := ['/', 'a', '/', 'b']

/-- The path "/d". -/
def pathD : List Char := ['/', 'd']

/-- The path "/d/x/", with a slash at its end. -/
def pathDXSlash : List Char := ['/', 'd', '/', 'x', '/']

/-- The path "/y/", with a slash at its end. -/
def pathYSlash : List Char := ['/', 'y', '/']

/-- The path "/p". -/
def pathP : List Char := ['/', 'p']

/-- The path "/q". -/
def pathQ : List Char := ['/', 'q']

/-- The formatted sample disk after Create("/d", directory), Create("/d/x/", 100
bytes, file) and Create("/y/", 100 bytes, file): the directory "d" (header
sector 5) holds an entry with the empty name (header sector 8), and so does the
root directory (header sector 10). -/
def trailDisk : FileSystem :=
  (((formattedDisk.Create demoConfig pathD 0 true).2.Create demoConfig pathDXSlash 100 false).2.Create
    demoConfig pathYSlash 100 false).2

/-- The sample disk `trailDisk` after Remove(recursive, "/d"). -/
def revivedDisk : FileSystem :=
  ((FileSystem.Remove 3 trailDisk true pathD).getD (false, trailDisk)).2

/-- The sample disk `revivedDisk` after Create("/p", 256 bytes, file) and
Create("/q", 100 bytes, file). -/
def sharedDisk : FileSystem :=
  ((revivedDisk.Create demoConfig pathP 256 false).2.Create demoConfig pathQ 100 false).2

/-- The formatted sample disk after Create("/d", directory) and Create("/d/f",
100 bytes, file): "d" has header sector 5 and data sectors 6 and 7, "f" has
header sector 8 and data sector 9. -/
def nestedDisk : FileSystem :=
  ((formattedDisk.Create demoConfig pathD 0 true).2.Create demoConfig pathDF 100 false).2

/-- The path "/d/e". -/
def pathDE : List Char := ['/', 'd', '/', 'e']

/-- The path "/d/e/f". -/
def pathDEF : List Char := ['/', 'd', '/', 'e', '/', 'f']

/-- The path "/d/g". -/
def pathDG : List Char := ['/', 'd', '/', 'g']

/-- The formatted sample disk after Create("/d", directory), Create("/d/e",
directory), Create("/d/e/f", 100 bytes, file) and Create("/d/g", 100 bytes,
file): "d" takes sectors 5 to 7, "e" sectors 8 to 10, "f" sectors 11 and 12,
"g" sectors 13 and 14. -/
def deepDisk : FileSystem :=
  ((((formattedDisk.Create demoConfig pathD 0 true).2.Create demoConfig pathDE 0 true).2.Create
    demoConfig pathDEF 100 false).2.Create demoConfig pathDG 100 false).2

/-- The entry of "d" in the root directory of `deepDisk`. -/
def entryD : DirectoryEntry := { inUse := true, isDir := true, sector := 5, name := ['d'] }

/-- The path "/a/", with a slash at its end. -/
def pathASlash : List Char := ['/', 'a', '/']

/-- The path "abcdefghij", without a slash: one component of ten characters. -/
def pathTenChars : List Char := ['a', 'b', 'c', 'd', 'e', 'f', 'g', 'h', 'i', 'j']

/-- The path "/zz/", with a slash at its end. -/
def pathZZSlash : List Char := ['/', 'z', 'z', '/']

/-- The path "/q/z". -/
def pathQZ : List Char := ['/', 'q', '/', 'z']

/-- The formatted sample disk after Create("/y/", 100 bytes, file): the root
directory holds an entry with the empty name (header sector 5, data sector
6). -/
def emptyNameDisk : FileSystem := (formattedDisk.Create demoConfig pathYSlash 100 false).2

/-- The sample disk `revivedDisk` after Create("/p", 256 bytes, file) and
Create("/q", directory): the root entries "" and "q" both refer to header
sector 10. -/
def doubledDisk : FileSystem :=
  ((revivedDisk.Create demoConfig pathP 256 false).2.Create demoConfig pathQ 0 true).2

/-- The sample disk `doubledDisk` after Remove(not recursive, "/y/"), which
removes the root entry "": the directory "q" is still an in-use entry of the
root, and its header sector 10 and data sectors 11 and 12 are clear in the
bitmap. -/
def orphanDisk : FileSystem :=
  ((FileSystem.Remove 1 doubledDisk false pathYSlash).getD (false, doubledDisk)).2

/-! ## Facts about the queue containers -/

theorem mem_Insert (compare : Nat → Nat → Int) (item x : Nat) (q : List Nat) :
    x ∈ Insert compare item q ↔ x = item ∨ x ∈ q := by
  induction q with
  | nil => simp [Insert]
  | cons y rest ih =>
    unfold Insert
    split
    · simp
    · simp only [List.mem_cons, ih]
      tauto

theorem mem_Remove (q : List Nat) (item x : Nat) :
    x ∈ Remove q item ↔ x ∈ q ∧ x ≠ item := by
  simp [Remove]

theorem mem_Append (q : List Nat) (item x : Nat) :
    x ∈ Append q item ↔ x ∈ q ∨ x = item := by
  simp [Append]

/-- On a queue that holds the task once, `Remove` is the removal of that one
occurrence. -/
theorem Remove_eq_erase (q : List Nat) (item : Nat) (h : q.Nodup) :
    Remove q item = q.erase item := by
  rw [List.Nodup.erase_eq_filter h]
  unfold Remove
  congr 1
  funext x
  by_cases hx : x = item <;> simp [hx]

theorem Remove_of_not_mem (q : List Nat) (item : Nat) (h : item ∉ q) :
    Remove q item = q := by
  unfold Remove
  rw [List.filter_eq_self]
  intro a ha
  have : a ≠ item := fun e => h (e ▸ ha)
  simpa using this

/-- The guarded removal used by CheckAging is the removal itself. -/
theorem guarded_Remove (q : List Nat) (item : Nat) :
    (if IsInList q item then Remove q item else q) = Remove q item := by
  by_cases h : item ∈ q
  · simp [IsInList, h]
  · simp [IsInList, h, Remove_of_not_mem q item h]

/-- Where `Insert` puts a task in a queue sorted by `key`, when the comparison
function orders by `key`: behind every task whose key is at most its own, in
front of every task whose key is larger, the queued tasks keeping their
order. -/
theorem Insert_stable {α : Type} [LinearOrder α] (key : Nat → α)
    (compare : Nat → Nat → Int) (item : Nat) (q : List Nat)
    (hcmp : ∀ y, compare item y < 0 ↔ key item < key y)
    (hs : q.Pairwise (fun a b => key a ≤ key b)) :
    ∃ l1 l2, q = l1 ++ l2 ∧ Insert compare item q = l1 ++ item :: l2 ∧
      (∀ y ∈ l1, key y ≤ key item) ∧ (∀ y ∈ l2, key item < key y) := by
  induction q with
  | nil => exact ⟨[], [], rfl, rfl, by simp, by simp⟩
  | cons y rest ih =>
    rw [List.pairwise_cons] at hs
    by_cases hlt : compare item y < 0
    · refine ⟨[], y :: rest, rfl, by simp [Insert, hlt], by simp, ?_⟩
      intro z hz
      have hy : key item < key y := (hcmp y).1 hlt
      rcases List.mem_cons.1 hz with rfl | hz
      · exact hy
      · exact lt_of_lt_of_le hy (hs.1 z hz)
    · obtain ⟨l1, l2, hq, hi, h1, h2⟩ := ih hs.2
      refine ⟨y :: l1, l2, by simp [hq], by simp [Insert, hlt, hi], ?_, h2⟩
      intro z hz
      rcases List.mem_cons.1 hz with rfl | hz
      · exact not_lt.1 (fun h => hlt ((hcmp z).2 h))
      · exact h1 z hz

/-- Putting a task at a position with the smaller keys in front and the larger
keys behind keeps a queue sorted. -/
theorem sorted_of_split {α : Type} [LinearOrder α] (key : Nat → α)
    (item : Nat) (l1 l2 : List Nat)
    (hs : (l1 ++ l2).Pairwise (fun a b => key a ≤ key b))
    (h1 : ∀ y ∈ l1, key y ≤ key item) (h2 : ∀ y ∈ l2, key item < key y) :
    (l1 ++ item :: l2).Pairwise (fun a b => key a ≤ key b) := by
  rw [List.pairwise_append] at hs ⊢
  refine ⟨hs.1, ?_, ?_⟩
  · rw [List.pairwise_cons]
    exact ⟨fun z hz => le_of_lt (h2 z hz), hs.2.1⟩
  · intro a ha b hb
    rcases List.mem_cons.1 hb with rfl | hb
    · exact h1 a ha
    · exact hs.2.2 a ha b hb

/-- A sorted queue stays sorted when the keys of its members do not change. -/
theorem sorted_congr {α : Type} [LinearOrder α] (key key2 : Nat → α) (q : List Nat)
    (hs : q.Pairwise (fun a b => key a ≤ key b))
    (hk : ∀ y ∈ q, key2 y = key y) :
    q.Pairwise (fun a b => key2 a ≤ key2 b) := by
  refine List.Pairwise.imp_of_mem ?_ hs
  intro a b ha hb hab
  rw [hk a ha, hk b hb]
  exact hab

theorem L1cmp_lt (threads : Nat → Thread) (a b : Nat) :
    L1cmp threads a b < 0 ↔ (threads a).burstTime < (threads b).burstTime := by
  unfold L1cmp
  simp only
  split_ifs with h1 h2
  · simp [h1]
  · simp [h1]
  · simp [h1]

theorem L2cmp_lt (threads : Nat → Thread) (a b : Nat) :
    L2cmp threads a b < 0 ↔ (threads b).priority < (threads a).priority := by
  unfold L2cmp
  simp only
  omega

/-! ## Facts about the stages of ReadyToRun -/

theorem markJump_cases (k : Kernel) (t : Nat) (p : Int) :
    ReadyToRun.markJump k t p = k ∨ ReadyToRun.markJump k t p = setJump k t true := by
  unfold ReadyToRun.markJump
  simp only
  split_ifs <;> simp

theorem markJump_queues (k : Kernel) (t : Nat) (p : Int) :
    (ReadyToRun.markJump k t p).QueueL1 = k.QueueL1 ∧
    (ReadyToRun.markJump k t p).QueueL2 = k.QueueL2 ∧
    (ReadyToRun.markJump k t p).QueueL3 = k.QueueL3 := by
  rcases markJump_cases k t p with h | h <;> rw [h] <;> simp [setJump, Kernel.store]

theorem markJump_thread (k : Kernel) (t x : Nat) (p : Int) :
    ((ReadyToRun.markJump k t p).threads x).ID = (k.threads x).ID ∧
    ((ReadyToRun.markJump k t p).threads x).priority = (k.threads x).priority ∧
    ((ReadyToRun.markJump k t p).threads x).status = (k.threads x).status ∧
    ((ReadyToRun.markJump k t p).threads x).burstTime = (k.threads x).burstTime ∧
    ((ReadyToRun.markJump k t p).threads x).waitTime = (k.threads x).waitTime ∧
    ((ReadyToRun.markJump k t p).threads x).startTime = (k.threads x).startTime := by
  rcases markJump_cases k t p with h | h <;> rw [h]
  · simp
  · by_cases hx : x = t <;> simp [setJump, Kernel.store, hx]

theorem markJump_other (k : Kernel) (t x : Nat) (p : Int) (hx : x ≠ t) :
    (ReadyToRun.markJump k t p).threads x = k.threads x := by
  rcases markJump_cases k t p with h | h <;> rw [h]
  simp [setJump, Kernel.store, hx]

/-- The flag of the thread after the preemption decision of ReadyToRun. -/
theorem markJump_jump (k : Kernel) (t : Nat) (p : Int) :
    ((ReadyToRun.markJump k t p).threads t).jump =
      if (k.threads k.currentThread).ID ≠ (k.threads t).ID ∧
          (k.threads k.currentThread).ID ≥ 2 ∧
          ((p ≥ 100 ∧ (k.threads k.currentThread).priority < 100) ∨
           (p ≥ 100 ∧ (k.threads k.currentThread).priority ≥ 100 ∧
              (k.threads t).burstTime < (k.threads k.currentThread).burstTime) ∨
           (p ≥ 50 ∧ p ≤ 99 ∧ (k.threads k.currentThread).priority < 50))
      then true else (k.threads t).jump := by
  by_cases h0 : (k.threads k.currentThread).ID ≠ (k.threads t).ID ∧
      (k.threads k.currentThread).ID ≥ 2
  · by_cases h1 : p ≥ 100
    · by_cases h2 : (k.threads k.currentThread).priority ≥ 100
      · by_cases h3 : (k.threads t).burstTime < (k.threads k.currentThread).burstTime
        · have hc : (k.threads k.currentThread).ID ≠ (k.threads t).ID ∧
              (k.threads k.currentThread).ID ≥ 2 ∧
              ((p ≥ 100 ∧ (k.threads k.currentThread).priority < 100) ∨
               (p ≥ 100 ∧ (k.threads k.currentThread).priority ≥ 100 ∧
                  (k.threads t).burstTime < (k.threads k.currentThread).burstTime) ∨
               (p ≥ 50 ∧ p ≤ 99 ∧ (k.threads k.currentThread).priority < 50)) :=
            ⟨h0.1, h0.2, Or.inr (Or.inl ⟨h1, h2, h3⟩)⟩
          rw [if_pos hc]
          simp [ReadyToRun.markJump, h0, h1, h2, h3, setJump, Kernel.store]
        · have hc : ¬ ((k.threads k.currentThread).ID ≠ (k.threads t).ID ∧
              (k.threads k.currentThread).ID ≥ 2 ∧
              ((p ≥ 100 ∧ (k.threads k.currentThread).priority < 100) ∨
               (p ≥ 100 ∧ (k.threads k.currentThread).priority ≥ 100 ∧
                  (k.threads t).burstTime < (k.threads k.currentThread).burstTime) ∨
               (p ≥ 50 ∧ p ≤ 99 ∧ (k.threads k.currentThread).priority < 50))) := by
            rintro ⟨_, _, ⟨_, h⟩ | ⟨_, _, h⟩ | ⟨_, h, _⟩⟩
            · omega
            · exact h3 h
            · omega
          rw [if_neg hc]
          simp [ReadyToRun.markJump, h0, h1, h2, h3]
      · have hc : (k.threads k.currentThread).ID ≠ (k.threads t).ID ∧
            (k.threads k.currentThread).ID ≥ 2 ∧
            ((p ≥ 100 ∧ (k.threads k.currentThread).priority < 100) ∨
             (p ≥ 100 ∧ (k.threads k.currentThread).priority ≥ 100 ∧
                (k.threads t).burstTime < (k.threads k.currentThread).burstTime) ∨
             (p ≥ 50 ∧ p ≤ 99 ∧ (k.threads k.currentThread).priority < 50)) :=
          ⟨h0.1, h0.2, Or.inl ⟨h1, by omega⟩⟩
        rw [if_pos hc]
        simp [ReadyToRun.markJump, h0, h1, h2, setJump, Kernel.store]
    · by_cases h2 : p ≥ 50 ∧ (k.threads k.currentThread).priority < 50
      · have hc : (k.threads k.currentThread).ID ≠ (k.threads t).ID ∧
            (k.threads k.currentThread).ID ≥ 2 ∧
            ((p ≥ 100 ∧ (k.threads k.currentThread).priority < 100) ∨
             (p ≥ 100 ∧ (k.threads k.currentThread).priority ≥ 100 ∧
                (k.threads t).burstTime < (k.threads k.currentThread).burstTime) ∨
             (p ≥ 50 ∧ p ≤ 99 ∧ (k.threads k.currentThread).priority < 50)) :=
          ⟨h0.1, h0.2, Or.inr (Or.inr ⟨h2.1, by omega, h2.2⟩)⟩
        rw [if_pos hc]
        simp [ReadyToRun.markJump, h0, h1, h2, setJump, Kernel.store]
      · have hc : ¬ ((k.threads k.currentThread).ID ≠ (k.threads t).ID ∧
            (k.threads k.currentThread).ID ≥ 2 ∧
            ((p ≥ 100 ∧ (k.threads k.currentThread).priority < 100) ∨
             (p ≥ 100 ∧ (k.threads k.currentThread).priority ≥ 100 ∧
                (k.threads t).burstTime < (k.threads k.currentThread).burstTime) ∨
             (p ≥ 50 ∧ p ≤ 99 ∧ (k.threads k.currentThread).priority < 50))) := by
          rintro ⟨_, _, ⟨h, _⟩ | ⟨h, _⟩ | ⟨h, _, h'⟩⟩
          · exact h1 h
          · exact h1 h
          · exact h2 ⟨h, h'⟩
        rw [if_neg hc]
        simp [ReadyToRun.markJump, h0, h1, h2]
  · have hc : ¬ ((k.threads k.currentThread).ID ≠ (k.threads t).ID ∧
        (k.threads k.currentThread).ID ≥ 2 ∧
        ((p ≥ 100 ∧ (k.threads k.currentThread).priority < 100) ∨
         (p ≥ 100 ∧ (k.threads k.currentThread).priority ≥ 100 ∧
            (k.threads t).burstTime < (k.threads k.currentThread).burstTime) ∨
         (p ≥ 50 ∧ p ≤ 99 ∧ (k.threads k.currentThread).priority < 50))) := by
      rintro ⟨h, h', _⟩
      exact h0 ⟨h, h'⟩
    rw [if_neg hc]
    simp [ReadyToRun.markJump, h0]

theorem enqueue_threads (k : Kernel) (t : Nat) (p : Int) :
    (ReadyToRun.enqueue k t p).threads = k.threads ∧
    (ReadyToRun.enqueue k t p).currentThread = k.currentThread := by
  unfold ReadyToRun.enqueue
  split_ifs <;> simp

theorem ReadyToRun_eq (k : Kernel) (t : Nat) (hlevel : k.level = IntStatus.IntOff) :
    ReadyToRun k t = some (ReadyToRun.markJump
      (ReadyToRun.enqueue (setWaitTime (setStatus k t ThreadStatus.READY) t k.totalTicks) t
        (k.threads t).priority) t (k.threads t).priority) := by
  simp [ReadyToRun, hlevel, setStatus, Kernel.store]

theorem L1cmp_congr (a b : Nat → Thread)
    (h : ∀ x, (a x).burstTime = (b x).burstTime) : L1cmp a = L1cmp b := by
  funext x y
  simp [L1cmp, h]

theorem L2cmp_congr (a b : Nat → Thread)
    (h : ∀ x, (a x).priority = (b x).priority) : L2cmp a = L2cmp b := by
  funext x y
  simp [L2cmp, h]

theorem enqueue_QueueL1 (k : Kernel) (t : Nat) (p : Int) :
    (ReadyToRun.enqueue k t p).QueueL1 = k.QueueL1 ∨
    (ReadyToRun.enqueue k t p).QueueL1 = Insert (L1cmp k.threads) t k.QueueL1 := by
  unfold ReadyToRun.enqueue
  split_ifs <;> simp

theorem enqueue_QueueL2 (k : Kernel) (t : Nat) (p : Int) :
    (ReadyToRun.enqueue k t p).QueueL2 = k.QueueL2 ∨
    (ReadyToRun.enqueue k t p).QueueL2 = Insert (L2cmp k.threads) t k.QueueL2 := by
  unfold ReadyToRun.enqueue
  split_ifs <;> simp

/-- What a completed ReadyToRun does to burst times, priorities, L1 and L2. -/
theorem ReadyToRun_some (k r : Kernel) (t : Nat) (h : ReadyToRun k t = some r) :
    (∀ x, (r.threads x).burstTime = (k.threads x).burstTime) ∧
    (∀ x, (r.threads x).priority = (k.threads x).priority) ∧
    (r.QueueL1 = k.QueueL1 ∨ r.QueueL1 = Insert (L1cmp r.threads) t k.QueueL1) ∧
    (r.QueueL2 = k.QueueL2 ∨ r.QueueL2 = Insert (L2cmp r.threads) t k.QueueL2) := by
  have hlevel : k.level = IntStatus.IntOff := by
    by_contra hne
    simp [ReadyToRun, hne] at h
  rw [ReadyToRun_eq k t hlevel] at h
  injection h with h
  have hb : ∀ x, (r.threads x).burstTime = (k.threads x).burstTime := by
    intro x
    rw [← h, (markJump_thread _ t x _).2.2.2.1, (enqueue_threads _ t _).1]
    by_cases hx : x = t <;> simp [setWaitTime, setStatus, Kernel.store, hx]
  have hp : ∀ x, (r.threads x).priority = (k.threads x).priority := by
    intro x
    rw [← h, (markJump_thread _ t x _).2.1, (enqueue_threads _ t _).1]
    by_cases hx : x = t <;> simp [setWaitTime, setStatus, Kernel.store, hx]
  refine ⟨hb, hp, ?_, ?_⟩
  · rw [← h, (markJump_queues _ t _).1]
    rcases enqueue_QueueL1 (setWaitTime (setStatus k t ThreadStatus.READY) t k.totalTicks) t
      (k.threads t).priority with e | e
    · exact Or.inl (by rw [e]; simp [setWaitTime, setStatus, Kernel.store])
    · refine Or.inr ?_
      rw [e, h]
      have hc : L1cmp (setWaitTime (setStatus k t ThreadStatus.READY) t k.totalTicks).threads
          = L1cmp r.threads := by
        apply L1cmp_congr
        intro x
        rw [hb x]
        by_cases hx : x = t <;> simp [setWaitTime, setStatus, Kernel.store, hx]
      rw [hc]
      simp [setWaitTime, setStatus, Kernel.store]
  · rw [← h, (markJump_queues _ t _).2.1]
    rcases enqueue_QueueL2 (setWaitTime (setStatus k t ThreadStatus.READY) t k.totalTicks) t
      (k.threads t).priority with e | e
    · exact Or.inl (by rw [e]; simp [setWaitTime, setStatus, Kernel.store])
    · refine Or.inr ?_
      rw [e, h]
      have hc : L2cmp (setWaitTime (setStatus k t ThreadStatus.READY) t k.totalTicks).threads
          = L2cmp r.threads := by
        apply L2cmp_congr
        intro x
        rw [hp x]
        by_cases hx : x = t <;> simp [setWaitTime, setStatus, Kernel.store, hx]
      rw [hc]
      simp [setWaitTime, setStatus, Kernel.store]

/-! ## Facts about CheckAging -/

theorem newToL1_state (k1 : Kernel) (t : Nat) :
    (CheckAging.newToL1 k1 t).state =
      { k1 with
        QueueL1 := Insert (L1cmp k1.threads) t k1.QueueL1,
        QueueL2 := if IsInList k1.QueueL2 t then Remove k1.QueueL2 t else k1.QueueL2 } := rfl

theorem newToL2_state (k1 : Kernel) (t : Nat) :
    (CheckAging.newToL2 k1 t).state =
      { k1 with
        QueueL2 := Insert (L2cmp k1.threads) t k1.QueueL2,
        QueueL3 := if IsInList k1.QueueL3 t then Remove k1.QueueL3 t else k1.QueueL3 } := rfl

theorem newToL1_yielded (k1 : Kernel) (t : Nat) :
    (CheckAging.newToL1 k1 t).yielded = true ↔
      (k1.threads k1.currentThread).ID ≠ (k1.threads t).ID ∧
      ((k1.threads k1.currentThread).priority < 100 ∨
        ((k1.threads k1.currentThread).priority ≥ 100 ∧
          (k1.threads t).burstTime < (k1.threads k1.currentThread).burstTime)) := by
  by_cases h1 : (k1.threads k1.currentThread).priority ≥ 100 <;>
  by_cases h2 : (k1.threads k1.currentThread).ID = (k1.threads t).ID <;>
  by_cases h3 : (k1.threads t).burstTime < (k1.threads k1.currentThread).burstTime <;>
  simp [CheckAging.newToL1, h1, h2, h3]

theorem newToL2_yielded (k1 : Kernel) (t : Nat) :
    (CheckAging.newToL2 k1 t).yielded = true ↔
      (k1.threads k1.currentThread).ID ≠ (k1.threads t).ID ∧
      (k1.threads k1.currentThread).priority < 50 := by
  by_cases h1 : (k1.threads k1.currentThread).priority < 50 <;>
  by_cases h2 : (k1.threads k1.currentThread).ID = (k1.threads t).ID <;>
  simp [CheckAging.newToL2, h1, h2]

/-- A call that does not age the thread returns false and changes nothing. -/
theorem CheckAging_not_due (k : Kernel) (t : Nat)
    (h : ¬ ((k.threads t).status = ThreadStatus.READY
      ∧ k.totalTicks - (k.threads t).waitTime ≥ 1500 ∧ (k.threads t).ID ≥ 2)) :
    CheckAging k t = { ret := false, yielded := false, state := k } := by
  unfold CheckAging
  simp only [if_neg h]

/-- The thread table after a call that ages the thread: only the priority and
the wait-start of that thread are written. -/
theorem CheckAging_due_threads (k : Kernel) (t : Nat)
    (h : (k.threads t).status = ThreadStatus.READY
      ∧ k.totalTicks - (k.threads t).waitTime ≥ 1500 ∧ (k.threads t).ID ≥ 2) :
    (CheckAging k t).state.threads =
      (setWaitTime (setPriority k t
        (if (k.threads t).priority + 10 ≥ 149 then 149 else (k.threads t).priority + 10))
        t k.totalTicks).threads := by
  unfold CheckAging
  simp only [if_pos h]
  split_ifs <;> simp [newToL1_state, newToL2_state, setWaitTime, setPriority, Kernel.store]

/-- A call that ages the thread, unfolded: the update of the thread followed by
the choice between the three branches. -/
theorem CheckAging_due (k : Kernel) (t : Nat)
    (h : (k.threads t).status = ThreadStatus.READY
      ∧ k.totalTicks - (k.threads t).waitTime ≥ 1500 ∧ (k.threads t).ID ≥ 2) :
    CheckAging k t =
      if (k.threads t).priority < 100 ∧ min ((k.threads t).priority + 10) 149 ≥ 100 then
        CheckAging.newToL1 (setWaitTime (setPriority k t
          (min ((k.threads t).priority + 10) 149)) t k.totalTicks) t
      else if (k.threads t).priority < 50 ∧ min ((k.threads t).priority + 10) 149 ≥ 50 then
        CheckAging.newToL2 (setWaitTime (setPriority k t
          (min ((k.threads t).priority + 10) 149)) t k.totalTicks) t
      else
        { ret := false, yielded := false,
          state := setWaitTime (setPriority k t
            (min ((k.threads t).priority + 10) 149)) t k.totalTicks } := by
  have hmin : (if (k.threads t).priority + 10 ≥ 149 then 149 else (k.threads t).priority + 10)
      = min ((k.threads t).priority + 10) 149 := by
    split_ifs <;> omega
  unfold CheckAging
  simp only [if_pos h, hmin]

/-- The priority of the thread after any call of CheckAging. -/
theorem CheckAging_priority (k : Kernel) (t : Nat) :
    ((CheckAging k t).state.threads t).priority =
      if (k.threads t).status = ThreadStatus.READY
          ∧ k.totalTicks - (k.threads t).waitTime ≥ 1500 ∧ (k.threads t).ID ≥ 2
      then min ((k.threads t).priority + 10) 149
      else (k.threads t).priority := by
  by_cases h : (k.threads t).status = ThreadStatus.READY
      ∧ k.totalTicks - (k.threads t).waitTime ≥ 1500 ∧ (k.threads t).ID ≥ 2
  · rw [CheckAging_due_threads k t h, if_pos h]
    simp only [setWaitTime, setPriority, Kernel.store, if_true]
    split_ifs <;> omega
  · rw [CheckAging_not_due k t h, if_neg h]

/-- What CheckAging does to burst times, priorities and queues: burst times
and the priorities of the other threads are kept; the queues are untouched, or
the thread moves from L2 to L1, or it moves from L3 to L2 with its priority
raised from below 50 to at least 50. -/
theorem CheckAging_cases (k : Kernel) (t : Nat) :
    (∀ x, ((CheckAging k t).state.threads x).burstTime = (k.threads x).burstTime) ∧
    (∀ x, x ≠ t → ((CheckAging k t).state.threads x).priority = (k.threads x).priority) ∧
    (((CheckAging k t).state.QueueL1 = k.QueueL1 ∧
        (CheckAging k t).state.QueueL2 = k.QueueL2 ∧
        (CheckAging k t).state.QueueL3 = k.QueueL3) ∨
     ((CheckAging k t).state.QueueL1 = Insert (L1cmp (CheckAging k t).state.threads) t k.QueueL1 ∧
        (CheckAging k t).state.QueueL2 = Remove k.QueueL2 t ∧
        (CheckAging k t).state.QueueL3 = k.QueueL3) ∨
     ((CheckAging k t).state.QueueL1 = k.QueueL1 ∧
        (CheckAging k t).state.QueueL2 = Insert (L2cmp (CheckAging k t).state.threads) t k.QueueL2 ∧
        (CheckAging k t).state.QueueL3 = Remove k.QueueL3 t ∧
        (k.threads t).priority < 50 ∧
        50 ≤ ((CheckAging k t).state.threads t).priority)) := by
  by_cases h : (k.threads t).status = ThreadStatus.READY
      ∧ k.totalTicks - (k.threads t).waitTime ≥ 1500 ∧ (k.threads t).ID ≥ 2
  · have hth := CheckAging_due_threads k t h
    refine ⟨?_, ?_, ?_⟩
    · intro x
      rw [hth]
      by_cases hx : x = t <;> simp [setWaitTime, setPriority, Kernel.store, hx]
    · intro x hx
      rw [hth]
      simp [setWaitTime, setPriority, Kernel.store, hx]
    · have hpr := CheckAging_priority k t
      rw [if_pos h] at hpr
      rw [hpr]
      have hd := CheckAging_due k t h
      by_cases hc1 : (k.threads t).priority < 100
          ∧ min ((k.threads t).priority + 10) 149 ≥ 100
      · rw [if_pos hc1] at hd
        refine Or.inr (Or.inl ?_)
        have hst : (CheckAging k t).state = (CheckAging.newToL1 (setWaitTime (setPriority k t
            (min ((k.threads t).priority + 10) 149)) t k.totalTicks) t).state := by rw [hd]
        rw [newToL1_state, guarded_Remove] at hst
        rw [hst]
        simp [setWaitTime, setPriority, Kernel.store]
      · rw [if_neg hc1] at hd
        by_cases hc2 : (k.threads t).priority < 50
            ∧ min ((k.threads t).priority + 10) 149 ≥ 50
        · rw [if_pos hc2] at hd
          refine Or.inr (Or.inr ?_)
          have hst : (CheckAging k t).state = (CheckAging.newToL2 (setWaitTime (setPriority k t
              (min ((k.threads t).priority + 10) 149)) t k.totalTicks) t).state := by rw [hd]
          rw [newToL2_state, guarded_Remove] at hst
          rw [hst]
          simp [setWaitTime, setPriority, Kernel.store, hc2.1, hc2.2]
        · rw [if_neg hc2] at hd
          refine Or.inl ?_
          rw [hd]
          simp [setWaitTime, setPriority, Kernel.store]
  · rw [CheckAging_not_due k t h]
    simp

/-- What a completed FindNextToRun does to the thread table, L1 and L2. -/
theorem FindNextToRun_some (k r : Kernel) (res : Option Nat)
    (h : FindNextToRun k = some (res, r)) :
    r.threads = k.threads ∧
    (r.QueueL1 = k.QueueL1 ∨ ∃ t, res = some t ∧ k.QueueL1 = t :: r.QueueL1) ∧
    (r.QueueL2 = k.QueueL2 ∨
      ∃ t, res = some t ∧ k.QueueL1 = [] ∧ k.QueueL2 = t :: r.QueueL2) := by
  have hlevel : k.level = IntStatus.IntOff := by
    by_contra hne
    simp [FindNextToRun, hne] at h
  cases h1 : k.QueueL1 with
  | cons a rest =>
    simp only [FindNextToRun, hlevel, IsEmpty, RemoveFront, h1, ne_eq, not_true_eq_false,
      if_false, List.isEmpty_cons, Bool.not_false, if_true, Option.some.injEq,
      Prod.mk.injEq] at h
    obtain ⟨hres, hr⟩ := h
    subst hr
    exact ⟨rfl, Or.inr ⟨a, hres.symm, rfl⟩, Or.inl rfl⟩
  | nil =>
    cases h2 : k.QueueL2 with
    | cons a rest =>
      simp only [FindNextToRun, hlevel, IsEmpty, RemoveFront, h1, h2, ne_eq, not_true_eq_false,
        if_false, List.isEmpty_cons, List.isEmpty_nil, Bool.not_false, Bool.not_true,
        Bool.false_eq_true, if_true, Option.some.injEq, Prod.mk.injEq] at h
      obtain ⟨hres, hr⟩ := h
      subst hr
      exact ⟨rfl, Or.inl (by simp [h1]), Or.inr ⟨a, hres.symm, rfl, rfl⟩⟩
    | nil =>
      cases h3 : k.QueueL3 with
      | cons a rest =>
        simp only [FindNextToRun, hlevel, IsEmpty, RemoveFront, h1, h2, h3, ne_eq,
          not_true_eq_false, if_false, List.isEmpty_cons, List.isEmpty_nil, Bool.not_false,
          Bool.not_true, Bool.false_eq_true, if_true, Option.some.injEq, Prod.mk.injEq] at h
        obtain ⟨_, hr⟩ := h
        subst hr
        exact ⟨rfl, Or.inl (by simp [h1]), Or.inl (by simp [h2])⟩
      | nil =>
        simp only [FindNextToRun, hlevel, IsEmpty, h1, h2, h3, ne_eq, not_true_eq_false,
          if_false, List.isEmpty_nil, Bool.not_true, Bool.false_eq_true, Option.some.injEq,
          Prod.mk.injEq] at h
        obtain ⟨_, hr⟩ := h
        subst hr
        exact ⟨rfl, Or.inl h1, Or.inl h2⟩

/-- What a completed Run does to burst times, priorities and queues. -/
theorem Run_some (k r : Kernel) (n : Nat) (f : Bool) (h : Run k n f = some r) :
    (∀ x, (r.threads x).burstTime = (k.threads x).burstTime) ∧
    (∀ x, (r.threads x).priority = (k.threads x).priority) ∧
    r.QueueL1 = k.QueueL1 ∧ r.QueueL2 = k.QueueL2 ∧ r.QueueL3 = k.QueueL3 := by
  have hr : ∃ slot, r = setStatus { setStartTime k n k.userTicks with
      toBeDestroyed := slot, currentThread := n } n ThreadStatus.RUNNING := by
    unfold Run at h
    simp only at h
    by_cases h1 : (setStartTime k n k.userTicks).level ≠ IntStatus.IntOff
    · rw [if_pos h1] at h
      exact absurd h (by simp)
    · rw [if_neg h1] at h
      by_cases h2 : f = true ∧ (setStartTime k n k.userTicks).toBeDestroyed ≠ none
      · rw [if_pos h2] at h
        exact absurd h (by simp)
      · rw [if_neg h2] at h
        injection h with h
        by_cases hf : f = true
        · rw [if_pos hf] at h
          exact ⟨some k.currentThread, h.symm⟩
        · rw [if_neg hf] at h
          exact ⟨(setStartTime k n k.userTicks).toBeDestroyed, h.symm⟩
  obtain ⟨slot, hr⟩ := hr
  subst hr
  refine ⟨?_, ?_, ?_, ?_, ?_⟩
  · intro x
    by_cases hx : x = n <;> simp [setStatus, setStartTime, Kernel.store, hx]
  · intro x
    by_cases hx : x = n <;> simp [setStatus, setStartTime, Kernel.store, hx]
  · simp [setStatus, setStartTime, Kernel.store]
  · simp [setStatus, setStartTime, Kernel.store]
  · simp [setStatus, setStartTime, Kernel.store]

/-! ## Order of L1 along an execution -/

/-- One admitted event and L1: the burst times of the queued tasks are kept,
and the queue is untouched, or loses its front to FindNextToRun, or receives
one task behind the tasks of at most its burst time and in front of the tasks
of larger burst time. -/
theorem L1_step (k r : Kernel) (op : Op) (hs : L1Sorted k)
    (hall : burstKeptInL1 k op = true) (happ : applyOp k op = some r) :
    (∀ y ∈ k.QueueL1, (r.threads y).burstTime = (k.threads y).burstTime) ∧
    (r.QueueL1 = k.QueueL1 ∨
     (∃ t, FindNextToRun k = some (some t, r) ∧ k.QueueL1 = t :: r.QueueL1) ∨
     (∃ t l1 l2, k.QueueL1 = l1 ++ l2 ∧ r.QueueL1 = l1 ++ t :: l2 ∧
        (∀ y ∈ l1, (r.threads y).burstTime ≤ (r.threads t).burstTime) ∧
        (∀ y ∈ l2, (r.threads t).burstTime < (r.threads y).burstTime))) := by
  have hins : ∀ t, (∀ x, (r.threads x).burstTime = (k.threads x).burstTime) →
      r.QueueL1 = Insert (L1cmp r.threads) t k.QueueL1 →
      ∃ t l1 l2, k.QueueL1 = l1 ++ l2 ∧ r.QueueL1 = l1 ++ t :: l2 ∧
        (∀ y ∈ l1, (r.threads y).burstTime ≤ (r.threads t).burstTime) ∧
        (∀ y ∈ l2, (r.threads t).burstTime < (r.threads y).burstTime) := by
    intro t hb e
    have hs2 : k.QueueL1.Pairwise
        (fun a b => (r.threads a).burstTime ≤ (r.threads b).burstTime) :=
      sorted_congr (fun x => (k.threads x).burstTime) (fun x => (r.threads x).burstTime)
        k.QueueL1 hs (fun y _ => hb y)
    obtain ⟨l1, l2, h1, h2, h3, h4⟩ :=
      Insert_stable (fun x => (r.threads x).burstTime) (L1cmp r.threads) t k.QueueL1
        (fun y => L1cmp_lt r.threads t y) hs2
    exact ⟨t, l1, l2, h1, by rw [e, h2], h3, h4⟩
  cases op with
  | readyToRun t =>
    obtain ⟨hb, _, hq, _⟩ := ReadyToRun_some k r t happ
    refine ⟨fun y _ => hb y, ?_⟩
    rcases hq with e | e
    · exact Or.inl e
    · exact Or.inr (Or.inr (hins t hb e))
  | checkAging t =>
    simp only [applyOp, Option.some.injEq] at happ
    obtain ⟨hb, _, hq⟩ := CheckAging_cases k t
    rw [happ] at hb hq
    refine ⟨fun y _ => hb y, ?_⟩
    rcases hq with ⟨e, _⟩ | ⟨e, _⟩ | ⟨e, _⟩
    · exact Or.inl e
    · exact Or.inr (Or.inr (hins t hb e))
    · exact Or.inl e
  | findNextToRun =>
    simp only [applyOp] at happ
    cases hf : FindNextToRun k with
    | none => simp [hf] at happ
    | some res =>
      obtain ⟨res, r2⟩ := res
      simp only [hf, Option.some.injEq] at happ
      subst happ
      obtain ⟨hth, hq, _⟩ := FindNextToRun_some k r2 res hf
      refine ⟨fun y _ => by rw [hth], ?_⟩
      rcases hq with e | ⟨t, hres, e⟩
      · exact Or.inl e
      · exact Or.inr (Or.inl ⟨t, by rw [hres], e⟩)
  | run n f =>
    obtain ⟨hb, _, e, _⟩ := Run_some k r n f happ
    exact ⟨fun y _ => hb y, Or.inl e⟩
  | tick n =>
    simp only [applyOp, Option.some.injEq] at happ
    subst happ
    exact ⟨fun y _ => rfl, Or.inl rfl⟩
  | setBurstTime t b =>
    simp only [applyOp, Option.some.injEq] at happ
    subst happ
    have ht : t ∉ k.QueueL1 := by simpa [burstKeptInL1, IsInList] using hall
    refine ⟨?_, Or.inl rfl⟩
    intro y hy
    have hne : y ≠ t := fun e => ht (e ▸ hy)
    simp [Kernel.store, hne]

/-- An admitted event keeps L1 in ascending order of burst time. -/
theorem L1_step_sorted (k r : Kernel) (op : Op) (hs : L1Sorted k)
    (hall : burstKeptInL1 k op = true) (happ : applyOp k op = some r) : L1Sorted r := by
  obtain ⟨hb, hq⟩ := L1_step k r op hs hall happ
  have hs2 : k.QueueL1.Pairwise
      (fun a b => (r.threads a).burstTime ≤ (r.threads b).burstTime) :=
    sorted_congr (fun x => (k.threads x).burstTime) (fun x => (r.threads x).burstTime)
      k.QueueL1 hs hb
  unfold L1Sorted
  rcases hq with e | ⟨t, _, e⟩ | ⟨t, l1, l2, e1, e2, h1, h2⟩
  · rw [e]
    exact hs2
  · rw [e] at hs2
    exact (List.pairwise_cons.1 hs2).2
  · rw [e2]
    rw [e1] at hs2
    exact sorted_of_split (fun x => (r.threads x).burstTime) t l1 l2 hs2 h1 h2

theorem runOps_L1Sorted (ops : List Op) :
    ∀ k r, L1Sorted k → runOps burstKeptInL1 k ops = some r → L1Sorted r := by
  induction ops with
  | nil =>
    intro k r hs h
    simp only [runOps, Option.some.injEq] at h
    exact h ▸ hs
  | cons op rest ih =>
    intro k r hs h
    unfold runOps at h
    by_cases hall : burstKeptInL1 k op = true
    · rw [if_pos hall] at h
      cases happ : applyOp k op with
      | none => simp [happ] at h
      | some k2 =>
        simp only [happ] at h
        exact ih k2 r (L1_step_sorted k k2 op hs hall happ) h
    · rw [if_neg hall] at h
      exact absurd h (by simp)

theorem Reachable_L1Sorted (k : Kernel) (hk : Reachable burstKeptInL1 k) : L1Sorted k := by
  obtain ⟨k0, ops, h⟩ := hk
  exact runOps_L1Sorted ops (Scheduler.init k0) k (by simp [L1Sorted, Scheduler.init]) h

/-! ## Order of L2 along an execution -/

theorem descending_iff (th : Nat → Thread) (q : List Nat) :
    q.Pairwise (fun a b => (th a).priority ≥ (th b).priority) ↔
    q.Pairwise (fun a b => -(th a).priority ≤ -(th b).priority) := by
  simp only [neg_le_neg_iff, ge_iff_le]

/-- A `CheckAging` that is admitted keeps the priority of a thread that is in L2
before and after it. -/
theorem priorityKeptInL2_checkAging (k : Kernel) (t : Nat)
    (hall : priorityKeptInL2 k (Op.checkAging t) = true)
    (h1 : t ∈ k.QueueL2) (h2 : t ∈ (CheckAging k t).state.QueueL2) :
    ((CheckAging k t).state.threads t).priority = (k.threads t).priority := by
  by_contra hne
  simp [priorityKeptInL2, IsInList, h1, h2, hne] at hall

/-- One admitted event and L2: the priorities of the tasks that stay queued are
kept, and the queue is untouched, or loses its front to FindNextToRun, or loses
a task that aged into L1, or receives one task behind the tasks of at least its
priority and in front of the tasks of lower priority. -/
theorem L2_step (k r : Kernel) (op : Op) (hs : L2Sorted k)
    (hall : priorityKeptInL2 k op = true) (happ : applyOp k op = some r) :
    (∀ y ∈ k.QueueL2, y ∈ r.QueueL2 → (r.threads y).priority = (k.threads y).priority) ∧
    (r.QueueL2 = k.QueueL2 ∨
     (∃ t, FindNextToRun k = some (some t, r) ∧ k.QueueL1 = [] ∧
        k.QueueL2 = t :: r.QueueL2) ∨
     (∃ t, op = Op.checkAging t ∧ r.QueueL2 = Remove k.QueueL2 t) ∨
     (∃ t l1 l2, k.QueueL2 = l1 ++ l2 ∧ r.QueueL2 = l1 ++ t :: l2 ∧
        (∀ y ∈ l1, (r.threads y).priority ≥ (r.threads t).priority) ∧
        (∀ y ∈ l2, (r.threads y).priority < (r.threads t).priority))) := by
  have hins : ∀ t, (∀ y ∈ k.QueueL2, (r.threads y).priority = (k.threads y).priority) →
      r.QueueL2 = Insert (L2cmp r.threads) t k.QueueL2 →
      ∃ t l1 l2, k.QueueL2 = l1 ++ l2 ∧ r.QueueL2 = l1 ++ t :: l2 ∧
        (∀ y ∈ l1, (r.threads y).priority ≥ (r.threads t).priority) ∧
        (∀ y ∈ l2, (r.threads y).priority < (r.threads t).priority) := by
    intro t hp e
    have hs2 : k.QueueL2.Pairwise
        (fun a b => -(r.threads a).priority ≤ -(r.threads b).priority) :=
      sorted_congr (fun x => -(k.threads x).priority) (fun x => -(r.threads x).priority)
        k.QueueL2 ((descending_iff k.threads k.QueueL2).1 hs)
        (fun y hy => by simp only [hp y hy])
    obtain ⟨l1, l2, h1, h2, h3, h4⟩ :=
      Insert_stable (fun x => -(r.threads x).priority) (L2cmp r.threads) t k.QueueL2
        (fun y => by rw [L2cmp_lt]; exact neg_lt_neg_iff.symm) hs2
    refine ⟨t, l1, l2, h1, by rw [e, h2], ?_, ?_⟩
    · intro y hy
      exact neg_le_neg_iff.1 (h3 y hy)
    · intro y hy
      exact neg_lt_neg_iff.1 (h4 y hy)
  cases op with
  | readyToRun t =>
    obtain ⟨_, hp, _, hq⟩ := ReadyToRun_some k r t happ
    refine ⟨fun y _ _ => hp y, ?_⟩
    rcases hq with e | e
    · exact Or.inl e
    · exact Or.inr (Or.inr (Or.inr (hins t (fun y _ => hp y) e)))
  | checkAging t =>
    simp only [applyOp, Option.some.injEq] at happ
    obtain ⟨_, hp, hq⟩ := CheckAging_cases k t
    have hkeep := priorityKeptInL2_checkAging k t hall
    rw [happ] at hp hq hkeep
    have hsame : ∀ y ∈ k.QueueL2, y ∈ r.QueueL2 →
        (r.threads y).priority = (k.threads y).priority := by
      intro y hy hy2
      by_cases hyt : y = t
      · subst hyt
        exact hkeep hy hy2
      · exact hp y hyt
    refine ⟨hsame, ?_⟩
    rcases hq with ⟨_, e, _⟩ | ⟨_, e, _⟩ | ⟨_, e, _, hlt, hge⟩
    · exact Or.inl e
    · exact Or.inr (Or.inr (Or.inl ⟨t, rfl, e⟩))
    · refine Or.inr (Or.inr (Or.inr (hins t ?_ e)))
      intro y hy
      have hy2 : y ∈ r.QueueL2 := by
        rw [e, mem_Insert]
        exact Or.inr hy
      exact hsame y hy hy2
  | findNextToRun =>
    simp only [applyOp] at happ
    cases hf : FindNextToRun k with
    | none => simp [hf] at happ
    | some res =>
      obtain ⟨res, r2⟩ := res
      simp only [hf, Option.some.injEq] at happ
      subst happ
      obtain ⟨hth, _, hq⟩ := FindNextToRun_some k r2 res hf
      refine ⟨fun y _ _ => by rw [hth], ?_⟩
      rcases hq with e | ⟨t, hres, e1, e2⟩
      · exact Or.inl e
      · exact Or.inr (Or.inl ⟨t, by rw [hres], e1, e2⟩)
  | run n f =>
    obtain ⟨_, hp, _, e, _⟩ := Run_some k r n f happ
    exact ⟨fun y _ _ => hp y, Or.inl e⟩
  | tick n =>
    simp only [applyOp, Option.some.injEq] at happ
    subst happ
    exact ⟨fun y _ _ => rfl, Or.inl rfl⟩
  | setBurstTime t b =>
    simp only [applyOp, Option.some.injEq] at happ
    subst happ
    refine ⟨?_, Or.inl rfl⟩
    intro y _ _
    by_cases hyt : y = t <;> simp [Kernel.store, hyt]

/-- An admitted event keeps L2 in descending order of priority. -/
theorem L2_step_sorted (k r : Kernel) (op : Op) (hs : L2Sorted k)
    (hall : priorityKeptInL2 k op = true) (happ : applyOp k op = some r) : L2Sorted r := by
  obtain ⟨hp, hq⟩ := L2_step k r op hs hall happ
  have hsub : ∀ q : List Nat, q.Sublist k.QueueL2 → (∀ y ∈ q, y ∈ r.QueueL2) →
      q.Pairwise (fun a b => -(r.threads a).priority ≤ -(r.threads b).priority) := by
    intro q hsub hmem
    have h1 : q.Pairwise (fun a b => -(k.threads a).priority ≤ -(k.threads b).priority) :=
      List.Pairwise.sublist hsub ((descending_iff k.threads k.QueueL2).1 hs)
    exact sorted_congr (fun x => -(k.threads x).priority) (fun x => -(r.threads x).priority)
      q h1 (fun y hy => by simp only [hp y (hsub.subset hy) (hmem y hy)])
  unfold L2Sorted
  rw [descending_iff]
  rcases hq with e | ⟨t, _, _, e⟩ | ⟨t, _, e⟩ | ⟨t, l1, l2, e1, e2, h1, h2⟩
  · have h := hsub k.QueueL2 (List.Sublist.refl _) (fun y hy => by rw [e]; exact hy)
    rw [e]
    exact h
  · exact hsub r.QueueL2 (by rw [e]; exact List.sublist_cons_self t r.QueueL2)
      (fun y hy => hy)
  · exact hsub r.QueueL2 (by rw [e]; exact List.filter_sublist _) (fun y hy => hy)
  · have h := hsub (l1 ++ l2) (by rw [e1]) (fun y hy => by
      rw [e2]
      rcases List.mem_append.1 hy with hy | hy
      · exact List.mem_append.2 (Or.inl hy)
      · exact List.mem_append.2 (Or.inr (List.mem_cons_of_mem t hy)))
    rw [e2]
    exact sorted_of_split (fun x => -(r.threads x).priority) t l1 l2 h
      (fun y hy => neg_le_neg_iff.2 (h1 y hy)) (fun y hy => neg_lt_neg_iff.2 (h2 y hy))

theorem runOps_L2Sorted (ops : List Op) :
    ∀ k r, L2Sorted k → runOps priorityKeptInL2 k ops = some r → L2Sorted r := by
  induction ops with
  | nil =>
    intro k r hs h
    simp only [runOps, Option.some.injEq] at h
    exact h ▸ hs
  | cons op rest ih =>
    intro k r hs h
    unfold runOps at h
    by_cases hall : priorityKeptInL2 k op = true
    · rw [if_pos hall] at h
      cases happ : applyOp k op with
      | none => simp [happ] at h
      | some k2 =>
        simp only [happ] at h
        exact ih k2 r (L2_step_sorted k k2 op hs hall happ) h
    · rw [if_neg hall] at h
      exact absurd h (by simp)

theorem Reachable_L2Sorted (k : Kernel) (hk : Reachable priorityKeptInL2 k) : L2Sorted k := by
  obtain ⟨k0, ops, h⟩ := hk
  exact runOps_L2Sorted ops (Scheduler.init k0) k (by simp [L2Sorted, Scheduler.init]) h

/-! ## Queue membership along an execution -/

theorem Insert_nodup (compare : Nat → Nat → Int) (item : Nat) (q : List Nat)
    (hq : q.Nodup) (hnew : item ∉ q) : (Insert compare item q).Nodup := by
  induction q with
  | nil => simp [Insert]
  | cons y rest ih =>
    rw [List.nodup_cons] at hq
    have hy : item ≠ y := fun e => hnew (e ▸ List.mem_cons_self _ _)
    have hrest : item ∉ rest := fun h => hnew (List.mem_cons_of_mem _ h)
    unfold Insert
    split
    · rw [List.nodup_cons]
      exact ⟨hnew, List.nodup_cons.2 hq⟩
    · rw [List.nodup_cons, mem_Insert]
      refine ⟨?_, ih hq.2 hrest⟩
      rintro (e | h)
      · exact hy e.symm
      · exact hq.1 h

theorem Remove_nodup (q : List Nat) (item : Nat) (hq : q.Nodup) : (Remove q item).Nodup :=
  List.Nodup.filter _ hq

theorem Append_nodup (q : List Nat) (item : Nat) (hq : q.Nodup) (hnew : item ∉ q) :
    (Append q item).Nodup := by
  unfold Append
  rw [List.nodup_append]
  refine ⟨hq, by simp, ?_⟩
  intro a ha hb
  rw [List.mem_singleton] at hb
  exact hnew (hb ▸ ha)

/-- The queue a completed ReadyToRun touches, by the band of the priority. -/
theorem ReadyToRun_queues (k r : Kernel) (t : Nat) (h : ReadyToRun k t = some r) :
    (∀ x, (r.threads x).priority = (k.threads x).priority) ∧
    ((100 ≤ (k.threads t).priority ∧ (k.threads t).priority ≤ 149 ∧
        r.QueueL1 = Insert (L1cmp r.threads) t k.QueueL1 ∧
        r.QueueL2 = k.QueueL2 ∧ r.QueueL3 = k.QueueL3) ∨
     (50 ≤ (k.threads t).priority ∧ (k.threads t).priority ≤ 99 ∧
        r.QueueL1 = k.QueueL1 ∧
        r.QueueL2 = Insert (L2cmp r.threads) t k.QueueL2 ∧ r.QueueL3 = k.QueueL3) ∨
     (0 ≤ (k.threads t).priority ∧ (k.threads t).priority ≤ 49 ∧
        r.QueueL1 = k.QueueL1 ∧ r.QueueL2 = k.QueueL2 ∧
        r.QueueL3 = Append k.QueueL3 t) ∨
     (r.QueueL1 = k.QueueL1 ∧ r.QueueL2 = k.QueueL2 ∧ r.QueueL3 = k.QueueL3)) := by
  obtain ⟨_, hp, h1, h2⟩ := ReadyToRun_some k r t h
  refine ⟨hp, ?_⟩
  have hlevel : k.level = IntStatus.IntOff := by
    by_contra hne
    simp [ReadyToRun, hne] at h
  rw [ReadyToRun_eq k t hlevel] at h
  injection h with h
  have hq := markJump_queues (ReadyToRun.enqueue
    (setWaitTime (setStatus k t ThreadStatus.READY) t k.totalTicks) t (k.threads t).priority)
    t (k.threads t).priority
  rw [h] at hq
  obtain ⟨q1, q2, q3⟩ := hq
  by_cases hb1 : (k.threads t).priority ≥ 100 ∧ (k.threads t).priority ≤ 149
  · refine Or.inl ⟨hb1.1, hb1.2, ?_, ?_, ?_⟩
    · rcases h1 with e | e
      · rw [q1] at e ⊢
        simp only [ReadyToRun.enqueue, if_pos hb1] at e ⊢
        have hc : L1cmp (setWaitTime (setStatus k t ThreadStatus.READY) t k.totalTicks).threads
            = L1cmp r.threads := by
          apply L1cmp_congr
          intro x
          rw [(ReadyToRun_some k r t (by rw [ReadyToRun_eq k t hlevel, h])).1 x]
          by_cases hx : x = t <;> simp [setWaitTime, setStatus, Kernel.store, hx]
        rw [hc]
        simp [setWaitTime, setStatus, Kernel.store]
      · exact e
    · rw [q2]
      simp [ReadyToRun.enqueue, hb1, setWaitTime, setStatus, Kernel.store]
    · rw [q3]
      simp [ReadyToRun.enqueue, hb1, setWaitTime, setStatus, Kernel.store]
  · by_cases hb2 : (k.threads t).priority ≥ 50 ∧ (k.threads t).priority ≤ 99
    · refine Or.inr (Or.inl ⟨hb2.1, hb2.2, ?_, ?_, ?_⟩)
      · rw [q1]
        simp [ReadyToRun.enqueue, hb1, hb2, setWaitTime, setStatus, Kernel.store]
      · rcases h2 with e | e
        · rw [q2] at e ⊢
          simp only [ReadyToRun.enqueue, if_neg hb1, if_pos hb2] at e ⊢
          have hc : L2cmp (setWaitTime (setStatus k t ThreadStatus.READY) t k.totalTicks).threads
              = L2cmp r.threads := by
            apply L2cmp_congr
            intro x
            rw [hp x]
            by_cases hx : x = t <;> simp [setWaitTime, setStatus, Kernel.store, hx]
          rw [hc]
          simp [setWaitTime, setStatus, Kernel.store]
        · exact e
      · rw [q3]
        simp [ReadyToRun.enqueue, hb1, hb2, setWaitTime, setStatus, Kernel.store]
    · by_cases hb3 : (k.threads t).priority ≥ 0 ∧ (k.threads t).priority ≤ 49
      · refine Or.inr (Or.inr (Or.inl ⟨hb3.1, hb3.2, ?_, ?_, ?_⟩))
        · rw [q1]
          simp [ReadyToRun.enqueue, hb1, hb2, hb3, setWaitTime, setStatus, Kernel.store]
        · rw [q2]
          simp [ReadyToRun.enqueue, hb1, hb2, hb3, setWaitTime, setStatus, Kernel.store]
        · rw [q3]
          simp [ReadyToRun.enqueue, hb1, hb2, hb3, setWaitTime, setStatus, Kernel.store]
      · refine Or.inr (Or.inr (Or.inr ⟨?_, ?_, ?_⟩))
        · rw [q1]
          simp [ReadyToRun.enqueue, hb1, hb2, hb3, setWaitTime, setStatus, Kernel.store]
        · rw [q2]
          simp [ReadyToRun.enqueue, hb1, hb2, hb3, setWaitTime, setStatus, Kernel.store]
        · rw [q3]
          simp [ReadyToRun.enqueue, hb1, hb2, hb3, setWaitTime, setStatus, Kernel.store]

/-- What CheckAging does to the queues, with the priorities that go with each
case: no queue changes and the new priority is in the band of the old one, or
the thread crosses into L1, or it crosses into L2. -/
theorem CheckAging_moves (k : Kernel) (t : Nat) :
    (∀ x, x ≠ t → ((CheckAging k t).state.threads x).priority = (k.threads x).priority) ∧
    (((CheckAging k t).state.QueueL1 = k.QueueL1 ∧
        (CheckAging k t).state.QueueL2 = k.QueueL2 ∧
        (CheckAging k t).state.QueueL3 = k.QueueL3 ∧
        (((CheckAging k t).state.threads t).priority = (k.threads t).priority ∨
         (((CheckAging k t).state.threads t).priority = min ((k.threads t).priority + 10) 149 ∧
          ¬ ((k.threads t).priority < 100 ∧ min ((k.threads t).priority + 10) 149 ≥ 100) ∧
          ¬ ((k.threads t).priority < 50 ∧ min ((k.threads t).priority + 10) 149 ≥ 50)))) ∨
     ((CheckAging k t).state.QueueL1 = Insert (L1cmp (CheckAging k t).state.threads) t k.QueueL1 ∧
        (CheckAging k t).state.QueueL2 = Remove k.QueueL2 t ∧
        (CheckAging k t).state.QueueL3 = k.QueueL3 ∧
        (k.threads t).priority < 100 ∧
        100 ≤ ((CheckAging k t).state.threads t).priority ∧
        ((CheckAging k t).state.threads t).priority ≤ 149 ∧
        90 ≤ (k.threads t).priority) ∨
     ((CheckAging k t).state.QueueL1 = k.QueueL1 ∧
        (CheckAging k t).state.QueueL2 = Insert (L2cmp (CheckAging k t).state.threads) t k.QueueL2 ∧
        (CheckAging k t).state.QueueL3 = Remove k.QueueL3 t ∧
        (k.threads t).priority < 50 ∧
        50 ≤ ((CheckAging k t).state.threads t).priority ∧
        ((CheckAging k t).state.threads t).priority ≤ 99 ∧
        40 ≤ (k.threads t).priority)) := by
  refine ⟨(CheckAging_cases k t).2.1, ?_⟩
  have hpr := CheckAging_priority k t
  have hmin1 : min ((k.threads t).priority + 10) 149 ≤ (k.threads t).priority + 10 :=
    min_le_left _ _
  have hmin2 : min ((k.threads t).priority + 10) 149 ≤ 149 := min_le_right _ _
  by_cases h : (k.threads t).status = ThreadStatus.READY
      ∧ k.totalTicks - (k.threads t).waitTime ≥ 1500 ∧ (k.threads t).ID ≥ 2
  · rw [if_pos h] at hpr
    have hd := CheckAging_due k t h
    by_cases hc1 : (k.threads t).priority < 100
        ∧ min ((k.threads t).priority + 10) 149 ≥ 100
    · rw [if_pos hc1] at hd
      refine Or.inr (Or.inl ?_)
      have hst : (CheckAging k t).state = (CheckAging.newToL1 (setWaitTime (setPriority k t
          (min ((k.threads t).priority + 10) 149)) t k.totalTicks) t).state := by rw [hd]
      rw [newToL1_state, guarded_Remove] at hst
      rw [hpr]
      refine ⟨?_, ?_, ?_, hc1.1, hc1.2, hmin2, by omega⟩
      · rw [hst]
        simp [setWaitTime, setPriority, Kernel.store]
      · rw [hst]
        simp [setWaitTime, setPriority, Kernel.store]
      · rw [hst]
        simp [setWaitTime, setPriority, Kernel.store]
    · rw [if_neg hc1] at hd
      by_cases hc2 : (k.threads t).priority < 50
          ∧ min ((k.threads t).priority + 10) 149 ≥ 50
      · rw [if_pos hc2] at hd
        refine Or.inr (Or.inr ?_)
        have hst : (CheckAging k t).state = (CheckAging.newToL2 (setWaitTime (setPriority k t
            (min ((k.threads t).priority + 10) 149)) t k.totalTicks) t).state := by rw [hd]
        rw [newToL2_state, guarded_Remove] at hst
        rw [hpr]
        refine ⟨?_, ?_, ?_, hc2.1, hc2.2, by omega, by omega⟩
        · rw [hst]
          simp [setWaitTime, setPriority, Kernel.store]
        · rw [hst]
          simp [setWaitTime, setPriority, Kernel.store]
        · rw [hst]
          simp [setWaitTime, setPriority, Kernel.store]
      · rw [if_neg hc2] at hd
        refine Or.inl ?_
        rw [hpr, hd]
        refine ⟨?_, ?_, ?_, Or.inr ⟨rfl, hc1, hc2⟩⟩ <;>
          simp [setWaitTime, setPriority, Kernel.store]
  · rw [if_neg h] at hpr
    rw [hpr, CheckAging_not_due k t h]
    exact Or.inl ⟨rfl, rfl, rfl, Or.inl rfl⟩

/-- What a completed FindNextToRun does to the three queues. -/
theorem FindNextToRun_queues (k r : Kernel) (res : Option Nat)
    (h : FindNextToRun k = some (res, r)) :
    r.threads = k.threads ∧
    ((res = none ∧ r.QueueL1 = k.QueueL1 ∧ r.QueueL2 = k.QueueL2 ∧ r.QueueL3 = k.QueueL3) ∨
     (∃ t, res = some t ∧
        ((k.QueueL1 = t :: r.QueueL1 ∧ r.QueueL2 = k.QueueL2 ∧ r.QueueL3 = k.QueueL3) ∨
         (r.QueueL1 = k.QueueL1 ∧ k.QueueL2 = t :: r.QueueL2 ∧ r.QueueL3 = k.QueueL3) ∨
         (r.QueueL1 = k.QueueL1 ∧ r.QueueL2 = k.QueueL2 ∧ k.QueueL3 = t :: r.QueueL3)))) := by
  have hlevel : k.level = IntStatus.IntOff := by
    by_contra hne
    simp [FindNextToRun, hne] at h
  cases h1 : k.QueueL1 with
  | cons a rest =>
    simp only [FindNextToRun, hlevel, IsEmpty, RemoveFront, h1, ne_eq, not_true_eq_false,
      if_false, List.isEmpty_cons, Bool.not_false, if_true, Option.some.injEq,
      Prod.mk.injEq] at h
    obtain ⟨hres, hr⟩ := h
    subst hr
    exact ⟨rfl, Or.inr ⟨a, hres.symm, Or.inl ⟨rfl, rfl, rfl⟩⟩⟩
  | nil =>
    cases h2 : k.QueueL2 with
    | cons a rest =>
      simp only [FindNextToRun, hlevel, IsEmpty, RemoveFront, h1, h2, ne_eq, not_true_eq_false,
        if_false, List.isEmpty_cons, List.isEmpty_nil, Bool.not_false, Bool.not_true,
        Bool.false_eq_true, if_true, Option.some.injEq, Prod.mk.injEq] at h
      obtain ⟨hres, hr⟩ := h
      subst hr
      exact ⟨rfl, Or.inr ⟨a, hres.symm, Or.inr (Or.inl ⟨by simp [h1], rfl, rfl⟩)⟩⟩
    | nil =>
      cases h3 : k.QueueL3 with
      | cons a rest =>
        simp only [FindNextToRun, hlevel, IsEmpty, RemoveFront, h1, h2, h3, ne_eq,
          not_true_eq_false, if_false, List.isEmpty_cons, List.isEmpty_nil, Bool.not_false,
          Bool.not_true, Bool.false_eq_true, if_true, Option.some.injEq, Prod.mk.injEq] at h
        obtain ⟨hres, hr⟩ := h
        subst hr
        exact ⟨rfl, Or.inr ⟨a, hres.symm,
          Or.inr (Or.inr ⟨by simp [h1], by simp [h2], rfl⟩)⟩⟩
      | nil =>
        simp only [FindNextToRun, hlevel, IsEmpty, h1, h2, h3, ne_eq, not_true_eq_false,
          if_false, List.isEmpty_nil, Bool.not_true, Bool.false_eq_true, Option.some.injEq,
          Prod.mk.injEq] at h
        obtain ⟨hres, hr⟩ := h
        subst hr
        exact ⟨rfl, Or.inl ⟨hres.symm, h1, h2, h3⟩⟩

/-- Queues in their bands are pairwise disjoint. -/
theorem queuesDisjoint_of_bands (k : Kernel) (hb : bandsRespected k) : queuesDisjoint k := by
  obtain ⟨h1, h2, h3⟩ := hb
  refine ⟨?_, ?_, ?_⟩
  · intro x hx hy
    have := h1 x hx
    have := h2 x hy
    omega
  · intro x hx hy
    have := h1 x hx
    have := h3 x hy
    omega
  · intro x hx hy
    have := h2 x hx
    have := h3 x hy
    omega

/-- The bands are respected after an event that leaves a sub-queue of every
queue and keeps the priorities of the threads that are still queued. -/
theorem bandsRespected_of_sub (k r : Kernel) (hb : bandsRespected k)
    (h1 : ∀ x ∈ r.QueueL1, x ∈ k.QueueL1) (h2 : ∀ x ∈ r.QueueL2, x ∈ k.QueueL2)
    (h3 : ∀ x ∈ r.QueueL3, x ∈ k.QueueL3)
    (hp : ∀ x, (r.threads x).priority = (k.threads x).priority) : bandsRespected r := by
  obtain ⟨b1, b2, b3⟩ := hb
  refine ⟨?_, ?_, ?_⟩
  · intro x hx
    rw [hp x]
    exact b1 x (h1 x hx)
  · intro x hx
    rw [hp x]
    exact b2 x (h2 x hx)
  · intro x hx
    rw [hp x]
    exact b3 x (h3 x hx)

/-- One admitted event keeps every queued thread in the queue of its band and
keeps the queues free of duplicates. -/
theorem queues_step (k r : Kernel) (op : Op) (hb : bandsRespected k) (hn : queuesNodup k)
    (hall : readyOnlyUnqueued k op = true) (happ : applyOp k op = some r) :
    bandsRespected r ∧ queuesNodup r := by
  obtain ⟨n1, n2, n3⟩ := hn
  cases op with
  | readyToRun t =>
    have hun : t ∉ k.QueueL1 ∧ t ∉ k.QueueL2 ∧ t ∉ k.QueueL3 := by
      simpa [readyOnlyUnqueued, IsInList, and_assoc] using hall
    obtain ⟨hp, hq⟩ := ReadyToRun_queues k r t happ
    obtain ⟨b1, b2, b3⟩ := hb
    rcases hq with ⟨hlo, hhi, e1, e2, e3⟩ | ⟨hlo, hhi, e1, e2, e3⟩ | ⟨hlo, hhi, e1, e2, e3⟩ |
      ⟨e1, e2, e3⟩
    · refine ⟨⟨?_, ?_, ?_⟩, ?_, ?_, ?_⟩
      · intro x hx
        rw [e1, mem_Insert] at hx
        rw [hp x]
        rcases hx with rfl | hx
        · exact ⟨hlo, hhi⟩
        · exact b1 x hx
      · intro x hx
        rw [e2] at hx
        rw [hp x]
        exact b2 x hx
      · intro x hx
        rw [e3] at hx
        rw [hp x]
        exact b3 x hx
      · rw [e1]
        exact Insert_nodup _ t _ n1 hun.1
      · rw [e2]
        exact n2
      · rw [e3]
        exact n3
    · refine ⟨⟨?_, ?_, ?_⟩, ?_, ?_, ?_⟩
      · intro x hx
        rw [e1] at hx
        rw [hp x]
        exact b1 x hx
      · intro x hx
        rw [e2, mem_Insert] at hx
        rw [hp x]
        rcases hx with rfl | hx
        · exact ⟨hlo, hhi⟩
        · exact b2 x hx
      · intro x hx
        rw [e3] at hx
        rw [hp x]
        exact b3 x hx
      · rw [e1]
        exact n1
      · rw [e2]
        exact Insert_nodup _ t _ n2 hun.2.1
      · rw [e3]
        exact n3
    · refine ⟨⟨?_, ?_, ?_⟩, ?_, ?_, ?_⟩
      · intro x hx
        rw [e1] at hx
        rw [hp x]
        exact b1 x hx
      · intro x hx
        rw [e2] at hx
        rw [hp x]
        exact b2 x hx
      · intro x hx
        rw [e3, mem_Append] at hx
        rw [hp x]
        rcases hx with hx | rfl
        · exact b3 x hx
        · exact ⟨hlo, hhi⟩
      · rw [e1]
        exact n1
      · rw [e2]
        exact n2
      · rw [e3]
        exact Append_nodup _ t n3 hun.2.2
    · exact ⟨bandsRespected_of_sub k r ⟨b1, b2, b3⟩ (fun x hx => e1 ▸ hx)
        (fun x hx => e2 ▸ hx) (fun x hx => e3 ▸ hx) hp,
        by rw [e1]; exact n1, by rw [e2]; exact n2, by rw [e3]; exact n3⟩
  | checkAging t =>
    simp only [applyOp, Option.some.injEq] at happ
    obtain ⟨hp, hq⟩ := CheckAging_moves k t
    rw [happ] at hp hq
    obtain ⟨b1, b2, b3⟩ := hb
    have hmin1 : min ((k.threads t).priority + 10) 149 ≤ (k.threads t).priority + 10 :=
      min_le_left _ _
    have hmin2 : min ((k.threads t).priority + 10) 149 ≤ 149 := min_le_right _ _
    have hmin3 : min ((k.threads t).priority + 10) 149 = (k.threads t).priority + 10 ∨
        min ((k.threads t).priority + 10) 149 = 149 := min_choice _ _
    rcases hq with ⟨e1, e2, e3, hpt⟩ | ⟨e1, e2, e3, hlt, hge, hle, hlo⟩ |
      ⟨e1, e2, e3, hlt, hge, hle, hlo⟩
    · refine ⟨⟨?_, ?_, ?_⟩, by rw [e1]; exact n1, by rw [e2]; exact n2, by rw [e3]; exact n3⟩
      · intro x hx
        rw [e1] at hx
        have hb := b1 x hx
        by_cases hxt : x = t
        · subst hxt
          rcases hpt with e | ⟨e, _, _⟩ <;> rw [e] <;> omega
        · rw [hp x hxt]
          exact hb
      · intro x hx
        rw [e2] at hx
        have hb := b2 x hx
        by_cases hxt : x = t
        · subst hxt
          rcases hpt with e | ⟨e, hc1, _⟩
          · rw [e]
            exact hb
          · rw [e]
            have : ¬ (100 ≤ min ((k.threads x).priority + 10) 149) := fun h => hc1 ⟨by omega, h⟩
            omega
        · rw [hp x hxt]
          exact hb
      · intro x hx
        rw [e3] at hx
        have hb := b3 x hx
        by_cases hxt : x = t
        · subst hxt
          rcases hpt with e | ⟨e, _, hc2⟩
          · rw [e]
            exact hb
          · rw [e]
            have : ¬ (50 ≤ min ((k.threads x).priority + 10) 149) := fun h => hc2 ⟨by omega, h⟩
            omega
        · rw [hp x hxt]
          exact hb
    · have ht1 : t ∉ k.QueueL1 := fun h => by
        have := b1 t h
        omega
      have ht3 : t ∉ k.QueueL3 := fun h => by
        have := b3 t h
        omega
      refine ⟨⟨?_, ?_, ?_⟩, ?_, ?_, ?_⟩
      · intro x hx
        rw [e1, mem_Insert] at hx
        rcases hx with rfl | hx
        · exact ⟨hge, hle⟩
        · have hxt : x ≠ t := fun e => ht1 (e ▸ hx)
          rw [hp x hxt]
          exact b1 x hx
      · intro x hx
        rw [e2, mem_Remove] at hx
        rw [hp x hx.2]
        exact b2 x hx.1
      · intro x hx
        rw [e3] at hx
        have hxt : x ≠ t := fun e => ht3 (e ▸ hx)
        rw [hp x hxt]
        exact b3 x hx
      · rw [e1]
        exact Insert_nodup _ t _ n1 ht1
      · rw [e2]
        exact Remove_nodup _ t n2
      · rw [e3]
        exact n3
    · have ht1 : t ∉ k.QueueL1 := fun h => by
        have := b1 t h
        omega
      have ht2 : t ∉ k.QueueL2 := fun h => by
        have := b2 t h
        omega
      refine ⟨⟨?_, ?_, ?_⟩, ?_, ?_, ?_⟩
      · intro x hx
        rw [e1] at hx
        have hxt : x ≠ t := fun e => ht1 (e ▸ hx)
        rw [hp x hxt]
        exact b1 x hx
      · intro x hx
        rw [e2, mem_Insert] at hx
        rcases hx with rfl | hx
        · exact ⟨hge, hle⟩
        · have hxt : x ≠ t := fun e => ht2 (e ▸ hx)
          rw [hp x hxt]
          exact b2 x hx
      · intro x hx
        rw [e3, mem_Remove] at hx
        rw [hp x hx.2]
        exact b3 x hx.1
      · rw [e1]
        exact n1
      · rw [e2]
        exact Insert_nodup _ t _ n2 ht2
      · rw [e3]
        exact Remove_nodup _ t n3
  | findNextToRun =>
    simp only [applyOp] at happ
    cases hf : FindNextToRun k with
    | none => simp [hf] at happ
    | some res =>
      obtain ⟨res, r2⟩ := res
      simp only [hf, Option.some.injEq] at happ
      subst happ
      obtain ⟨hth, hq⟩ := FindNextToRun_queues k r2 res hf
      have hp : ∀ x, (r2.threads x).priority = (k.threads x).priority := fun x => by rw [hth]
      rcases hq with ⟨_, e1, e2, e3⟩ | ⟨t, _, ⟨e1, e2, e3⟩ | ⟨e1, e2, e3⟩ | ⟨e1, e2, e3⟩⟩
      · exact ⟨bandsRespected_of_sub k r2 hb (fun x hx => e1 ▸ hx) (fun x hx => e2 ▸ hx)
          (fun x hx => e3 ▸ hx) hp,
          by rw [e1]; exact n1, by rw [e2]; exact n2, by rw [e3]; exact n3⟩
      · rw [e1] at n1
        exact ⟨bandsRespected_of_sub k r2 hb
          (fun x hx => by rw [e1]; exact List.mem_cons_of_mem _ hx)
          (fun x hx => e2 ▸ hx) (fun x hx => e3 ▸ hx) hp,
          (List.nodup_cons.1 n1).2, by rw [e2]; exact n2, by rw [e3]; exact n3⟩
      · rw [e2] at n2
        exact ⟨bandsRespected_of_sub k r2 hb (fun x hx => e1 ▸ hx)
          (fun x hx => by rw [e2]; exact List.mem_cons_of_mem _ hx)
          (fun x hx => e3 ▸ hx) hp,
          by rw [e1]; exact n1, (List.nodup_cons.1 n2).2, by rw [e3]; exact n3⟩
      · rw [e3] at n3
        exact ⟨bandsRespected_of_sub k r2 hb (fun x hx => e1 ▸ hx) (fun x hx => e2 ▸ hx)
          (fun x hx => by rw [e3]; exact List.mem_cons_of_mem _ hx) hp,
          by rw [e1]; exact n1, by rw [e2]; exact n2, (List.nodup_cons.1 n3).2⟩
  | run n f =>
    obtain ⟨_, hp, e1, e2, e3⟩ := Run_some k r n f happ
    exact ⟨bandsRespected_of_sub k r hb (fun x hx => e1 ▸ hx) (fun x hx => e2 ▸ hx)
      (fun x hx => e3 ▸ hx) hp,
      by rw [e1]; exact n1, by rw [e2]; exact n2, by rw [e3]; exact n3⟩
  | tick n =>
    simp only [applyOp, Option.some.injEq] at happ
    subst happ
    exact ⟨hb, n1, n2, n3⟩
  | setBurstTime t b =>
    simp only [applyOp, Option.some.injEq] at happ
    subst happ
    refine ⟨bandsRespected_of_sub k _ hb (fun x hx => hx) (fun x hx => hx) (fun x hx => hx) ?_,
      n1, n2, n3⟩
    intro x
    by_cases hx : x = t <;> simp [Kernel.store, hx]

theorem runOps_queues (ops : List Op) :
    ∀ k r, bandsRespected k → queuesNodup k → runOps readyOnlyUnqueued k ops = some r →
      bandsRespected r ∧ queuesNodup r := by
  induction ops with
  | nil =>
    intro k r hb hn h
    simp only [runOps, Option.some.injEq] at h
    exact h ▸ ⟨hb, hn⟩
  | cons op rest ih =>
    intro k r hb hn h
    unfold runOps at h
    by_cases hall : readyOnlyUnqueued k op = true
    · rw [if_pos hall] at h
      cases happ : applyOp k op with
      | none => simp [happ] at h
      | some k2 =>
        simp only [happ] at h
        obtain ⟨hb2, hn2⟩ := queues_step k k2 op hb hn hall happ
        exact ih k2 r hb2 hn2 h
    · rw [if_neg hall] at h
      exact absurd h (by simp)

theorem Reachable_queues (k : Kernel) (hk : Reachable readyOnlyUnqueued k) :
    bandsRespected k ∧ queuesNodup k := by
  obtain ⟨k0, ops, h⟩ := hk
  exact runOps_queues ops (Scheduler.init k0) k
    (by simp [bandsRespected, Scheduler.init]) (by simp [queuesNodup, Scheduler.init]) h

/-! ## Facts about the bitmap -/

/-- `divRoundUp n s` is the least number of sectors of size `s` that cover `n`
bytes. -/
theorem divRoundUp_least (n s : Nat) (hs : 0 < s) :
    n ≤ divRoundUp n s * s ∧ ∀ k, n ≤ k * s → divRoundUp n s ≤ k := by
  unfold divRoundUp
  have hdm := Nat.div_add_mod n s
  have hlt := Nat.mod_lt n hs
  have hmul : s * (n / s) = n / s * s := Nat.mul_comm _ _
  constructor
  · split_ifs with h
    · rw [Nat.add_mul]
      omega
    · have h0 : n % s = 0 := by omega
      rw [Nat.add_zero]
      omega
  · intro k hk
    split_ifs with h
    · by_contra hc
      have hle : k ≤ n / s := by omega
      have : k * s ≤ n / s * s := Nat.mul_le_mul_right s hle
      omega
    · have : n / s ≤ k := by
        have h1 : n / s ≤ k * s / s := Nat.div_le_div_right hk
        rwa [Nat.mul_div_cancel _ hs] at h1
      omega

/-- What `FindAndSet` returns: the lowest-numbered clear bit, and the bitmap
with that bit set. -/
theorem FindAndSet_some (m m1 : List Bool) (i : Nat)
    (h : Bitmap.FindAndSet m = some (i, m1)) :
    i < m.length ∧ Bitmap.Test m i = false ∧ (∀ j, j < i → Bitmap.Test m j = true) ∧
    m1 = Bitmap.Mark m i ∧ Bitmap.numSet m1 = Bitmap.numSet m + 1 := by
  induction m generalizing i m1 with
  | nil => simp [Bitmap.FindAndSet] at h
  | cons b rest ih =>
    cases b with
    | false =>
      simp only [Bitmap.FindAndSet, Option.some.injEq, Prod.mk.injEq] at h
      obtain ⟨hi, hm⟩ := h
      subst hi
      subst hm
      refine ⟨by simp, by simp [Bitmap.Test], ?_, by simp [Bitmap.Mark], ?_⟩
      · intro j hj
        exact absurd hj (Nat.not_lt_zero j)
      · simp [Bitmap.numSet]
    | true =>
      simp only [Bitmap.FindAndSet] at h
      cases hr : Bitmap.FindAndSet rest with
      | none => simp [hr] at h
      | some v =>
        obtain ⟨i2, r⟩ := v
        simp only [hr, Option.some.injEq, Prod.mk.injEq] at h
        obtain ⟨hi, hm⟩ := h
        subst hi
        subst hm
        obtain ⟨h1, h2, h3, h4, h5⟩ := ih r i2 hr
        refine ⟨by simp; omega, by simpa [Bitmap.Test] using h2, ?_, ?_, ?_⟩
        · intro j hj
          cases j with
          | zero => simp [Bitmap.Test]
          | succ j =>
            have := h3 j (by omega)
            simpa [Bitmap.Test] using this
        · simp [Bitmap.Mark, h4]
        · simp only [Bitmap.numSet] at h5 ⊢
          simp [h5]

theorem Clear_comm (m : List Bool) (a b : Nat) :
    Bitmap.Clear (Bitmap.Clear m a) b = Bitmap.Clear (Bitmap.Clear m b) a := by
  unfold Bitmap.Clear
  by_cases h : a = b
  · rw [h]
  · exact List.set_comm false false m h

theorem foldl_Clear_Clear (sectors : List Nat) (m : List Bool) (a : Nat) :
    sectors.foldl Bitmap.Clear (Bitmap.Clear m a) = Bitmap.Clear (sectors.foldl Bitmap.Clear m) a := by
  induction sectors generalizing m with
  | nil => rfl
  | cons x rest ih =>
    simp only [List.foldl_cons]
    rw [Clear_comm m a x, ih]

/-- Clearing a bit that `Mark` set on a clear bit gives the bitmap back. -/
theorem Clear_Mark (m : List Bool) (i : Nat) (h : Bitmap.Test m i = false) :
    Bitmap.Clear (Bitmap.Mark m i) i = m := by
  unfold Bitmap.Clear Bitmap.Mark
  rw [List.set_set]
  apply List.ext_getElem?
  intro j
  rw [List.getElem?_set]
  split_ifs with hj hlt
  · subst hj
    have : m[i]? = some false := by
      rw [List.getElem?_eq_getElem hlt]
      simp only [Bitmap.Test, List.getD_eq_getElem?_getD, List.getElem?_eq_getElem hlt,
        Option.getD_some] at h
      rw [h]
    rw [this]
  · subst hj
    rw [List.getElem?_eq_none (by omega)]
  · rfl

/-- The data sectors `Allocate` takes: as many as asked for, and freeing them
in order gives the bitmap back. -/
theorem allocateSectors_some (n : Nat) (m m2 : List Bool) (sectors : List Nat)
    (h : FileHeader.allocateSectors n m = some (sectors, m2)) :
    Bitmap.numSet m2 = Bitmap.numSet m + n ∧ sectors.foldl Bitmap.Clear m2 = m ∧
    sectors.length = n := by
  induction n generalizing m m2 sectors with
  | zero =>
    simp only [FileHeader.allocateSectors, Option.some.injEq, Prod.mk.injEq] at h
    obtain ⟨hs, hm⟩ := h
    subst hs
    subst hm
    exact ⟨rfl, rfl, rfl⟩
  | succ n ih =>
    simp only [FileHeader.allocateSectors] at h
    cases hf : Bitmap.FindAndSet m with
    | none => simp [hf] at h
    | some v =>
      obtain ⟨sector, m1⟩ := v
      simp only [hf] at h
      cases hr : FileHeader.allocateSectors n m1 with
      | none => simp [hr] at h
      | some w =>
        obtain ⟨rest, m3⟩ := w
        simp only [hr, Option.some.injEq, Prod.mk.injEq] at h
        obtain ⟨hs, hm⟩ := h
        subst hs
        subst hm
        obtain ⟨_, htest, _, hmark, hcount⟩ := FindAndSet_some m m1 sector hf
        obtain ⟨c, u, l⟩ := ih m1 m3 rest hr
        refine ⟨by omega, ?_, by simp [l]⟩
        simp only [List.foldl_cons]
        rw [foldl_Clear_Clear, u, hmark]
        exact Clear_Mark m sector htest

/-- What a successful `Allocate` does to the bitmap. -/
theorem Allocate_some (cfg : DiskConfig) (m m2 : List Bool) (fileSize : Nat) (hdr : FileHeader)
    (h : FileHeader.Allocate cfg m fileSize = some (hdr, m2)) :
    Bitmap.numSet m2 = Bitmap.numSet m + divRoundUp fileSize cfg.SectorSize ∧
    hdr.Deallocate m2 = m := by
  unfold FileHeader.Allocate at h
  simp only at h
  split_ifs at h
  cases hr : FileHeader.allocateSectors (divRoundUp fileSize cfg.SectorSize) m with
  | none => simp [hr] at h
  | some w =>
    obtain ⟨sectors, m3⟩ := w
    simp only [hr, Option.some.injEq, Prod.mk.injEq] at h
    obtain ⟨hh, hm⟩ := h
    subst hh
    subst hm
    obtain ⟨c, u, _⟩ := allocateSectors_some _ m m3 sectors hr
    exact ⟨c, u⟩

/-! ## Facts about the directory -/

theorem claimSlot_some (e : DirectoryEntry) (t t2 : List DirectoryEntry)
    (he : e.inUse = true) (h : Directory.claimSlot e t = some t2) :
    (∃ i old, t[i]? = some old ∧ old.inUse = false ∧ t2 = t.set i e) ∧
    t2.countP (fun x => x.inUse) = t.countP (fun x => x.inUse) + 1 := by
  induction t generalizing t2 with
  | nil => simp [Directory.claimSlot] at h
  | cons x rest ih =>
    simp only [Directory.claimSlot] at h
    by_cases hx : x.inUse = true
    · simp only [hx, if_true] at h
      cases hr : Directory.claimSlot e rest with
      | none => simp [hr] at h
      | some r =>
        simp only [hr, Option.some.injEq] at h
        subst h
        obtain ⟨⟨i, old, h1, h2, h3⟩, hc⟩ := ih r hr
        refine ⟨⟨i + 1, old, by simpa using h1, h2, by simp [h3]⟩, ?_⟩
        simp [List.countP_cons, hx, hc]
    · simp only [hx, Bool.false_eq_true, if_false, Option.some.injEq] at h
      subst h
      have hx2 : x.inUse = false := by simpa using hx
      refine ⟨⟨0, x, by simp, hx2, by simp⟩, ?_⟩
      simp [List.countP_cons, hx2, he]

theorem claimSlot_find_new (e : DirectoryEntry) (t t2 : List DirectoryEntry)
    (he : e.inUse = true)
    (hnone : t.find? (fun x => x.inUse && decide (x.name = e.name)) = none)
    (h : Directory.claimSlot e t = some t2) :
    t2.find? (fun x => x.inUse && decide (x.name = e.name)) = some e := by
  induction t generalizing t2 with
  | nil => simp [Directory.claimSlot] at h
  | cons x rest ih =>
    simp only [Directory.claimSlot] at h
    rw [List.find?_cons] at hnone
    by_cases hx : x.inUse = true
    · simp only [hx, if_true] at h
      cases hr : Directory.claimSlot e rest with
      | none => simp [hr] at h
      | some r =>
        simp only [hr, Option.some.injEq] at h
        subst h
        by_cases hp : (x.inUse && decide (x.name = e.name)) = true
        · simp [hp] at hnone
        · have hp2 : (x.inUse && decide (x.name = e.name)) = false := by simpa using hp
          simp only [hp2] at hnone
          rw [List.find?_cons, hp2]
          exact ih r hnone hr
    · simp only [hx, Bool.false_eq_true, if_false, Option.some.injEq] at h
      subst h
      simp [List.find?_cons, he]

theorem claimSlot_find_other (e : DirectoryEntry) (t t2 : List DirectoryEntry)
    (name : List Char) (hne : e.name ≠ name)
    (h : Directory.claimSlot e t = some t2) :
    t2.find? (fun x => x.inUse && decide (x.name = name)) =
      t.find? (fun x => x.inUse && decide (x.name = name)) := by
  induction t generalizing t2 with
  | nil => simp [Directory.claimSlot] at h
  | cons x rest ih =>
    simp only [Directory.claimSlot] at h
    by_cases hx : x.inUse = true
    · simp only [hx, if_true] at h
      cases hr : Directory.claimSlot e rest with
      | none => simp [hr] at h
      | some r =>
        simp only [hr, Option.some.injEq] at h
        subst h
        rw [List.find?_cons, List.find?_cons, ih r hr]
    · simp only [hx, Bool.false_eq_true, if_false, Option.some.injEq] at h
      subst h
      have hx2 : x.inUse = false := by simpa using hx
      simp [List.find?_cons, hne, hx2]

theorem claimSlot_release (e : DirectoryEntry) (t t2 : List DirectoryEntry)
    (he : e.inUse = true)
    (hnone : t.find? (fun x => x.inUse && decide (x.name = e.name)) = none)
    (h : Directory.claimSlot e t = some t2) :
    ∃ t3, Directory.releaseSlot e.name t2 = some t3 ∧
      t3.countP (fun x => x.inUse) = t.countP (fun x => x.inUse) := by
  induction t generalizing t2 with
  | nil => simp [Directory.claimSlot] at h
  | cons x rest ih =>
    simp only [Directory.claimSlot] at h
    rw [List.find?_cons] at hnone
    by_cases hx : x.inUse = true
    · simp only [hx, if_true] at h
      cases hr : Directory.claimSlot e rest with
      | none => simp [hr] at h
      | some r =>
        simp only [hr, Option.some.injEq] at h
        subst h
        by_cases hp : (x.inUse && decide (x.name = e.name)) = true
        · simp [hp] at hnone
        · have hp2 : (x.inUse && decide (x.name = e.name)) = false := by simpa using hp
          simp only [hp2] at hnone
          obtain ⟨t3, h3, hc⟩ := ih r hnone hr
          refine ⟨x :: t3, ?_, ?_⟩
          · simp only [Directory.releaseSlot, hp2, Bool.false_eq_true, if_false, h3]
          · simp [List.countP_cons, hc]
    · simp only [hx, Bool.false_eq_true, if_false, Option.some.injEq] at h
      subst h
      have hx2 : x.inUse = false := by simpa using hx
      refine ⟨{ e with inUse := false } :: rest, ?_, ?_⟩
      · simp [Directory.releaseSlot, he]
      · simp [List.countP_cons, hx2]

/-- What a successful `Add` does to a directory. -/
theorem Add_true (d d2 : Directory) (name : List Char) (sector : Nat) (isDir : Bool)
    (h : d.Add name sector isDir = (true, d2)) :
    d.Find name = none ∧
    (∃ i old, d.table[i]? = some old ∧ old.inUse = false ∧
      d2.table = d.table.set i
        { inUse := true, isDir := isDir, sector := sector, name := name }) ∧
    d2.inUseCount = d.inUseCount + 1 ∧
    d2.Find name = some sector ∧
    d2.isDir name = isDir ∧
    (∀ other, other ≠ name → d2.Find other = d.Find other) ∧
    (d2.Remove name).1 = true ∧
    (d2.Remove name).2.inUseCount = d.inUseCount := by
  unfold Directory.Add at h
  cases hl : d.lookup name with
  | some v => simp [hl] at h
  | none =>
    simp only [hl, Option.isSome_none, Bool.false_eq_true, if_false] at h
    cases hc : Directory.claimSlot
        { inUse := true, isDir := isDir, sector := sector, name := name } d.table with
    | none => simp [hc] at h
    | some t2 =>
      simp only [hc, Prod.mk.injEq, true_and] at h
      subst h
      have hnone : d.table.find? (fun x => x.inUse && decide (x.name = name)) = none := hl
      obtain ⟨hset, hcount⟩ := claimSlot_some _ d.table t2 rfl hc
      have hnew := claimSlot_find_new _ d.table t2 rfl hnone hc
      obtain ⟨t3, hrel, hrc⟩ := claimSlot_release _ d.table t2 rfl hnone hc
      refine ⟨by simp [Directory.Find, hl], hset, hcount, ?_, ?_, ?_, ?_, ?_⟩
      · simp only [Directory.Find, Directory.lookup]
        rw [hnew]
      · simp only [Directory.isDir, Directory.lookup]
        rw [hnew]
      · intro other hne
        have := claimSlot_find_other _ d.table t2 other (fun e => hne e.symm) hc
        simp only [Directory.Find, Directory.lookup]
        rw [this]
      · simp only [Directory.Remove]
        rw [hrel]
      · simp only [Directory.Remove]
        rw [hrel]
        exact hrc

/-! ## Facts about path resolution -/

/-- The directory file `getSubDir` returns is the last one it opened. -/
theorem walk_mem (fs : FileSystem) (rest : List (List Char)) :
    ∀ (cur : OpenFile) (cut : List Char) (r : OpenFile), fs.walk cur cut rest = some r →
      r.sector ∈ fs.walkSectors cur cut rest := by
  induction rest with
  | nil =>
    intro cur cut r h
    simp only [FileSystem.walk, Option.some.injEq] at h
    subst h
    simp [FileSystem.walkSectors]
  | cons next rest ih =>
    intro cur cut r h
    simp only [FileSystem.walk] at h
    simp only [FileSystem.walkSectors]
    cases hf : (fs.directories cur.sector).Find cut with
    | none => simp [hf] at h
    | some s =>
      simp only [hf] at h
      exact List.mem_cons_of_mem _ (ih _ next r h)

/-- The walk takes the same way on a file system whose directories answer the
lookups of the walk in the same way. -/
theorem walk_congr (fs fs2 : FileSystem) (rest : List (List Char)) :
    ∀ (cur : OpenFile) (cut : List Char) (r : OpenFile), fs.walk cur cut rest = some r →
      (∀ s ∈ fs.walkSectors cur cut rest, ∀ c, ((fs.directories s).Find c).isSome →
        (fs2.directories s).Find c = (fs.directories s).Find c) →
      fs2.walk cur cut rest = some r := by
  induction rest with
  | nil =>
    intro cur cut r h _
    simpa [FileSystem.walk] using h
  | cons next rest ih =>
    intro cur cut r h hsame
    simp only [FileSystem.walk] at h ⊢
    simp only [FileSystem.walkSectors] at hsame
    cases hf : (fs.directories cur.sector).Find cut with
    | none => simp [hf] at h
    | some s =>
      simp only [hf] at h hsame
      have h2 := hsame cur.sector (List.mem_cons_self _ _) cut (by simp [hf])
      rw [h2, hf]
      exact ih _ next r h (fun s2 hs2 => hsame s2 (List.mem_cons_of_mem _ hs2))

theorem getSubDir_mem (fs : FileSystem) (pathName : List Char) (r : OpenFile)
    (h : fs.getSubDir pathName = some r) : r.sector ∈ fs.pathSectors pathName := by
  unfold FileSystem.getSubDir at h
  unfold FileSystem.pathSectors
  cases ht : strtok pathName with
  | nil => simp [ht] at h
  | cons cut rest =>
    simp only [ht] at h ⊢
    exact walk_mem fs rest _ cut r h

theorem getSubDir_congr (fs fs2 : FileSystem) (pathName : List Char) (r : OpenFile)
    (h : fs.getSubDir pathName = some r)
    (hsame : ∀ s ∈ fs.pathSectors pathName, ∀ c, ((fs.directories s).Find c).isSome →
      (fs2.directories s).Find c = (fs.directories s).Find c) :
    fs2.getSubDir pathName = some r := by
  unfold FileSystem.getSubDir at h ⊢
  unfold FileSystem.pathSectors at hsame
  cases ht : strtok pathName with
  | nil => simp [ht] at h
  | cons cut rest =>
    simp only [ht] at h hsame ⊢
    exact walk_congr fs fs2 rest _ cut r h hsame

/-! ## Facts about Create, Open and Remove -/

/-- A failing Create hands the file system back as it was. -/
theorem Create_fail_unchanged (cfg : DiskConfig) (fs : FileSystem) (pathName : List Char)
    (initialSize : Nat) (isDir : Bool)
    (h : (fs.Create cfg pathName initialSize isDir).1 = false) :
    (fs.Create cfg pathName initialSize isDir).2 = fs := by
  unfold FileSystem.Create at h ⊢
  simp only at h ⊢
  repeat' split
  all_goals first | rfl | skip
  all_goals simp_all

/-- The steps a successful Create went through, and the file system it
leaves. -/
theorem Create_success (cfg : DiskConfig) (fs : FileSystem) (pathName : List Char)
    (initialSize : Nat) (isDir : Bool)
    (h : (fs.Create cfg pathName initialSize isDir).1 = true) :
    ∃ curDirFile sector freeMap1 directory hdr freeMap2,
      pathName.length ≤ 255 ∧
      fs.getSubDir pathName = some curDirFile ∧
      (fs.directories curDirFile.sector).Find (getFileName pathName) = none ∧
      (getFileName pathName).length ≤ 9 ∧
      Bitmap.FindAndSet fs.freeMap = some (sector, freeMap1) ∧
      (fs.directories curDirFile.sector).Add (getFileName pathName) sector isDir
        = (true, directory) ∧
      FileHeader.Allocate cfg freeMap1 (if isDir then DirectoryFileSize cfg else initialSize)
        = some (hdr, freeMap2) ∧
      (fs.Create cfg pathName initialSize isDir).2 =
        { fs with
          freeMap := freeMap2,
          headers := writeAt fs.headers sector hdr,
          directories := writeAt (writeAt fs.directories curDirFile.sector directory) sector
            (Directory.new NumDirEntries) } := by
  unfold FileSystem.Create at h ⊢
  simp only at h ⊢
  split at h
  · simp at h
  · rename_i hlen
    split at h
    · simp at h
    · rename_i cur hcur
      split at h
      · simp at h
      · rename_i hname
        split at h
        · simp at h
        · rename_i sector fm1 hfind
          split at h
          · simp at h
          · rename_i dir1 hadd
            split at h
            · simp at h
            · rename_i hdr fm2 halloc
              refine ⟨cur, sector, fm1, dir1, hdr, fm2, by omega, hcur, ?_, ?_, hfind, hadd,
                halloc, ?_⟩
              · cases hf : (fs.directories cur.sector).Find (getFileName pathName) with
                | none => rfl
                | some v => exact absurd (Or.inl (by simp [hf])) hname
              · by_contra hc
                exact hname (Or.inr (by omega))
              · simp [hlen, hcur, hname, hfind, hadd, halloc]

/-- Create fails when the name is found in the directory the path resolves
to. -/
theorem Create_found (cfg : DiskConfig) (fs : FileSystem) (pathName : List Char)
    (initialSize : Nat) (isDir : Bool) (curDirFile : OpenFile)
    (hdir : fs.getSubDir pathName = some curDirFile)
    (hfound : ((fs.directories curDirFile.sector).Find (getFileName pathName)).isSome) :
    fs.Create cfg pathName initialSize isDir = (false, fs) := by
  unfold FileSystem.Create
  simp only [hdir, hfound, true_or, if_true]
  split_ifs <;> rfl

/-- After a successful Create on a disk whose bitmap marks the directories on
the path allocated: the header sector is none of those directories, the path
still resolves to the same directory, that directory holds the table `Add`
produced, and the new header and the bitmap are the ones `Allocate` returned. -/
theorem Create_then_resolve (cfg : DiskConfig) (fs : FileSystem) (pathName : List Char)
    (initialSize : Nat) (isDir : Bool)
    (h : (fs.Create cfg pathName initialSize isDir).1 = true)
    (hwf : ∀ s ∈ fs.pathSectors pathName, Bitmap.Test fs.freeMap s = true) :
    ∃ curDirFile sector freeMap1 directory hdr freeMap2,
      fs.getSubDir pathName = some curDirFile ∧
      Bitmap.FindAndSet fs.freeMap = some (sector, freeMap1) ∧
      (fs.directories curDirFile.sector).Add (getFileName pathName) sector isDir
        = (true, directory) ∧
      FileHeader.Allocate cfg freeMap1 (if isDir then DirectoryFileSize cfg else initialSize)
        = some (hdr, freeMap2) ∧
      (fs.Create cfg pathName initialSize isDir).2.getSubDir pathName = some curDirFile ∧
      (fs.Create cfg pathName initialSize isDir).2.directories curDirFile.sector = directory ∧
      (fs.Create cfg pathName initialSize isDir).2.headers sector = hdr ∧
      (fs.Create cfg pathName initialSize isDir).2.freeMap = freeMap2 ∧
      sector ≠ curDirFile.sector := by
  obtain ⟨cur, sector, fm1, dir1, hdr, fm2, _, hcur, hnone, _, hfind, hadd, halloc, hfs⟩ :=
    Create_success cfg fs pathName initialSize isDir h
  obtain ⟨_, htest, _⟩ := FindAndSet_some fs.freeMap fm1 sector hfind
  have hne : ∀ s ∈ fs.pathSectors pathName, s ≠ sector := by
    intro s hs e
    have := hwf s hs
    rw [e, htest] at this
    exact absurd this (by simp)
  have hcs : cur.sector ≠ sector := hne cur.sector (getSubDir_mem fs pathName cur hcur)
  refine ⟨cur, sector, fm1, dir1, hdr, fm2, hcur, hfind, hadd, halloc, ?_, ?_, ?_, ?_,
    fun e => hcs e.symm⟩
  · apply getSubDir_congr fs _ pathName cur hcur
    intro s hs c hc
    rw [hfs]
    simp only [writeAt, if_neg (hne s hs)]
    by_cases hsc : s = cur.sector
    · rw [if_pos hsc, hsc]
      have hcn : c ≠ getFileName pathName := by
        intro e
        rw [hsc, e, hnone] at hc
        exact absurd hc (by simp)
      exact (Add_true _ dir1 _ sector isDir hadd).2.2.2.2.2.1 c hcn
    · rw [if_neg hsc]
  · rw [hfs]
    simp [writeAt, hcs]
  · rw [hfs]
    simp [writeAt]
  · rw [hfs]

/-- The outcome of Open. -/
theorem Open_cases (fs : FileSystem) (pathName : List Char) :
    (∃ curDirFile sector,
        fs.getSubDir pathName = some curDirFile ∧
        (fs.directories curDirFile.sector).Find (getFileName pathName) = some sector ∧
        fs.top < 20 ∧
        fs.Open pathName =
          (some { sector := sector },
            { fs with
              fileDescriptorTable := fs.fileDescriptorTable.set fs.top (some { sector := sector }),
              top := fs.top + 1 })) ∨
    ((fs.getSubDir pathName = none ∨
        (∃ curDirFile, fs.getSubDir pathName = some curDirFile ∧
          (fs.directories curDirFile.sector).Find (getFileName pathName) = none) ∨
        20 ≤ fs.top) ∧
      fs.Open pathName = (none, fs)) := by
  unfold FileSystem.Open
  simp only
  cases hd : fs.getSubDir pathName with
  | none => exact Or.inr ⟨Or.inl rfl, rfl⟩
  | some cur =>
    simp only
    cases hf : (fs.directories cur.sector).Find (getFileName pathName) with
    | none => exact Or.inr ⟨Or.inr (Or.inl ⟨cur, rfl, hf⟩), rfl⟩
    | some sector =>
      simp only
      by_cases ht : fs.top ≥ 20
      · rw [if_pos ht]
        exact Or.inr ⟨Or.inr (Or.inr ht), rfl⟩
      · rw [if_neg ht]
        exact Or.inl ⟨cur, sector, rfl, hf, by omega, rfl⟩

/-- Open writes nothing to the disk. -/
theorem Open_persisted (fs : FileSystem) (pathName : List Char) :
    (fs.Open pathName).2.freeMap = fs.freeMap ∧
    (fs.Open pathName).2.headers = fs.headers ∧
    (fs.Open pathName).2.directories = fs.directories := by
  rcases Open_cases fs pathName with ⟨_, _, _, _, _, h⟩ | ⟨_, h⟩ <;> rw [h] <;> exact ⟨rfl, rfl, rfl⟩

/-- Remove returns failure and the file system as it was when the path does
not resolve or the name is not found. -/
theorem Remove_not_found (fs : FileSystem) (fuel : Nat) (recursive : Bool)
    (pathName : List Char)
    (h : fs.getSubDir pathName = none ∨
      ∃ curDirFile, fs.getSubDir pathName = some curDirFile ∧
        (fs.directories curDirFile.sector).Find (getFileName pathName) = none) :
    FileSystem.Remove (fuel + 1) fs recursive pathName = some (false, fs) := by
  rcases h with h | ⟨cur, hd, hf⟩
  · simp [FileSystem.Remove, h]
  · simp [FileSystem.Remove, hd, hf]

theorem removeChildren_keeps_table
    (rm : FileSystem → Bool → List Char → Option (Bool × FileSystem))
    (hrm : ∀ fs recursive pathName r, rm fs recursive pathName = some r →
      r.2.fileDescriptorTable = fs.fileDescriptorTable ∧ r.2.top = fs.top)
    (recursive : Bool) (pathName : List Char) (entries : List DirectoryEntry) :
    ∀ fs r, FileSystem.removeChildren rm recursive pathName fs entries = some r →
      r.fileDescriptorTable = fs.fileDescriptorTable ∧ r.top = fs.top := by
  induction entries with
  | nil =>
    intro fs r h
    simp only [FileSystem.removeChildren, Option.some.injEq] at h
    subst h
    exact ⟨rfl, rfl⟩
  | cons e rest ih =>
    intro fs r h
    simp only [FileSystem.removeChildren] at h
    by_cases he : e.inUse = true
    · simp only [he, if_true] at h
      cases hr : rm fs recursive (pathName ++ '/' :: e.name) with
      | none => simp [hr] at h
      | some v =>
        simp only [hr] at h
        obtain ⟨h1, h2⟩ := hrm fs recursive _ v hr
        obtain ⟨h3, h4⟩ := ih v.2 r h
        exact ⟨h3.trans h1, h4.trans h2⟩
    · simp only [he, Bool.false_eq_true, if_false] at h
      exact ih fs r h

/-- Remove does not touch the open-file table. -/
theorem Remove_keeps_table (fuel : Nat) :
    ∀ (fs : FileSystem) (recursive : Bool) (pathName : List Char) (r : Bool × FileSystem),
      FileSystem.Remove fuel fs recursive pathName = some r →
      r.2.fileDescriptorTable = fs.fileDescriptorTable ∧ r.2.top = fs.top := by
  induction fuel with
  | zero =>
    intro fs recursive pathName r h
    simp [FileSystem.Remove] at h
  | succ fuel ih =>
    intro fs recursive pathName r h
    simp only [FileSystem.Remove] at h
    cases hd : fs.getSubDir pathName with
    | none =>
      simp only [hd, Option.some.injEq] at h
      subst h
      exact ⟨rfl, rfl⟩
    | some cur =>
      simp only [hd] at h
      cases hf : (fs.directories cur.sector).Find (getFileName pathName) with
      | none =>
        simp only [hf, Option.some.injEq] at h
        subst h
        exact ⟨rfl, rfl⟩
      | some sector =>
        simp only [hf] at h
        split at h
        · simp at h
        · rename_i fs1 hchildren
          simp only [Option.some.injEq] at h
          subst h
          have hk : fs1.fileDescriptorTable = fs.fileDescriptorTable ∧ fs1.top = fs.top := by
            split_ifs at hchildren
            · exact removeChildren_keeps_table (FileSystem.Remove fuel) ih recursive pathName
                _ fs fs1 hchildren
            · simp only [Option.some.injEq] at hchildren
              subst hchildren
              exact ⟨rfl, rfl⟩
          exact hk

/-- Create does not touch the open-file table. -/
theorem Create_keeps_table (cfg : DiskConfig) (fs : FileSystem) (pathName : List Char)
    (initialSize : Nat) (isDir : Bool) :
    (fs.Create cfg pathName initialSize isDir).2.fileDescriptorTable = fs.fileDescriptorTable ∧
    (fs.Create cfg pathName initialSize isDir).2.top = fs.top := by
  by_cases h : (fs.Create cfg pathName initialSize isDir).1 = true
  · obtain ⟨_, _, _, _, _, _, _, _, _, _, _, _, _, hfs⟩ :=
      Create_success cfg fs pathName initialSize isDir h
    rw [hfs]
    exact ⟨rfl, rfl⟩
  · rw [Create_fail_unchanged cfg fs pathName initialSize isDir (by simpa using h)]
    exact ⟨rfl, rfl⟩

/-- The constructor leaves an empty open-file table. -/
theorem init_table (cfg : DiskConfig) (disk fs : FileSystem) (format : Bool)
    (h : FileSystem.init cfg disk format = some fs) :
    fs.fileDescriptorTable = List.replicate 20 none ∧ fs.top = 0 := by
  unfold FileSystem.init at h
  cases format with
  | false =>
    simp only [Bool.false_eq_true, if_false, Option.some.injEq] at h
    subst h
    exact ⟨rfl, rfl⟩
  | true =>
    simp only [if_true] at h
    split at h
    · simp at h
    · split at h
      · simp at h
      · simp only [Option.some.injEq] at h
        subst h
        exact ⟨rfl, rfl⟩

theorem replicate_none_getD (n i : Nat) :
    (List.replicate n (none : Option OpenFile)).getD i none = none := by
  rw [List.getD_eq_getElem?_getD, List.getElem?_replicate]
  split_ifs <;> rfl

/-- Open keeps the open-file table in order. -/
theorem Open_keeps_order (fs : FileSystem) (pathName : List Char) (hok : openTableOk fs) :
    openTableOk (fs.Open pathName).2 := by
  obtain ⟨htop, hlen, hslots⟩ := hok
  rcases Open_cases fs pathName with ⟨cur, sector, _, _, hlt, h⟩ | ⟨_, h⟩
  · rw [h]
    refine ⟨by simp only; omega, by simp [hlen], ?_⟩
    intro i hi
    simp only
    rw [List.getD_eq_getElem?_getD, List.getElem?_set]
    by_cases hti : fs.top = i
    · subst hti
      simp [hlen, hlt]
    · rw [if_neg hti, ← List.getD_eq_getElem?_getD, hslots i hi]
      omega
  · rw [h]
    exact ⟨htop, hlen, hslots⟩

/-- Every reachable file-system state has its open-file table in order. -/
theorem FsReachable_table (cfg : DiskConfig) (fs : FileSystem) (h : FsReachable cfg fs) :
    openTableOk fs := by
  induction h with
  | init disk fs format hinit =>
    obtain ⟨ht, htop⟩ := init_table cfg disk fs format hinit
    refine ⟨by omega, by simp [ht], ?_⟩
    intro i _
    rw [ht, htop, replicate_none_getD]
    simp
  | create fs pathName initialSize isDir _ ih =>
    obtain ⟨h1, h2⟩ := Create_keeps_table cfg fs pathName initialSize isDir
    unfold openTableOk
    rw [h1, h2]
    exact ih
  | openFile fs pathName _ ih => exact Open_keeps_order fs pathName ih
  | remove fs fuel recursive pathName r _ hr ih =>
    obtain ⟨h1, h2⟩ := Remove_keeps_table fuel fs recursive pathName r hr
    unfold openTableOk
    rw [h1, h2]
    exact ih
  | list fs recursive listDirPath out _ _ ih => exact ih

/-! ## Facts about paths -/

/-- A slash closes the token being read. -/
theorem strtokAux_append_slash (pre rest : List Char) :
    ∀ cur, strtokAux (pre ++ '/' :: rest) cur = strtokAux pre cur ++ strtokAux rest [] := by
  induction pre with
  | nil =>
    intro cur
    by_cases hc : cur = [] <;> simp [strtokAux, hc]
  | cons c pre ih =>
    intro cur
    by_cases hs : c = '/'
    · by_cases hc : cur = [] <;> simp [strtokAux, hs, hc, ih]
    · simp [strtokAux, hs, ih]

/-- Characters other than the slash all go into the token being read. -/
theorem strtokAux_no_slash (name : List Char) (h : '/' ∉ name) :
    ∀ cur, strtokAux name cur =
      if cur.reverse ++ name = [] then [] else [cur.reverse ++ name] := by
  induction name with
  | nil =>
    intro cur
    by_cases hc : cur = [] <;> simp [strtokAux, hc]
  | cons c name ih =>
    intro cur
    have hc : c ≠ '/' := fun e => h (by simp [e])
    have hn : '/' ∉ name := fun e => h (List.mem_cons_of_mem _ e)
    simp [strtokAux, hc, ih hn]

/-- A path of slashes only has no token. -/
theorem strtokAux_slashes (pathName : List Char) (h : ∀ c ∈ pathName, c = '/') :
    strtokAux pathName [] = [] := by
  induction pathName with
  | nil => simp [strtokAux]
  | cons c rest ih =>
    have hc : c = '/' := h c (List.mem_cons_self _ _)
    have hr : ∀ x ∈ rest, x = '/' := fun x hx => h x (List.mem_cons_of_mem _ hx)
    simp [strtokAux, hc, ih hr]

/-- What follows the last slash, when it is not empty, is the last token. -/
theorem strtok_append_name (pre name : List Char) (hne : name ≠ []) (h : '/' ∉ name) :
    strtok (pre ++ '/' :: name) = strtok pre ++ [name] := by
  unfold strtok
  rw [strtokAux_append_slash, strtokAux_no_slash name h]
  simp [hne]

/-- Reading a path behind its prefix. -/
theorem getD_append_slash (pre rest : List Char) (j : Nat) :
    (pre ++ rest).getD (pre.length + j) ' ' = rest.getD j ' ' := by
  simp [List.getD_eq_getElem?_getD, List.getElem?_append_right]

/-- The scan of `getFileName` over slash-free characters stops at the slash in
front of them. -/
theorem scan_append (pre name : List Char) (h : '/' ∉ name) :
    ∀ j, j ≤ name.length →
      getFileName.scan (pre ++ '/' :: name) (pre.length + j) = pre.length := by
  intro j
  induction j with
  | zero =>
    intro _
    cases hp : pre.length with
    | zero => simp [getFileName.scan]
    | succ n =>
      have hget : (pre ++ '/' :: name).getD (n + 1) ' ' = '/' := by
        have := getD_append_slash pre ('/' :: name) 0
        rw [Nat.add_zero, hp] at this
        rw [this]
        rfl
      simp only [Nat.add_zero, getFileName.scan, if_pos hget]
  | succ j ih =>
    intro hj
    have hlt : j < name.length := by omega
    have hget : (pre ++ '/' :: name).getD (pre.length + j + 1) ' ' ≠ '/' := by
      have e : (pre ++ '/' :: name).getD (pre.length + j + 1) ' ' = name[j] := by
        have := getD_append_slash pre ('/' :: name) (j + 1)
        rw [Nat.add_assoc, this]
        simp [List.getD_eq_getElem?_getD, List.getElem?_eq_getElem hlt]
      rw [e]
      intro hs
      exact h (hs ▸ List.getElem_mem hlt)
    have e2 : pre.length + (j + 1) = (pre.length + j) + 1 := by omega
    rw [e2]
    simp only [getFileName.scan, if_neg hget]
    exact ih (by omega)

/-- The name `getFileName` delivers is what follows the last slash. -/
theorem getFileName_append_name (pre name : List Char) (h : '/' ∉ name) :
    getFileName (pre ++ '/' :: name) = name := by
  unfold getFileName
  have hlen : (pre ++ '/' :: name).length - 1 = pre.length + name.length := by simp
  have hne : ¬ (pre ++ '/' :: name).length = 0 := by simp
  rw [if_neg hne, hlen, scan_append pre name h name.length (le_refl _)]
  simp

/-- A path that holds a slash splits at its last slash. -/
theorem split_last_slash (pathName : List Char) (h : '/' ∈ pathName) :
    ∃ pre name, pathName = pre ++ '/' :: name ∧ '/' ∉ name := by
  induction pathName with
  | nil => simp at h
  | cons c rest ih =>
    by_cases hr : '/' ∈ rest
    · obtain ⟨pre, name, hp, hn⟩ := ih hr
      exact ⟨c :: pre, name, by simp [hp], hn⟩
    · have hc : c = '/' := by
        rcases List.mem_cons.mp h with e | e
        · exact e.symm
        · exact absurd e hr
      exact ⟨[], rest, by simp [hc], hr⟩

/-- The tokens of `strtok` are the pieces between the slashes that are not
empty. -/
theorem strtokAux_eq_split (pathName : List Char) :
    ∀ cur, strtokAux pathName cur =
      (List.splitOnP.go (fun c => c == '/') pathName cur).filter (fun c => !c.isEmpty) := by
  induction pathName with
  | nil =>
    intro cur
    by_cases hc : cur = [] <;> simp [strtokAux, List.splitOnP.go, hc]
  | cons c rest ih =>
    intro cur
    by_cases hs : c = '/'
    · by_cases hc : cur = [] <;> simp [strtokAux, List.splitOnP.go, hs, hc, ih]
    · simp [strtokAux, List.splitOnP.go, hs, ih]

/-- The tokens of `strtok` are the components of the path. -/
theorem strtok_eq_pathComponents (pathName : List Char) :
    strtok pathName = pathComponents pathName := by
  unfold strtok pathComponents List.splitOn List.splitOnP
  exact strtokAux_eq_split pathName []

/-- The walk of `getSubDir` resolves every token but the last one. -/
theorem walk_eq_resolveAll (fs : FileSystem) (rest : List (List Char)) :
    ∀ (cur : OpenFile) (cut : List Char),
      fs.walk cur cut rest = fs.resolveAll cur (cut :: rest).dropLast := by
  induction rest with
  | nil =>
    intro cur cut
    simp [FileSystem.walk, FileSystem.resolveAll]
  | cons next rest ih =>
    intro cur cut
    simp only [FileSystem.walk, List.dropLast_cons₂, FileSystem.resolveAll]
    cases (fs.directories cur.sector).Find cut with
    | none => rfl
    | some s => exact ih _ next

/-- `getSubDir` on a path with at least one token resolves all tokens but the
last. -/
theorem getSubDir_eq_resolveAll (fs : FileSystem) (pathName : List Char)
    (toks : List (List Char)) (name : List Char) (h : strtok pathName = toks ++ [name]) :
    fs.getSubDir pathName = fs.resolveAll directoryFile toks := by
  unfold FileSystem.getSubDir
  cases ht : strtok pathName with
  | nil => simp [ht] at h
  | cons cut rest =>
    simp only
    rw [walk_eq_resolveAll, ← ht, h]
    simp

/-! ## Facts about cleared and marked bits -/

theorem Test_Clear (m : List Bool) (a s : Nat) :
    Bitmap.Test (Bitmap.Clear m a) s = (Bitmap.Test m s && decide (s ≠ a)) := by
  unfold Bitmap.Test Bitmap.Clear
  by_cases h : a = s
  · subst h
    by_cases hl : a < m.length <;> simp [List.getD_eq_getElem?_getD, List.getElem?_set, hl]
  · have h2 : s ≠ a := fun e => h e.symm
    simp [List.getD_eq_getElem?_getD, List.getElem?_set, h, h2]

theorem Test_Mark (m : List Bool) (a s : Nat) (ha : a < m.length) :
    Bitmap.Test (Bitmap.Mark m a) s = (Bitmap.Test m s || decide (s = a)) := by
  unfold Bitmap.Test Bitmap.Mark
  by_cases h : a = s
  · subst h
    simp [List.getD_eq_getElem?_getD, List.getElem?_set, ha]
  · have h2 : s ≠ a := fun e => h e.symm
    simp [List.getD_eq_getElem?_getD, List.getElem?_set, h, h2]

theorem Test_foldl_Clear (sectors : List Nat) :
    ∀ (m : List Bool) (s : Nat),
      Bitmap.Test (sectors.foldl Bitmap.Clear m) s = (Bitmap.Test m s && decide (s ∉ sectors)) := by
  induction sectors with
  | nil =>
    intro m s
    simp
  | cons a rest ih =>
    intro m s
    simp only [List.foldl_cons]
    rw [ih, Test_Clear]
    by_cases h1 : s = a <;> by_cases h2 : s ∈ rest <;> simp [h1, h2]

/-- Releasing the entry of a name that is found takes one entry out of use. -/
theorem releaseSlot_count (name : List Char) (t : List DirectoryEntry) (e : DirectoryEntry)
    (h : t.find? (fun x => x.inUse && decide (x.name = name)) = some e) :
    ∃ t2, Directory.releaseSlot name t = some t2 ∧
      t2.countP (fun x => x.inUse) + 1 = t.countP (fun x => x.inUse) := by
  induction t with
  | nil => simp at h
  | cons x rest ih =>
    by_cases hx : (x.inUse && decide (x.name = name)) = true
    · refine ⟨{ x with inUse := false } :: rest, by simp [Directory.releaseSlot, hx], ?_⟩
      have hu : x.inUse = true := by
        simp only [Bool.and_eq_true] at hx
        exact hx.1
      simp [List.countP_cons, hu]
    · have hx2 : (x.inUse && decide (x.name = name)) = false := by simpa using hx
      rw [List.find?_cons, hx2] at h
      obtain ⟨t2, ht2, hc⟩ := ih h
      refine ⟨x :: t2, by simp [Directory.releaseSlot, hx2, ht2], ?_⟩
      simp only [List.countP_cons]
      omega

/-- Removing a name that `Find` finds succeeds and lowers the in-use count by
one. -/
theorem Remove_found (d : Directory) (name : List Char) (sector : Nat)
    (h : d.Find name = some sector) :
    (d.Remove name).1 = true ∧ (d.Remove name).2.inUseCount + 1 = d.inUseCount := by
  unfold Directory.Find Directory.lookup at h
  cases hf : d.table.find? (fun e => e.inUse && decide (e.name = name)) with
  | none => simp [hf] at h
  | some e =>
    obtain ⟨t2, ht2, hc⟩ := releaseSlot_count name d.table e hf
    simp only [Directory.Remove, ht2, Directory.inUseCount]
    exact ⟨trivial, hc⟩

/-! ## Facts about allocation -/

/-- The sectors `Allocate` takes were clear and are set afterwards, and every
bit that was set stays set. -/
theorem allocateSectors_marks (n : Nat) :
    ∀ (m m2 : List Bool) (sectors : List Nat),
      FileHeader.allocateSectors n m = some (sectors, m2) →
      (∀ s, Bitmap.Test m s = true → Bitmap.Test m2 s = true) ∧
      (∀ s ∈ sectors, Bitmap.Test m s = false ∧ Bitmap.Test m2 s = true) := by
  induction n with
  | zero =>
    intro m m2 sectors h
    simp only [FileHeader.allocateSectors, Option.some.injEq, Prod.mk.injEq] at h
    obtain ⟨h1, h2⟩ := h
    subst h1 h2
    simp
  | succ n ih =>
    intro m m2 sectors h
    simp only [FileHeader.allocateSectors] at h
    cases hf : Bitmap.FindAndSet m with
    | none => simp [hf] at h
    | some p =>
      obtain ⟨i, m1⟩ := p
      simp only [hf] at h
      cases ha : FileHeader.allocateSectors n m1 with
      | none => simp [ha] at h
      | some q =>
        obtain ⟨rest, m3⟩ := q
        simp only [ha, Option.some.injEq, Prod.mk.injEq] at h
        obtain ⟨h1, h2⟩ := h
        subst h1 h2
        obtain ⟨hlt, hclear, _, hm1, _⟩ := FindAndSet_some m m1 i hf
        obtain ⟨ih1, ih2⟩ := ih m1 m3 rest ha
        have hmark : ∀ s, Bitmap.Test m1 s = (Bitmap.Test m s || decide (s = i)) := by
          intro s
          rw [hm1]
          exact Test_Mark m i s hlt
        constructor
        · intro s hs
          exact ih1 s (by rw [hmark, hs]; rfl)
        · intro s hs
          rcases List.mem_cons.mp hs with e | e
          · subst e
            exact ⟨hclear, ih1 s (by rw [hmark]; simp)⟩
          · obtain ⟨h3, h4⟩ := ih2 s e
            rw [hmark] at h3
            refine ⟨?_, h4⟩
            cases hb : Bitmap.Test m s with
            | false => rfl
            | true => simp [hb] at h3

theorem Allocate_marks (cfg : DiskConfig) (m m2 : List Bool) (fileSize : Nat) (hdr : FileHeader)
    (h : FileHeader.Allocate cfg m fileSize = some (hdr, m2)) :
    (∀ s, Bitmap.Test m s = true → Bitmap.Test m2 s = true) ∧
    (∀ s ∈ hdr.dataSectors, Bitmap.Test m s = false ∧ Bitmap.Test m2 s = true) := by
  unfold FileHeader.Allocate at h
  simp only at h
  split_ifs at h
  cases ha : FileHeader.allocateSectors (divRoundUp fileSize cfg.SectorSize) m with
  | none => simp [ha] at h
  | some q =>
    obtain ⟨sectors, m3⟩ := q
    simp only [ha, Option.some.injEq, Prod.mk.injEq] at h
    obtain ⟨h1, h2⟩ := h
    subst h1 h2
    exact allocateSectors_marks _ m m3 sectors ha

/-- What `Find` returns is the sector of an in-use entry of the table. -/
theorem Find_mem (d : Directory) (name : List Char) (sector : Nat)
    (h : d.Find name = some sector) :
    ∃ e ∈ d.table, e.inUse = true ∧ e.name = name ∧ e.sector = sector := by
  unfold Directory.Find Directory.lookup at h
  cases hf : d.table.find? (fun e => e.inUse && decide (e.name = name)) with
  | none => simp [hf] at h
  | some e =>
    simp only [hf, Option.some.injEq] at h
    have hm := List.mem_of_find?_eq_some hf
    have hp := List.find?_some hf
    simp only [Bool.and_eq_true, decide_eq_true_eq] at hp
    exact ⟨e, hm, hp.1, hp.2, h⟩

/-- The in-use entries of a table after a release were in use before. -/
theorem releaseSlot_mem (name : List Char) (t : List DirectoryEntry) :
    ∀ t2, Directory.releaseSlot name t = some t2 →
      ∀ e ∈ t2, e.inUse = true → e ∈ t := by
  induction t with
  | nil =>
    intro t2 h
    simp [Directory.releaseSlot] at h
  | cons x rest ih =>
    intro t2 h e he hu
    simp only [Directory.releaseSlot] at h
    by_cases hx : (x.inUse && decide (x.name = name)) = true
    · rw [if_pos hx] at h
      simp only [Option.some.injEq] at h
      subst h
      rcases List.mem_cons.mp he with e1 | e1
      · subst e1
        simp at hu
      · exact List.mem_cons_of_mem _ e1
    · rw [if_neg hx] at h
      cases hr : Directory.releaseSlot name rest with
      | none => simp [hr] at h
      | some r =>
        simp only [hr, Option.some.injEq] at h
        subst h
        rcases List.mem_cons.mp he with e1 | e1
        · subst e1
          exact List.mem_cons_self _ _
        · exact List.mem_cons_of_mem _ (ih r hr e e1 hu)

theorem Remove_mem (d : Directory) (name : List Char) (e : DirectoryEntry)
    (he : e ∈ (d.Remove name).2.table) (hu : e.inUse = true) : e ∈ d.table := by
  unfold Directory.Remove at he
  cases hr : Directory.releaseSlot name d.table with
  | none =>
    simp only [hr] at he
    exact he
  | some t2 =>
    simp only [hr] at he
    exact releaseSlot_mem name d.table t2 hr e he hu

/-- A new directory has no entry in use. -/
theorem new_not_inUse (size : Nat) (e : DirectoryEntry) (he : e ∈ (Directory.new size).table) :
    e.inUse = false := by
  unfold Directory.new at he
  simp only [List.mem_replicate] at he
  rw [he.2]

/-! ## The reserved sectors along an execution -/

/-- The walk of `getSubDir` stays inside a set of directories that is closed
under following in-use entries. -/
theorem walk_marked (fs : FileSystem) (G : Nat → Prop)
    (hG : ∀ s, G s → ∀ e ∈ (fs.directories s).table, e.inUse = true → G e.sector)
    (rest : List (List Char)) :
    ∀ (cur : OpenFile) (cut : List Char) (r : OpenFile), fs.walk cur cut rest = some r →
      G cur.sector → G r.sector := by
  induction rest with
  | nil =>
    intro cur cut r h hc
    simp only [FileSystem.walk, Option.some.injEq] at h
    subst h
    exact hc
  | cons next rest ih =>
    intro cur cut r h hc
    simp only [FileSystem.walk] at h
    cases hf : (fs.directories cur.sector).Find cut with
    | none => simp [hf] at h
    | some s =>
      simp only [hf] at h
      obtain ⟨e, he, hu, _, hs⟩ := Find_mem _ cut s hf
      have hGe := hG cur.sector hc e he hu
      rw [hs] at hGe
      exact ih _ next r h hGe

theorem getSubDir_marked (R : List Nat) (G : Nat → Prop) (fs : FileSystem)
    (pathName : List Char) (r : OpenFile) (h : reservedKept R G fs)
    (hs : fs.getSubDir pathName = some r) : G r.sector := by
  unfold FileSystem.getSubDir at hs
  cases ht : strtok pathName with
  | nil => simp [ht] at hs
  | cons cut rest =>
    simp only [ht] at hs
    exact walk_marked fs G (fun s hs2 e he hu => (h.2.2.2 s hs2 e he hu).1) rest _ cut r hs h.2.2.1

/-- Formatting sets the bits of sectors 0 and 1, takes the data sectors of the
bitmap file and of the root directory file, and writes an empty root
directory. -/
theorem init_reservedKept (cfg : DiskConfig) (disk fs0 : FileSystem)
    (hgeo : 2 ≤ cfg.NumSectors) (h : FileSystem.init cfg disk true = some fs0) :
    reservedKept (reservedSectors fs0) (fun s => s = DirectorySector) fs0 ∧
    fs0.directories DirectorySector = Directory.new NumDirEntries := by
  simp only [FileSystem.init, if_true] at h
  cases h1 : FileHeader.Allocate cfg
      (Bitmap.Mark (Bitmap.Mark (List.replicate cfg.NumSectors false) FreeMapSector)
        DirectorySector) (FreeMapFileSize cfg) with
  | none => simp [h1] at h
  | some p1 =>
    obtain ⟨mapHdr, m3⟩ := p1
    simp only [h1] at h
    cases h2 : FileHeader.Allocate cfg m3 (DirectoryFileSize cfg) with
    | none => simp [h2] at h
    | some p2 =>
      obtain ⟨dirHdr, m4⟩ := p2
      simp only [h2, Option.some.injEq] at h
      subst h
      obtain ⟨a1, a2⟩ := Allocate_marks cfg _ m3 _ mapHdr h1
      obtain ⟨b1, b2⟩ := Allocate_marks cfg m3 m4 _ dirHdr h2
      have t0 : Bitmap.Test (Bitmap.Mark (Bitmap.Mark (List.replicate cfg.NumSectors false)
          FreeMapSector) DirectorySector) FreeMapSector = true := by
        rw [Test_Mark _ _ _ (by simp [Bitmap.Mark, DirectorySector]; omega),
          Test_Mark _ _ _ (by simp [FreeMapSector]; omega)]
        simp
      have t1 : Bitmap.Test (Bitmap.Mark (Bitmap.Mark (List.replicate cfg.NumSectors false)
          FreeMapSector) DirectorySector) DirectorySector = true := by
        rw [Test_Mark _ _ _ (by simp [Bitmap.Mark, DirectorySector]; omega)]
        simp
      have hd : DirectorySector ≠ FreeMapSector := by decide
      refine ⟨⟨rfl, ?_, rfl, ?_⟩, by simp [writeAt]⟩
      · intro r hr
        simp only [reservedSectors, writeAt, if_true, if_neg hd.symm, List.mem_cons,
          List.mem_append] at hr
        rcases hr with e | e | e | e
        · rw [e]
          exact b1 _ (a1 _ t0)
        · rw [e]
          exact b1 _ (a1 _ t1)
        · exact b1 _ (a2 r e).2
        · exact (b2 r e).2
      · intro s hs e he hu
        rw [hs] at he
        simp only [writeAt, if_true] at he
        have := new_not_inUse _ e he
        rw [this] at hu
        exact absurd hu (by simp)

/-- A successful Create hands out a header sector and data sectors outside the
reserved ones. -/
theorem Create_outside_reserved (cfg : DiskConfig) (R : List Nat) (G : Nat → Prop)
    (fs : FileSystem) (pathName : List Char) (initialSize : Nat) (isDir : Bool)
    (h : reservedKept R G fs) (hok : (fs.Create cfg pathName initialSize isDir).1 = true) :
    ∃ sector freeMap1 hdr freeMap2,
      Bitmap.FindAndSet fs.freeMap = some (sector, freeMap1) ∧
      FileHeader.Allocate cfg freeMap1 (if isDir then DirectoryFileSize cfg else initialSize)
        = some (hdr, freeMap2) ∧
      (fs.Create cfg pathName initialSize isDir).2.headers sector = hdr ∧
      sector ∉ R ∧ ∀ d ∈ hdr.dataSectors, d ∉ R := by
  obtain ⟨cur, sector, freeMap1, directory, hdr, freeMap2, _, _, _, _, hfs, _, halloc, hres⟩ :=
    Create_success cfg fs pathName initialSize isDir hok
  obtain ⟨hlt, hclear, _, hm1, _⟩ := FindAndSet_some fs.freeMap freeMap1 sector hfs
  obtain ⟨_, a2⟩ := Allocate_marks cfg freeMap1 freeMap2 _ hdr halloc
  refine ⟨sector, freeMap1, hdr, freeMap2, hfs, halloc, ?_, ?_, ?_⟩
  · rw [hres]
    simp [writeAt]
  · intro hr
    rw [h.2.1 sector hr] at hclear
    exact absurd hclear (by simp)
  · intro d hd hr
    have h1 := (a2 d hd).1
    rw [hm1, Test_Mark _ _ _ hlt, h.2.1 d hr] at h1
    simp at h1

/-- Create keeps the reserved sectors; the directory it creates joins the
marked ones. -/
theorem Create_reservedKept (cfg : DiskConfig) (R : List Nat) (G : Nat → Prop)
    (fs : FileSystem) (pathName : List Char) (initialSize : Nat) (isDir : Bool)
    (h : reservedKept R G fs) :
    ∃ G2, reservedKept R G2 (fs.Create cfg pathName initialSize isDir).2 := by
  cases hok : (fs.Create cfg pathName initialSize isDir).1 with
  | false =>
    rw [Create_fail_unchanged cfg fs pathName initialSize isDir hok]
    exact ⟨G, h⟩
  | true =>
    obtain ⟨sector, freeMap1, hdr, freeMap2, hfs, halloc, _, hsec, hdata⟩ :=
      Create_outside_reserved cfg R G fs pathName initialSize isDir h hok
    obtain ⟨cur, sector2, freeMap3, directory, hdr2, freeMap4, _, hsub, _, _, hfs2, hadd,
      halloc2, hres⟩ := Create_success cfg fs pathName initialSize isDir hok
    rw [hfs] at hfs2
    simp only [Option.some.injEq, Prod.mk.injEq] at hfs2
    obtain ⟨e1, e2⟩ := hfs2
    subst e1 e2
    rw [halloc] at halloc2
    simp only [Option.some.injEq, Prod.mk.injEq] at halloc2
    obtain ⟨e1, e2⟩ := halloc2
    subst e1 e2
    obtain ⟨hR, hbits, hroot, hG⟩ := h
    obtain ⟨hlt, _, _, hm1, _⟩ := FindAndSet_some fs.freeMap freeMap1 sector hfs
    obtain ⟨a1, _⟩ := Allocate_marks cfg freeMap1 freeMap2 _ hdr halloc
    obtain ⟨_, ⟨i, old, _, _, htab⟩, _⟩ := Add_true _ directory _ sector isDir hadd
    have hcur : G cur.sector := getSubDir_marked R G fs pathName cur ⟨hR, hbits, hroot, hG⟩ hsub
    have h0 : FreeMapSector ∈ R := by
      rw [← hR]
      simp [reservedSectors]
    have h1 : DirectorySector ∈ R := by
      rw [← hR]
      simp [reservedSectors]
    have hs0 : FreeMapSector ≠ sector := fun e => hsec (e ▸ h0)
    have hs1 : DirectorySector ≠ sector := fun e => hsec (e ▸ h1)
    have hhdr : ∀ x, x ∉ R → (∀ d ∈ (fs.headers x).dataSectors, d ∉ R) →
        ∀ d ∈ (writeAt fs.headers sector hdr x).dataSectors, d ∉ R := by
      intro x _ hx d hd
      by_cases hxs : x = sector
      · simp only [writeAt, if_pos hxs] at hd
        exact hdata d hd
      · simp only [writeAt, if_neg hxs] at hd
        exact hx d hd
    have hold : ∀ s, G s → ∀ e ∈ (fs.directories s).table, e.inUse = true →
        (G e.sector ∨ e.sector = sector) ∧ e.sector ∉ R ∧
          ∀ d ∈ (writeAt fs.headers sector hdr e.sector).dataSectors, d ∉ R := by
      intro s hs e he hu
      obtain ⟨g1, g2, g3⟩ := hG s hs e he hu
      exact ⟨Or.inl g1, g2, hhdr e.sector g2 g3⟩
    rw [hres]
    refine ⟨fun s => G s ∨ s = sector, ?_, ?_, Or.inl hroot, ?_⟩
    · rw [← hR]
      simp [reservedSectors, writeAt, hs0, hs1]
    · intro r hr
      simp only
      apply a1
      rw [hm1, Test_Mark _ _ _ hlt, hbits r hr]
      rfl
    · intro s hs e he hu
      simp only at he ⊢
      by_cases hss : s = sector
      · simp only [writeAt, if_pos hss] at he
        have := new_not_inUse _ e he
        rw [this] at hu
        exact absurd hu (by simp)
      · have hGs : G s := hs.resolve_right hss
        simp only [writeAt, if_neg hss] at he
        by_cases hsc : s = cur.sector
        · simp only [if_pos hsc] at he
          rw [htab] at he
          rcases List.mem_or_eq_of_mem_set he with e1 | e1
          · exact hold cur.sector hcur e e1 hu
          · subst e1
            refine ⟨Or.inr rfl, hsec, ?_⟩
            intro d hd
            simp only [writeAt, if_true] at hd
            exact hdata d hd
        · simp only [if_neg hsc] at he
          exact hold s hGs e he hu

theorem removeChildren_reservedKept (R : List Nat) (G : Nat → Prop)
    (rm : FileSystem → Bool → List Char → Option (Bool × FileSystem))
    (hrm : ∀ fs recursive pathName r, rm fs recursive pathName = some r →
      reservedKept R G fs → reservedKept R G r.2 ∧ r.2.headers = fs.headers)
    (recursive : Bool) (pathName : List Char) (entries : List DirectoryEntry) :
    ∀ fs r, FileSystem.removeChildren rm recursive pathName fs entries = some r →
      reservedKept R G fs → reservedKept R G r ∧ r.headers = fs.headers := by
  induction entries with
  | nil =>
    intro fs r h hk
    simp only [FileSystem.removeChildren, Option.some.injEq] at h
    subst h
    exact ⟨hk, rfl⟩
  | cons e rest ih =>
    intro fs r h hk
    simp only [FileSystem.removeChildren] at h
    by_cases he : e.inUse = true
    · simp only [he, if_true] at h
      cases hr : rm fs recursive (pathName ++ '/' :: e.name) with
      | none => simp [hr] at h
      | some v =>
        simp only [hr] at h
        obtain ⟨h1, h2⟩ := hrm fs recursive _ v hr hk
        obtain ⟨h3, h4⟩ := ih v.2 r h h1
        exact ⟨h3, h4.trans h2⟩
    · simp only [he, Bool.false_eq_true, if_false] at h
      exact ih fs r h hk

/-- Remove keeps the reserved sectors and writes no header. -/
theorem Remove_reservedKept (R : List Nat) (G : Nat → Prop) (fuel : Nat) :
    ∀ (fs : FileSystem) (recursive : Bool) (pathName : List Char) (r : Bool × FileSystem),
      FileSystem.Remove fuel fs recursive pathName = some r →
      reservedKept R G fs → reservedKept R G r.2 ∧ r.2.headers = fs.headers := by
  induction fuel with
  | zero =>
    intro fs recursive pathName r h
    simp [FileSystem.Remove] at h
  | succ fuel ih =>
    intro fs recursive pathName r h hk
    simp only [FileSystem.Remove] at h
    cases hd : fs.getSubDir pathName with
    | none =>
      simp only [hd, Option.some.injEq] at h
      subst h
      exact ⟨hk, rfl⟩
    | some cur =>
      simp only [hd] at h
      cases hf : (fs.directories cur.sector).Find (getFileName pathName) with
      | none =>
        simp only [hf, Option.some.injEq] at h
        subst h
        exact ⟨hk, rfl⟩
      | some sector =>
        simp only [hf] at h
        split at h
        · simp at h
        · rename_i fs1 hchildren
          simp only [Option.some.injEq] at h
          subst h
          have h1 : reservedKept R G fs1 ∧ fs1.headers = fs.headers := by
            split_ifs at hchildren
            · exact removeChildren_reservedKept R G (FileSystem.Remove fuel) ih recursive
                pathName _ fs fs1 hchildren hk
            · simp only [Option.some.injEq] at hchildren
              subst hchildren
              exact ⟨hk, rfl⟩
          obtain ⟨⟨hR1, hbits1, hroot1, hG1⟩, hh⟩ := h1
          have hcur : G cur.sector := getSubDir_marked R G fs pathName cur hk hd
          obtain ⟨e, he, hu, _, hs⟩ := Find_mem _ _ sector hf
          obtain ⟨_, g2, g3⟩ := hk.2.2.2 cur.sector hcur e he hu
          rw [hs] at g2 g3
          refine ⟨⟨hR1, ?_, hroot1, ?_⟩, hh⟩
          · intro r hr
            simp only
            rw [Test_Clear, FileHeader.Deallocate, Test_foldl_Clear, hbits1 r hr, hh]
            have n1 : r ≠ sector := fun e1 => g2 (e1 ▸ hr)
            have n2 : r ∉ (fs.headers sector).dataSectors := fun e1 => g3 r e1 hr
            simp [n1, n2]
          · intro s hs2 e2 he2 hu2
            simp only at he2 ⊢
            by_cases hsc : s = cur.sector
            · simp only [writeAt, if_pos hsc] at he2
              have hm := Remove_mem _ _ e2 he2 hu2
              have := hk.2.2.2 cur.sector hcur e2 hm hu2
              rw [hh]
              exact this
            · simp only [writeAt, if_neg hsc] at he2
              exact hG1 s hs2 e2 he2 hu2

/-- Every state reached from the formatted disk keeps the reserved sectors. -/
theorem FormatReachable_reservedKept (cfg : DiskConfig) (fs0 fs : FileSystem)
    (hgeo : 2 ≤ cfg.NumSectors) (h : FormatReachable cfg fs0 fs) :
    ∃ G, reservedKept (reservedSectors fs0) G fs := by
  induction h with
  | format disk hinit => exact ⟨_, (init_reservedKept cfg disk fs0 hgeo hinit).1⟩
  | create fs pathName initialSize isDir _ ih =>
    obtain ⟨G, hG⟩ := ih
    exact Create_reservedKept cfg _ G fs pathName initialSize isDir hG
  | remove fs fuel recursive pathName r _ hr ih =>
    obtain ⟨G, hG⟩ := ih
    exact ⟨G, (Remove_reservedKept _ G fuel fs recursive pathName r hr hG).1⟩

/-! ## Facts about directory trees -/

theorem plainName_iff (name : List Char) :
    plainName name = true ↔ name ≠ [] ∧ '/' ∉ name := by
  cases name <;> simp [plainName]

theorem pathOf_snoc (components : List (List Char)) (name : List Char) :
    pathOf (components ++ [name]) = pathOf components ++ '/' :: name := by
  simp [pathOf]

/-- The tokens of the path that spells plain components are the components. -/
theorem strtok_pathOf (components : List (List Char))
    (h : ∀ c ∈ components, plainName c = true) : strtok (pathOf components) = components := by
  induction components using List.reverseRecOn with
  | nil => rfl
  | append_singleton cs c ih =>
    have hc := (plainName_iff c).1 (h c (by simp))
    rw [pathOf_snoc, strtok_append_name _ c hc.1 hc.2,
      ih (fun x hx => h x (List.mem_append_left _ hx))]

theorem getFileName_pathOf (components : List (List Char)) (name : List Char)
    (h : plainName name = true) : getFileName (pathOf (components ++ [name])) = name := by
  rw [pathOf_snoc]
  exact getFileName_append_name _ name ((plainName_iff name).1 h).2

/-- Resolution takes the same way on a file system whose directories agree on
the sectors read. -/
theorem resolveAll_congr (fs fs2 : FileSystem) (toks : List (List Char)) :
    ∀ cur : OpenFile, (∀ s ∈ fs.resolveSectors cur toks, fs2.directories s = fs.directories s) →
      fs2.resolveAll cur toks = fs.resolveAll cur toks := by
  induction toks with
  | nil =>
    intro cur _
    rfl
  | cons t rest ih =>
    intro cur h
    simp only [FileSystem.resolveSectors] at h
    simp only [FileSystem.resolveAll]
    rw [h cur.sector (List.mem_cons_self _ _)]
    cases hf : (fs.directories cur.sector).Find t with
    | none => rfl
    | some s2 =>
      simp only [hf] at h
      exact ih _ (fun s hs => h s (List.mem_cons_of_mem _ hs))

/-- Resolution of one more component. -/
theorem resolveAll_snoc (fs : FileSystem) (name : List Char) (sector : Nat)
    (toks : List (List Char)) :
    ∀ cur P : OpenFile, fs.resolveAll cur toks = some P →
      (fs.directories P.sector).Find name = some sector →
      fs.resolveAll cur (toks ++ [name]) = some { sector := sector } ∧
      fs.resolveSectors cur (toks ++ [name]) = fs.resolveSectors cur toks ++ [sector] := by
  induction toks with
  | nil =>
    intro cur P h hf
    simp only [FileSystem.resolveAll, Option.some.injEq] at h
    subst h
    simp [FileSystem.resolveAll, FileSystem.resolveSectors, hf]
  | cons t rest ih =>
    intro cur P h hf
    simp only [FileSystem.resolveAll] at h
    cases hft : (fs.directories cur.sector).Find t with
    | none => simp [hft] at h
    | some s2 =>
      simp only [hft] at h
      obtain ⟨h1, h2⟩ := ih _ P h hf
      simp [FileSystem.resolveAll, FileSystem.resolveSectors, hft, h1, h2]

/-- The directory resolution returns is among the sectors read. -/
theorem resolveAll_mem (fs : FileSystem) (toks : List (List Char)) :
    ∀ cur P : OpenFile, fs.resolveAll cur toks = some P →
      P.sector ∈ fs.resolveSectors cur toks := by
  induction toks with
  | nil =>
    intro cur P h
    simp only [FileSystem.resolveAll, Option.some.injEq] at h
    subst h
    simp [FileSystem.resolveSectors]
  | cons t rest ih =>
    intro cur P h
    simp only [FileSystem.resolveAll] at h
    cases hft : (fs.directories cur.sector).Find t with
    | none => simp [hft] at h
    | some s2 =>
      simp only [hft] at h
      simp only [FileSystem.resolveSectors, hft]
      exact List.mem_cons_of_mem _ (ih _ P h)

/-- The first in-use entry of a table is the one a lookup of its name finds. -/
theorem lookup_head (t : List DirectoryEntry) (c : DirectoryEntry) (U : List DirectoryEntry)
    (h : t.filter (fun e => e.inUse) = c :: U) :
    t.find? (fun x => x.inUse && decide (x.name = c.name)) = some c := by
  induction t with
  | nil => simp at h
  | cons x rest ih =>
    by_cases hx : x.inUse = true
    · simp only [List.filter_cons, hx, if_true, List.cons.injEq] at h
      obtain ⟨h1, _⟩ := h
      subst h1
      simp [List.find?_cons, hx]
    · have hx2 : x.inUse = false := by simpa using hx
      simp only [List.filter_cons, hx2, Bool.false_eq_true, if_false] at h
      simp [List.find?_cons, hx2, ih h]

/-- Releasing the name of the first in-use entry of a table takes exactly that
entry out of use. -/
theorem release_head (t : List DirectoryEntry) (c : DirectoryEntry) (U : List DirectoryEntry)
    (h : t.filter (fun e => e.inUse) = c :: U) :
    ∃ t2, Directory.releaseSlot c.name t = some t2 ∧ t2.filter (fun e => e.inUse) = U := by
  induction t with
  | nil => simp at h
  | cons x rest ih =>
    by_cases hx : x.inUse = true
    · simp only [List.filter_cons, hx, if_true, List.cons.injEq] at h
      obtain ⟨h1, h2⟩ := h
      subst h1
      exact ⟨{ x with inUse := false } :: rest, by simp [Directory.releaseSlot, hx],
        by simp [List.filter_cons, h2]⟩
    · have hx2 : x.inUse = false := by simpa using hx
      simp only [List.filter_cons, hx2, Bool.false_eq_true, if_false] at h
      obtain ⟨t2, ht2, hU⟩ := ih h
      exact ⟨x :: t2, by simp [Directory.releaseSlot, hx2, ht2],
        by simp [List.filter_cons, hx2, hU]⟩

/-- Releasing the name a lookup finds clears the in-use flag of the entry
found, in its slot. -/
theorem releaseSlot_spec (name : List Char) (t : List DirectoryEntry) (e : DirectoryEntry)
    (h : t.find? (fun x => x.inUse && decide (x.name = name)) = some e) :
    ∃ i, t[i]? = some e ∧
      Directory.releaseSlot name t = some (t.set i { e with inUse := false }) := by
  induction t with
  | nil => simp at h
  | cons x rest ih =>
    by_cases hx : (x.inUse && decide (x.name = name)) = true
    · rw [List.find?_cons, hx] at h
      simp only [Option.some.injEq] at h
      subst h
      exact ⟨0, by simp, by simp [Directory.releaseSlot, hx]⟩
    · have hx2 : (x.inUse && decide (x.name = name)) = false := by simpa using hx
      rw [List.find?_cons, hx2] at h
      obtain ⟨i, hi, hr⟩ := ih h
      exact ⟨i + 1, by simpa using hi, by simp [Directory.releaseSlot, hx2, hr]⟩

theorem resolveSectors_congr (fs fs2 : FileSystem) (toks : List (List Char)) :
    ∀ cur : OpenFile, (∀ s ∈ fs.resolveSectors cur toks, fs2.directories s = fs.directories s) →
      fs2.resolveSectors cur toks = fs.resolveSectors cur toks := by
  induction toks with
  | nil =>
    intro cur _
    rfl
  | cons t rest ih =>
    intro cur h
    simp only [FileSystem.resolveSectors] at h
    simp only [FileSystem.resolveSectors]
    rw [h cur.sector (List.mem_cons_self _ _)]
    cases hf : (fs.directories cur.sector).Find t with
    | none => rfl
    | some s2 =>
      simp only [hf] at h
      simp only
      rw [ih _ (fun s hs => h s (List.mem_cons_of_mem _ hs))]

theorem all_congr_mem {α : Type} (l : List α) (f g : α → Bool) (h : ∀ x ∈ l, f x = g x) :
    l.all f = l.all g := by
  induction l with
  | nil => rfl
  | cons x rest ih =>
    simp only [List.all_cons]
    rw [h x (List.mem_cons_self _ _), ih (fun y hy => h y (List.mem_cons_of_mem _ hy))]

/-- The tree below an entry is read off the directories of the tree and the
headers alone. -/
theorem tree_congr (fs fs2 : FileSystem) (hh : fs2.headers = fs.headers) (depth : Nat) :
    ∀ e, (∀ s ∈ fs.treeDirs depth e, fs2.directories s = fs.directories s) →
      fs2.treeDirs depth e = fs.treeDirs depth e ∧
      fs2.treeSectors depth e = fs.treeSectors depth e ∧
      fs2.shaped depth e = fs.shaped depth e := by
  induction depth with
  | zero =>
    intro e h
    by_cases hd : e.isDir = true
    · have hE : fs2.directories e.sector = fs.directories e.sector :=
        h e.sector (by simp [FileSystem.treeDirs, hd])
      simp [FileSystem.treeDirs, FileSystem.treeSectors, FileSystem.shaped,
        FileSystem.entriesOf, hh, hE]
    · simp [FileSystem.treeDirs, FileSystem.treeSectors, FileSystem.shaped, hh, hd]
  | succ depth ih =>
    intro e h
    by_cases hd : e.isDir = true
    · have hE : fs2.entriesOf e.sector = fs.entriesOf e.sector := by
        unfold FileSystem.entriesOf
        rw [h e.sector (by simp [FileSystem.treeDirs, hd])]
      have hc : ∀ c ∈ fs.entriesOf e.sector,
          fs2.treeDirs depth c = fs.treeDirs depth c ∧
          fs2.treeSectors depth c = fs.treeSectors depth c ∧
          fs2.shaped depth c = fs.shaped depth c := by
        intro c hc
        apply ih c
        intro s hs
        apply h s
        simp only [FileSystem.treeDirs, hd, if_true]
        exact List.mem_cons_of_mem _ (List.mem_flatMap.2 ⟨c, hc, hs⟩)
      refine ⟨?_, ?_, ?_⟩
      · simp only [FileSystem.treeDirs, hd, if_true, hE]
        rw [List.flatMap_congr (fun c hc2 => (hc c hc2).1)]
      · simp only [FileSystem.treeSectors, hd, if_true, hE, hh]
        rw [List.flatMap_congr (fun c hc2 => (hc c hc2).2.1)]
      · simp only [FileSystem.shaped, hE]
        rw [all_congr_mem _ _ _ (fun c hc2 => by rw [(hc c hc2).2.2])]
    · simp [FileSystem.treeDirs, FileSystem.treeSectors, FileSystem.shaped, hh, hd]

/-- The loop of the recursive branch does nothing on a table without an entry
in use. -/
theorem removeChildren_idle
    (rm : FileSystem → Bool → List Char → Option (Bool × FileSystem))
    (recursive : Bool) (pathName : List Char) (fs : FileSystem) (entries : List DirectoryEntry)
    (h : entries.filter (fun e => e.inUse) = []) :
    FileSystem.removeChildren rm recursive pathName fs entries = some fs := by
  induction entries with
  | nil => rfl
  | cons x rest ih =>
    by_cases hx : x.inUse = true
    · simp [List.filter_cons, hx] at h
    · have hx2 : x.inUse = false := by simpa using hx
      simp only [List.filter_cons, hx2, Bool.false_eq_true, if_false] at h
      simp only [FileSystem.removeChildren, hx2, Bool.false_eq_true, if_false]
      exact ih h

/-- Remove on a path whose last component is found, unfolded. -/
theorem Remove_found_eq (fuel : Nat) (fs : FileSystem) (recursive : Bool)
    (pathName : List Char) (cur : OpenFile) (sector : Nat)
    (hsub : fs.getSubDir pathName = some cur)
    (hfind : (fs.directories cur.sector).Find (getFileName pathName) = some sector) :
    FileSystem.Remove (fuel + 1) fs recursive pathName =
      match (if (fs.directories cur.sector).isDir (getFileName pathName) && recursive then
          FileSystem.removeChildren (FileSystem.Remove fuel) recursive pathName fs
            (fs.directories sector).table
        else some fs) with
      | none => none
      | some fs1 =>
        some (true,
          { fs1 with
            freeMap := Bitmap.Clear ((fs1.headers sector).Deallocate fs1.freeMap) sector,
            directories := writeAt fs1.directories cur.sector
              ((fs.directories cur.sector).Remove (getFileName pathName)).2 }) := by
  simp only [FileSystem.Remove, hsub, hfind]

/-- The loop of the recursive branch over the table of the directory `e`, when
the recursive call removes trees of depth at most `depth`: started in a state
`fs` that agrees with the state `fs0` before the loop on the way to the
directory and on the trees of the entries still to come, and in which those
entries are exactly the in-use entries of the directory, it removes them all. -/
theorem removeChildren_tree
    (rm : FileSystem → Bool → List Char → Option (Bool × FileSystem)) (depth : Nat)
    (hrm : removesTree rm depth) (fs0 : FileSystem) (pathName : List Char)
    (toks : List (List Char)) (name : List Char) (P : OpenFile) (e : DirectoryEntry)
    (htok : strtok pathName = toks ++ [name])
    (hres : fs0.resolveAll directoryFile toks = some P)
    (hfind : (fs0.directories P.sector).Find name = some e.sector)
    (rest : List DirectoryEntry) :
    ∀ fs : FileSystem,
      fs.headers = fs0.headers →
      fs.entriesOf e.sector = rest.filter (fun c => c.inUse) →
      (∀ s ∈ fs0.resolveSectors directoryFile toks, fs.directories s = fs0.directories s) →
      (∀ c ∈ rest.filter (fun c => c.inUse), ∀ s ∈ fs0.treeDirs depth c,
        fs.directories s = fs0.directories s) →
      (∀ c ∈ rest.filter (fun c => c.inUse),
        plainName c.name = true ∧ fs0.shaped depth c = true) →
      (e.sector :: (rest.filter (fun c => c.inUse)).flatMap (fs0.treeDirs depth)).Nodup →
      (∀ s ∈ fs0.resolveSectors directoryFile toks,
        s ≠ e.sector ∧ s ∉ (rest.filter (fun c => c.inUse)).flatMap (fs0.treeDirs depth)) →
      ∃ fs1, FileSystem.removeChildren rm true pathName fs rest = some fs1 ∧
        fs1.headers = fs0.headers ∧
        fs1.freeMap =
          ((rest.filter (fun c => c.inUse)).flatMap (fs0.treeSectors depth)).foldl
            Bitmap.Clear fs.freeMap ∧
        (∀ s, s ≠ e.sector →
          s ∉ (rest.filter (fun c => c.inUse)).flatMap (fs0.treeDirs depth) →
          fs1.directories s = fs.directories s) ∧
        fs1.fileDescriptorTable = fs.fileDescriptorTable ∧ fs1.top = fs.top := by
  induction rest with
  | nil =>
    intro fs hh _ _ _ _ _ _
    exact ⟨fs, rfl, hh, by simp, fun _ _ _ => rfl, rfl, rfl⟩
  | cons x rest ih =>
    intro fs hh hE hA hT hK hN hD
    by_cases hx : x.inUse = true
    · have hfil : (x :: rest).filter (fun c => c.inUse) = x :: rest.filter (fun c => c.inUse) := by
        simp [List.filter_cons, hx]
      rw [hfil] at hE hT hK hN hD ⊢
      simp only [List.flatMap_cons] at hN hD ⊢
      obtain ⟨hxplain, hxshaped⟩ := hK x (List.mem_cons_self _ _)
      have hxp := (plainName_iff x.name).1 hxplain
      -- the state agrees with the one before the loop on the tree of `x`
      obtain ⟨cd, cs, csh⟩ := tree_congr fs0 fs hh depth x (hT x (List.mem_cons_self _ _))
      -- the way to the directory `e`
      have hres2 : fs.resolveAll directoryFile toks = some P := by
        rw [resolveAll_congr fs0 fs toks directoryFile hA]
        exact hres
      have hsec2 : fs.resolveSectors directoryFile toks = fs0.resolveSectors directoryFile toks :=
        resolveSectors_congr fs0 fs toks directoryFile hA
      have hPmem : P.sector ∈ fs0.resolveSectors directoryFile toks :=
        resolveAll_mem fs0 toks directoryFile P hres
      have hfind2 : (fs.directories P.sector).Find name = some e.sector := by
        rw [hA P.sector hPmem]
        exact hfind
      obtain ⟨hres3, hsec3⟩ := resolveAll_snoc fs name e.sector toks directoryFile P hres2 hfind2
      -- the recursive call
      have hlook : (fs.directories e.sector).lookup x.name = some x := by
        unfold Directory.lookup
        exact lookup_head _ x _ hE
      have hnod : (fs0.treeDirs depth x).Nodup := by
        have := (List.nodup_cons.1 hN).2
        exact (List.nodup_append.1 this).1
      have hdisj : ∀ s ∈ fs.resolveSectors directoryFile (toks ++ [name]),
          s ∉ fs.treeDirs depth x := by
        intro s hs
        rw [cd]
        rw [hsec3, hsec2] at hs
        rcases List.mem_append.1 hs with h1 | h1
        · intro h2
          exact (hD s h1).2 (List.mem_append_left _ h2)
        · simp only [List.mem_singleton] at h1
          subst h1
          intro h2
          exact (List.nodup_cons.1 hN).1 (List.mem_append_left _ h2)
      obtain ⟨fs2, hcall, h2h, h2m, h2d, h2f, h2t, h2p⟩ :=
        hrm fs (pathName ++ '/' :: x.name) (toks ++ [name]) x.name { sector := e.sector } x
          (by rw [strtok_append_name _ _ hxp.1 hxp.2, htok])
          (getFileName_append_name _ _ hxp.2) hres3 hlook
          (by rw [csh]; exact hxshaped) (by rw [cd]; exact hnod) hdisj
      rw [cd] at h2f
      rw [cs] at h2m
      -- the rest of the loop
      have hE2 : fs2.entriesOf e.sector = rest.filter (fun c => c.inUse) := by
        obtain ⟨t2, ht2, hU⟩ := release_head _ x _ hE
        unfold FileSystem.entriesOf
        rw [h2d]
        simp only [Directory.Remove, ht2]
        exact hU
      have hstep : ∀ s, s ≠ e.sector → s ∉ fs0.treeDirs depth x →
          fs2.directories s = fs.directories s := fun s h1 h2 => h2f s h1 h2
      obtain ⟨fs1, hloop, h1h, h1m, h1f, h1t, h1p⟩ := ih fs2 (h2h.trans hh) hE2
        (fun s hs => by
          rw [hstep s (hD s hs).1 (fun h2 => (hD s hs).2 (List.mem_append_left _ h2))]
          exact hA s hs)
        (fun c hc s hs => by
          have hne : s ≠ e.sector := by
            intro h1
            subst h1
            exact (List.nodup_cons.1 hN).1
              (List.mem_append_right _ (List.mem_flatMap.2 ⟨c, hc, hs⟩))
          have hnx : s ∉ fs0.treeDirs depth x := by
            intro h1
            exact (List.nodup_append.1 (List.nodup_cons.1 hN).2).2.2 h1
              (List.mem_flatMap.2 ⟨c, hc, hs⟩)
          rw [hstep s hne hnx]
          exact hT c (List.mem_cons_of_mem _ hc) s hs)
        (fun c hc => hK c (List.mem_cons_of_mem _ hc))
        (by
          have h1 := List.nodup_cons.1 hN
          exact List.nodup_cons.2
            ⟨fun h2 => h1.1 (List.mem_append_right _ h2), (List.nodup_append.1 h1.2).2.1⟩)
        (fun s hs => ⟨(hD s hs).1, fun h2 => (hD s hs).2 (List.mem_append_right _ h2)⟩)
      refine ⟨fs1, ?_, h1h, ?_, ?_, h1t.trans h2t, h1p.trans h2p⟩
      · simp only [FileSystem.removeChildren, hx, if_true, hcall]
        exact hloop
      · rw [h1m, h2m, List.foldl_append]
      · intro s h1 h2
        rw [List.mem_append, not_or] at h2
        rw [h1f s h1 h2.2, hstep s h1 h2.1]
    · have hx2 : x.inUse = false := by simpa using hx
      have hfil : (x :: rest).filter (fun c => c.inUse) = rest.filter (fun c => c.inUse) := by
        simp [List.filter_cons, hx2]
      rw [hfil] at hE hT hK hN hD ⊢
      obtain ⟨fs1, hloop, h1⟩ := ih fs hh hE hA hT hK hN hD
      refine ⟨fs1, ?_, h1⟩
      simp only [FileSystem.removeChildren, hx2, Bool.false_eq_true, if_false]
      exact hloop

/-- Recursive Remove with a recursion bound above the depth of the tree removes
the tree. -/
theorem Remove_removesTree (depth : Nat) :
    removesTree (FileSystem.Remove (depth + 1)) depth := by
  induction depth with
  | zero =>
    intro fs pathName toks name P e htok hname hres hlook hshape _ _
    have hsub : fs.getSubDir pathName = some P := by
      rw [getSubDir_eq_resolveAll fs pathName toks name htok]
      exact hres
    have hfind : (fs.directories P.sector).Find (getFileName pathName) = some e.sector := by
      simp [Directory.Find, hname, hlook]
    have hisDir : (fs.directories P.sector).isDir (getFileName pathName) = e.isDir := by
      simp [Directory.isDir, hname, hlook]
    have hkids : (if (fs.directories P.sector).isDir (getFileName pathName) && true then
          FileSystem.removeChildren (FileSystem.Remove 0) true pathName fs
            (fs.directories e.sector).table
        else some fs) = some fs := by
      rw [hisDir]
      by_cases hd : e.isDir = true
      · simp only [hd, Bool.and_self, if_true]
        apply removeChildren_idle
        simpa [FileSystem.shaped, FileSystem.entriesOf, hd] using hshape
      · have hd2 : e.isDir = false := by simpa using hd
        simp [hd2]
    refine ⟨{ fs with
        freeMap := Bitmap.Clear ((fs.headers e.sector).Deallocate fs.freeMap) e.sector,
        directories := writeAt fs.directories P.sector
          ((fs.directories P.sector).Remove (getFileName pathName)).2 },
      by rw [Remove_found_eq 0 fs true pathName P e.sector hsub hfind, hkids], rfl,
      ?_, ?_, ?_, rfl, rfl⟩
    · simp [FileSystem.treeSectors, FileHeader.Deallocate, List.foldl_append]
    · simp [writeAt, hname]
    · intro s h1 _
      simp [writeAt, h1]
  | succ depth ih =>
    intro fs pathName toks name P e htok hname hres hlook hshape hnodup hdisj
    have hsub : fs.getSubDir pathName = some P := by
      rw [getSubDir_eq_resolveAll fs pathName toks name htok]
      exact hres
    have hfind0 : (fs.directories P.sector).Find name = some e.sector := by
      simp [Directory.Find, hlook]
    have hfind : (fs.directories P.sector).Find (getFileName pathName) = some e.sector := by
      rw [hname]
      exact hfind0
    have hisDir : (fs.directories P.sector).isDir (getFileName pathName) = e.isDir := by
      simp [Directory.isDir, hname, hlook]
    have hkids : ∃ fs1, (if (fs.directories P.sector).isDir (getFileName pathName) && true then
          FileSystem.removeChildren (FileSystem.Remove (depth + 1)) true pathName fs
            (fs.directories e.sector).table
        else some fs) = some fs1 ∧
        fs1.headers = fs.headers ∧
        fs1.freeMap =
          (if e.isDir then (fs.entriesOf e.sector).flatMap (fs.treeSectors depth) else []).foldl
            Bitmap.Clear fs.freeMap ∧
        (∀ s, s ∉ fs.treeDirs (depth + 1) e → fs1.directories s = fs.directories s) ∧
        fs1.fileDescriptorTable = fs.fileDescriptorTable ∧ fs1.top = fs.top := by
      rw [hisDir]
      by_cases hd : e.isDir = true
      · simp only [hd, Bool.and_self, if_true]
        simp only [FileSystem.shaped, hd, Bool.not_true, Bool.false_or, List.all_eq_true,
          Bool.and_eq_true] at hshape
        simp only [FileSystem.treeDirs, hd, if_true] at hnodup hdisj
        obtain ⟨fs1, h1, h2, h3, h4, h5, h6⟩ :=
          removeChildren_tree (FileSystem.Remove (depth + 1)) depth ih fs pathName toks name P e
            htok hres hfind0 (fs.directories e.sector).table fs rfl rfl (fun _ _ => rfl)
            (fun _ _ _ _ => rfl) hshape hnodup
            (fun s hs => by
              have := hdisj s hs
              rw [List.mem_cons, not_or] at this
              exact this)
        refine ⟨fs1, h1, h2, h3, ?_, h5, h6⟩
        intro s hs
        simp only [FileSystem.treeDirs, hd, if_true, List.mem_cons, not_or] at hs
        exact h4 s hs.1 hs.2
      · have hd2 : e.isDir = false := by simpa using hd
        simp only [hd2, Bool.false_and, Bool.false_eq_true, if_false]
        exact ⟨fs, rfl, rfl, by simp, fun _ _ => rfl, rfl, rfl⟩
    obtain ⟨fs1, h1, h2, h3, h4, h5, h6⟩ := hkids
    refine ⟨{ fs1 with
        freeMap := Bitmap.Clear ((fs1.headers e.sector).Deallocate fs1.freeMap) e.sector,
        directories := writeAt fs1.directories P.sector
          ((fs.directories P.sector).Remove (getFileName pathName)).2 },
      by rw [Remove_found_eq (depth + 1) fs true pathName P e.sector hsub hfind, h1],
      h2, ?_, ?_, ?_, h5, h6⟩
    · simp only [h2, h3, FileSystem.treeSectors, FileHeader.Deallocate, List.foldl_append,
        List.foldl_cons, List.foldl_nil]
    · simp [writeAt, hname]
    · intro s hs1 hs2
      simp only [writeAt, if_neg hs1]
      exact h4 s hs2

/-! ## Theorems -/

/-- C1: with interrupts off, FindNextToRun returns and removes the front of L1
when L1 is non-empty; otherwise the front of L2 when L2 is non-empty; otherwise
the front of L3 when L3 is non-empty; otherwise it returns no task.  Everything
but the queue it dequeued from is unchanged, and when it returns no task the
whole state is unchanged. -/
theorem FindNextToRun_strict_band_order (k : Kernel) (hlevel : k.level = IntStatus.IntOff) :
    (∀ t rest, k.QueueL1 = t :: rest →
        FindNextToRun k = some (some t, { k with QueueL1 := rest })) ∧
    (∀ t rest, k.QueueL1 = [] → k.QueueL2 = t :: rest →
        FindNextToRun k = some (some t, { k with QueueL2 := rest })) ∧
    (∀ t rest, k.QueueL1 = [] → k.QueueL2 = [] → k.QueueL3 = t :: rest →
        FindNextToRun k = some (some t, { k with QueueL3 := rest })) ∧
    (k.QueueL1 = [] → k.QueueL2 = [] → k.QueueL3 = [] →
        FindNextToRun k = some (none, k)) := by
  refine ⟨?_, ?_, ?_, ?_⟩
  · intro t rest h1
    simp [FindNextToRun, hlevel, IsEmpty, RemoveFront, h1]
  · intro t rest h1 h2
    simp [FindNextToRun, hlevel, IsEmpty, RemoveFront, h1, h2]
  · intro t rest h1 h2 h3
    simp [FindNextToRun, hlevel, IsEmpty, RemoveFront, h1, h2, h3]
  · intro h1 h2 h3
    simp [FindNextToRun, hlevel, IsEmpty, h1, h2, h3]

/-- Witness for C1: on the sample state thread 2, the front of L1, is returned
and only L1 loses it. -/
theorem FindNextToRun_strict_band_order_witness :
    FindNextToRun demoKernel = some (some 2, { demoKernel with QueueL1 := [3] }) :=
  (FindNextToRun_strict_band_order demoKernel rfl).1 2 [3] rfl

/-- C2: with interrupts off, a task of priority p in [0,149] that is in no
queue has, after ReadyToRun, status READY and wait-start equal to the current
total tick count, and it is a member of exactly one queue: L1 when
100 <= p <= 149, L2 when 50 <= p <= 99, L3 when 0 <= p <= 49.  The other two
queues are unchanged. -/
theorem ReadyToRun_enqueues_by_band (k : Kernel) (t : Nat)
    (hlevel : k.level = IntStatus.IntOff)
    (hlo : 0 ≤ (k.threads t).priority) (hhi : (k.threads t).priority ≤ 149)
    (h1 : t ∉ k.QueueL1) (h2 : t ∉ k.QueueL2) (h3 : t ∉ k.QueueL3) :
    ∃ r, ReadyToRun k t = some r ∧
      (r.threads t).status = ThreadStatus.READY ∧
      (r.threads t).waitTime = k.totalTicks ∧
      (100 ≤ (k.threads t).priority →
        t ∈ r.QueueL1 ∧ t ∉ r.QueueL2 ∧ t ∉ r.QueueL3 ∧
        r.QueueL2 = k.QueueL2 ∧ r.QueueL3 = k.QueueL3) ∧
      (50 ≤ (k.threads t).priority → (k.threads t).priority ≤ 99 →
        t ∉ r.QueueL1 ∧ t ∈ r.QueueL2 ∧ t ∉ r.QueueL3 ∧
        r.QueueL1 = k.QueueL1 ∧ r.QueueL3 = k.QueueL3) ∧
      ((k.threads t).priority ≤ 49 →
        t ∉ r.QueueL1 ∧ t ∉ r.QueueL2 ∧ t ∈ r.QueueL3 ∧
        r.QueueL1 = k.QueueL1 ∧ r.QueueL2 = k.QueueL2) := by
  refine ⟨_, ReadyToRun_eq k t hlevel, ?_, ?_, ?_, ?_, ?_⟩
  · rw [(markJump_thread _ t t _).2.2.1, (enqueue_threads _ t _).1]
    simp [setWaitTime, setStatus, Kernel.store]
  · rw [(markJump_thread _ t t _).2.2.2.2.1, (enqueue_threads _ t _).1]
    simp [setWaitTime, setStatus, Kernel.store]
  · intro hp
    have hb : (k.threads t).priority ≥ 100 ∧ (k.threads t).priority ≤ 149 := ⟨hp, hhi⟩
    rw [(markJump_queues _ t _).1, (markJump_queues _ t _).2.1, (markJump_queues _ t _).2.2]
    simp [ReadyToRun.enqueue, hb, mem_Insert, setWaitTime, setStatus, Kernel.store, h2, h3]
  · intro hp hq
    have hb : ¬ ((k.threads t).priority ≥ 100 ∧ (k.threads t).priority ≤ 149) := by omega
    have hc : (k.threads t).priority ≥ 50 ∧ (k.threads t).priority ≤ 99 := ⟨hp, hq⟩
    rw [(markJump_queues _ t _).1, (markJump_queues _ t _).2.1, (markJump_queues _ t _).2.2]
    simp [ReadyToRun.enqueue, hb, hc, mem_Insert, setWaitTime, setStatus, Kernel.store, h1, h3]
  · intro hp
    have hb : ¬ ((k.threads t).priority ≥ 100 ∧ (k.threads t).priority ≤ 149) := by omega
    have hc : ¬ ((k.threads t).priority ≥ 50 ∧ (k.threads t).priority ≤ 99) := by omega
    have hd : (k.threads t).priority ≥ 0 ∧ (k.threads t).priority ≤ 49 := ⟨hlo, hp⟩
    rw [(markJump_queues _ t _).1, (markJump_queues _ t _).2.1, (markJump_queues _ t _).2.2]
    simp [ReadyToRun.enqueue, hb, hc, hd, mem_Append, setWaitTime, setStatus, Kernel.store,
      h1, h2]

/-- Witness for C2: thread 7 of the sample state has priority 70 and is in no
queue; ReadyToRun makes it READY, stamps tick 2000 and puts it into L2 only. -/
theorem ReadyToRun_enqueues_by_band_witness :
    ∃ r, ReadyToRun demoKernel 7 = some r ∧
      (r.threads 7).status = ThreadStatus.READY ∧ (r.threads 7).waitTime = 2000 ∧
      7 ∉ r.QueueL1 ∧ 7 ∈ r.QueueL2 ∧ 7 ∉ r.QueueL3 := by
  obtain ⟨r, hr, hs, hw, _, h2, _⟩ :=
    ReadyToRun_enqueues_by_band demoKernel 7 rfl (by decide) (by decide)
      (by decide) (by decide) (by decide)
  have h := h2 (by decide) (by decide)
  exact ⟨r, hr, hs, hw, h.1, h.2.1, h.2.2.1⟩

/-- C3: for a task that is READY, has id >= 2 and has waited at least 1500
ticks (now - waitStart >= 1500), CheckAging sets the priority to
min(p + 10, 149), where p is its priority before the call, and sets the
wait-start to the current total tick count. -/
theorem CheckAging_raises_priority (k : Kernel) (t : Nat)
    (hready : (k.threads t).status = ThreadStatus.READY)
    (hid : (k.threads t).ID ≥ 2)
    (hwait : k.totalTicks - (k.threads t).waitTime ≥ 1500) :
    ((CheckAging k t).state.threads t).priority = min ((k.threads t).priority + 10) 149 ∧
    ((CheckAging k t).state.threads t).waitTime = k.totalTicks := by
  have h : (k.threads t).status = ThreadStatus.READY
      ∧ k.totalTicks - (k.threads t).waitTime ≥ 1500 ∧ (k.threads t).ID ≥ 2 :=
    ⟨hready, hwait, hid⟩
  constructor
  · rw [CheckAging_priority, if_pos h]
  · rw [CheckAging_due_threads k t h]
    simp [setWaitTime, setPriority, Kernel.store]

/-- Witness for C3: thread 5 of the sample state (priority 60, waiting since
tick 0, now tick 2000) is raised to 70 and its wait-start becomes 2000. -/
theorem CheckAging_raises_priority_witness :
    ((CheckAging demoKernel 5).state.threads 5).priority = min (60 + 10) 149 ∧
    ((CheckAging demoKernel 5).state.threads 5).waitTime = 2000 :=
  CheckAging_raises_priority demoKernel 5 rfl (by decide) (by decide)

/-- C4: for a task whose id is 0 or 1, or whose status is not READY, or whose
wait (now - waitStart) is below 1500 ticks, CheckAging returns false, does not
call Yield, and leaves the whole state unchanged: the priority and wait-start
of the task, all three queues and the running task. -/
theorem CheckAging_skips (k : Kernel) (t : Nat)
    (h : (k.threads t).ID = 0 ∨ (k.threads t).ID = 1
      ∨ (k.threads t).status ≠ ThreadStatus.READY
      ∨ k.totalTicks - (k.threads t).waitTime < 1500) :
    (CheckAging k t).ret = false ∧
    (CheckAging k t).state = k ∧
    ((CheckAging k t).state.threads t).priority = (k.threads t).priority ∧
    ((CheckAging k t).state.threads t).waitTime = (k.threads t).waitTime ∧
    (CheckAging k t).state.QueueL1 = k.QueueL1 ∧
    (CheckAging k t).state.QueueL2 = k.QueueL2 ∧
    (CheckAging k t).state.QueueL3 = k.QueueL3 ∧
    (CheckAging k t).state.currentThread = k.currentThread ∧
    (CheckAging k t).yielded = false := by
  have hn : ¬ ((k.threads t).status = ThreadStatus.READY
      ∧ k.totalTicks - (k.threads t).waitTime ≥ 1500 ∧ (k.threads t).ID ≥ 2) := by
    rintro ⟨h1, h2, h3⟩
    rcases h with h | h | h | h
    · omega
    · omega
    · exact h h1
    · omega
  rw [CheckAging_not_due k t hn]
  simp

/-- Witness for C4: thread 7 of the sample state is BLOCKED, so CheckAging
returns false and the state is the one before the call. -/
theorem CheckAging_skips_witness :
    (CheckAging demoKernel 7).ret = false ∧ (CheckAging demoKernel 7).state = demoKernel :=
  let h := CheckAging_skips demoKernel 7 (Or.inr (Or.inr (Or.inl (by decide))))
  ⟨h.1, h.2.1⟩

/-- C5: in a state whose three queues are pairwise disjoint and in which every
queued task sits in the queue of its priority band, a queued task whose aging
raises its priority from below 100 to at least 100 is, after the queue updates
of CheckAging, a member of L1 and of no other queue; one whose aging raises its
priority from below 50 to at least 50 is a member of L2 and of no other
queue. -/
theorem CheckAging_relocates_on_crossing (k : Kernel) (t : Nat)
    (_hdisj : queuesDisjoint k) (hband : bandsRespected k)
    (_hqueued : t ∈ k.QueueL1 ∨ t ∈ k.QueueL2 ∨ t ∈ k.QueueL3) :
    ((k.threads t).priority < 100 →
      100 ≤ ((CheckAging k t).state.threads t).priority →
        t ∈ (CheckAging k t).state.QueueL1 ∧
        t ∉ (CheckAging k t).state.QueueL2 ∧
        t ∉ (CheckAging k t).state.QueueL3) ∧
    ((k.threads t).priority < 50 →
      50 ≤ ((CheckAging k t).state.threads t).priority →
        t ∉ (CheckAging k t).state.QueueL1 ∧
        t ∈ (CheckAging k t).state.QueueL2 ∧
        t ∉ (CheckAging k t).state.QueueL3) := by
  obtain ⟨hb1, _, hb3⟩ := hband
  by_cases h : (k.threads t).status = ThreadStatus.READY
      ∧ k.totalTicks - (k.threads t).waitTime ≥ 1500 ∧ (k.threads t).ID ≥ 2
  · rw [CheckAging_priority, if_pos h, CheckAging_due k t h]
    constructor
    · intro hlt hge
      have hc : (k.threads t).priority < 100 ∧ min ((k.threads t).priority + 10) 149 ≥ 100 :=
        ⟨hlt, hge⟩
      rw [if_pos hc, newToL1_state]
      refine ⟨by simp [mem_Insert], ?_, ?_⟩
      · simp only [setWaitTime, setPriority, Kernel.store]
        split_ifs with hin
        · simp [mem_Remove]
        · simpa [IsInList] using hin
      · intro hin
        have hp := hb3 t (by simpa [setWaitTime, setPriority, Kernel.store] using hin)
        have hmin : min ((k.threads t).priority + 10) 149 ≤ (k.threads t).priority + 10 :=
          min_le_left _ _
        omega
    · intro hlt hge
      have hmin : min ((k.threads t).priority + 10) 149 ≤ (k.threads t).priority + 10 :=
        min_le_left _ _
      have hc1 : ¬ ((k.threads t).priority < 100
          ∧ min ((k.threads t).priority + 10) 149 ≥ 100) := by omega
      have hc2 : (k.threads t).priority < 50 ∧ min ((k.threads t).priority + 10) 149 ≥ 50 :=
        ⟨hlt, hge⟩
      rw [if_neg hc1, if_pos hc2, newToL2_state]
      refine ⟨?_, by simp [mem_Insert], ?_⟩
      · intro hin
        have hp := hb1 t (by simpa [setWaitTime, setPriority, Kernel.store] using hin)
        omega
      · simp only [setWaitTime, setPriority, Kernel.store]
        split_ifs with hin
        · simp [mem_Remove]
        · simpa [IsInList] using hin
  · rw [CheckAging_priority, if_neg h]
    constructor <;> intro h1 h2 <;> omega

/-- Witness for C5: thread 4 of the sample state waits in L2 with priority 95;
aging raises it to 105, after which it is in L1 and in neither L2 nor L3. -/
theorem CheckAging_relocates_on_crossing_witness :
    4 ∈ (CheckAging demoKernel 4).state.QueueL1 ∧
    4 ∉ (CheckAging demoKernel 4).state.QueueL2 ∧
    4 ∉ (CheckAging demoKernel 4).state.QueueL3 :=
  (CheckAging_relocates_on_crossing demoKernel 4
    (by simp [queuesDisjoint, demoKernel])
    (by simp [bandsRespected, demoKernel, demoThreads])
    (Or.inr (Or.inl (by decide)))).1 (by decide) (by decide)

/-- C6, counterexample: thread 7 (priority 70) becomes ready at tick 0 and
thread 12 (priority 75) at tick 1000, so L2 holds 12 in front of 7.  At tick
1500 CheckAging raises thread 7 to priority 80 and leaves it where it is.  In
the state reached L1 is empty, L2 is not in descending order of priority, and
FindNextToRun dequeues thread 12 (priority 75) although thread 7 (priority 80)
is queued in L2. -/
theorem L2_order_counterexample :
    Reachable anyOp agingReached ∧
    agingReached.QueueL1 = [] ∧ agingReached.QueueL2 = [12, 7] ∧
    (agingReached.threads 12).priority = 75 ∧ (agingReached.threads 7).priority = 80 ∧
    (FindNextToRun agingReached).map Prod.fst = some (some 12) ∧
    ¬ L2Sorted agingReached := by
  refine ⟨⟨{ demoKernel with totalTicks := 0 }, agingTrace, rfl⟩, by decide, by decide,
    by decide, by decide, by decide, ?_⟩
  unfold L2Sorted
  decide

/-- C6, amended: in every state reachable from the empty scheduler by
ReadyToRun, FindNextToRun, Run and CheckAging (and clock ticks), where no CheckAging
changes the priority of a task that is in L2 before and after the call, the
tasks of L2 are dequeued in descending order of their current priority, tasks
of equal priority in the order they were inserted: L2 is sorted by descending
priority; with L1 empty FindNextToRun removes its front, whose priority is the
largest queued; and every further event keeps the priorities of the tasks that
stay in L2 and either leaves L2 alone, or dequeues its front, or removes the
task that aged into L1, or inserts one task behind all queued tasks of larger
or equal priority and in front of all tasks of smaller priority, the queued
tasks keeping their order. -/
theorem L2_highest_priority_first (k : Kernel) (hk : Reachable priorityKeptInL2 k) :
    L2Sorted k ∧
    (∀ t rest, k.level = IntStatus.IntOff → k.QueueL1 = [] → k.QueueL2 = t :: rest →
      FindNextToRun k = some (some t, { k with QueueL2 := rest }) ∧
      ∀ y ∈ rest, (k.threads t).priority ≥ (k.threads y).priority) ∧
    (∀ op r, priorityKeptInL2 k op = true → applyOp k op = some r →
      (∀ y ∈ k.QueueL2, y ∈ r.QueueL2 →
        (r.threads y).priority = (k.threads y).priority) ∧
      (r.QueueL2 = k.QueueL2 ∨
       (∃ t, FindNextToRun k = some (some t, r) ∧ k.QueueL1 = [] ∧
          k.QueueL2 = t :: r.QueueL2) ∨
       (∃ t, op = Op.checkAging t ∧ r.QueueL2 = Remove k.QueueL2 t) ∨
       (∃ t l1 l2, k.QueueL2 = l1 ++ l2 ∧ r.QueueL2 = l1 ++ t :: l2 ∧
          (∀ y ∈ l1, (r.threads y).priority ≥ (r.threads t).priority) ∧
          (∀ y ∈ l2, (r.threads y).priority < (r.threads t).priority)))) := by
  have hs : L2Sorted k := Reachable_L2Sorted k hk
  refine ⟨hs, ?_, ?_⟩
  · intro t rest hlevel h1 h2
    constructor
    · simp [FindNextToRun, hlevel, IsEmpty, RemoveFront, h1, h2]
    · unfold L2Sorted at hs
      rw [h2, List.pairwise_cons] at hs
      exact hs.1
  · intro op r hall happ
    exact L2_step k r op hs hall happ

/-- Witness for C6: after threads 5, 12 and 7 (priorities 60, 75 and 70) became
ready in this order, L2 holds them as 12, 7, 5 and is sorted by priority. -/
theorem L2_highest_priority_first_witness :
    priorityReached.QueueL2 = [12, 7, 5] ∧ L2Sorted priorityReached :=
  ⟨by decide,
   (L2_highest_priority_first priorityReached
      ⟨{ demoKernel with totalTicks := 0 }, priorityTrace, rfl⟩).1⟩

/-- C7: in every state reachable from the empty scheduler by ReadyToRun,
CheckAging, FindNextToRun and Run (and clock ticks), where the burst-time estimate
of a task does not change while it is queued in L1, the tasks of L1 are
dequeued in ascending order of burst-time estimate, tasks of equal estimate in
the order they were inserted: L1 is sorted by ascending burst time;
FindNextToRun removes its front, whose burst time is the smallest queued; and
every further event keeps the burst times of the queued tasks and either leaves
L1 alone, or dequeues its front, or inserts one task behind all queued tasks
of smaller or equal burst time and in front of all tasks of larger burst time,
the queued tasks keeping their order. -/
theorem L1_shortest_burst_first (k : Kernel) (hk : Reachable burstKeptInL1 k) :
    L1Sorted k ∧
    (∀ t rest, k.level = IntStatus.IntOff → k.QueueL1 = t :: rest →
      FindNextToRun k = some (some t, { k with QueueL1 := rest }) ∧
      ∀ y ∈ rest, (k.threads t).burstTime ≤ (k.threads y).burstTime) ∧
    (∀ op r, burstKeptInL1 k op = true → applyOp k op = some r →
      (∀ y ∈ k.QueueL1, (r.threads y).burstTime = (k.threads y).burstTime) ∧
      (r.QueueL1 = k.QueueL1 ∨
       (∃ t, FindNextToRun k = some (some t, r) ∧ k.QueueL1 = t :: r.QueueL1) ∨
       (∃ t l1 l2, k.QueueL1 = l1 ++ l2 ∧ r.QueueL1 = l1 ++ t :: l2 ∧
          (∀ y ∈ l1, (r.threads y).burstTime ≤ (r.threads t).burstTime) ∧
          (∀ y ∈ l2, (r.threads t).burstTime < (r.threads y).burstTime)))) := by
  have hs : L1Sorted k := Reachable_L1Sorted k hk
  refine ⟨hs, ?_, ?_⟩
  · intro t rest hlevel hq
    constructor
    · simp [FindNextToRun, hlevel, IsEmpty, RemoveFront, hq]
    · unfold L1Sorted at hs
      rw [hq, List.pairwise_cons] at hs
      exact hs.1
  · intro op r hall happ
    exact L1_step k r op hs hall happ

/-- Witness for C7: after threads 3, 2 and 8 (burst times 8, 5 and 9) became
ready in this order, L1 holds them as 2, 3, 8 and is sorted by burst time. -/
theorem L1_shortest_burst_first_witness :
    burstReached.QueueL1 = [2, 3, 8] ∧ L1Sorted burstReached :=
  ⟨by decide,
   (L1_shortest_burst_first burstReached
      ⟨{ demoKernel with totalTicks := 0 }, burstTrace, rfl⟩).1⟩

/-- C8: CheckAging on a task T, with R the running task, calls Yield on R
exactly when R is a different task (by id) and one of these holds: T crossed
into L1 (priority from below 100 to at least 100) and the priority of R is
below 100; T crossed into L1, the priority of R is at least 100 and the burst
time of T is strictly smaller than that of R; T crossed into L2 (priority from
below 50 to at least 50) and the priority of R is below 50.  In every other
case, and whenever T is the running task itself, Yield is not called. -/
theorem CheckAging_yields_exactly (k : Kernel) (t : Nat) :
    (CheckAging k t).yielded = true ↔
      (k.threads k.currentThread).ID ≠ (k.threads t).ID ∧
      (((k.threads t).priority < 100 ∧ 100 ≤ ((CheckAging k t).state.threads t).priority ∧
          (k.threads k.currentThread).priority < 100) ∨
       ((k.threads t).priority < 100 ∧ 100 ≤ ((CheckAging k t).state.threads t).priority ∧
          (k.threads k.currentThread).priority ≥ 100 ∧
          (k.threads t).burstTime < (k.threads k.currentThread).burstTime) ∨
       ((k.threads t).priority < 50 ∧ 50 ≤ ((CheckAging k t).state.threads t).priority ∧
          (k.threads k.currentThread).priority < 50)) := by
  by_cases h : (k.threads t).status = ThreadStatus.READY
      ∧ k.totalTicks - (k.threads t).waitTime ≥ 1500 ∧ (k.threads t).ID ≥ 2
  · have hmin : min ((k.threads t).priority + 10) 149 ≤ (k.threads t).priority + 10 :=
      min_le_left _ _
    rw [CheckAging_priority, if_pos h, CheckAging_due k t h]
    by_cases hcur : k.currentThread = t
    · split_ifs <;>
        simp [newToL1_yielded, newToL2_yielded, setWaitTime, setPriority, Kernel.store, hcur]
    · by_cases hc1 : (k.threads t).priority < 100
          ∧ min ((k.threads t).priority + 10) 149 ≥ 100
      · rw [if_pos hc1, newToL1_yielded]
        simp only [setWaitTime, setPriority, Kernel.store, if_neg hcur, if_true]
        constructor
        · rintro ⟨hid, hp | ⟨hp, hb⟩⟩
          · exact ⟨hid, Or.inl ⟨hc1.1, hc1.2, hp⟩⟩
          · exact ⟨hid, Or.inr (Or.inl ⟨hc1.1, hc1.2, hp, hb⟩)⟩
        · rintro ⟨hid, ⟨_, _, hp⟩ | ⟨_, _, hp, hb⟩ | ⟨hlt, _, _⟩⟩
          · exact ⟨hid, Or.inl hp⟩
          · exact ⟨hid, Or.inr ⟨hp, hb⟩⟩
          · omega
      · rw [if_neg hc1]
        by_cases hc2 : (k.threads t).priority < 50
            ∧ min ((k.threads t).priority + 10) 149 ≥ 50
        · rw [if_pos hc2, newToL2_yielded]
          simp only [setWaitTime, setPriority, Kernel.store, if_neg hcur, if_true]
          constructor
          · rintro ⟨hid, hp⟩
            exact ⟨hid, Or.inr (Or.inr ⟨hc2.1, hc2.2, hp⟩)⟩
          · rintro ⟨hid, ⟨h1, h2, _⟩ | ⟨h1, h2, _⟩ | ⟨_, _, hp⟩⟩
            · exact absurd ⟨h1, h2⟩ hc1
            · exact absurd ⟨h1, h2⟩ hc1
            · exact ⟨hid, hp⟩
        · rw [if_neg hc2]
          simp only [Bool.false_eq_true, false_iff]
          rintro ⟨_, ⟨h1, h2, _⟩ | ⟨h1, h2, _⟩ | ⟨h1, h2, _⟩⟩
          · exact hc1 ⟨h1, h2⟩
          · exact hc1 ⟨h1, h2⟩
          · exact hc2 ⟨h1, h2⟩
  · rw [CheckAging_priority, if_neg h, CheckAging_not_due k t h]
    simp only [Bool.false_eq_true, false_iff]
    rintro ⟨_, ⟨h1, h2, _⟩ | ⟨h1, h2, _⟩ | ⟨h1, h2, _⟩⟩ <;> omega

/-- C9, counterexample: in the sample state with the bootstrap thread running
(id 0, priority 0), thread 7 (id 7, priority 70) becomes ready.  The two tasks
differ, the priority of the new task is in [50,99] and that of the running task
is below 50, yet ReadyToRun leaves the flag of the new task unset. -/
theorem ReadyToRun_flag_counterexample :
    (bootKernel.threads bootKernel.currentThread).ID ≠ (bootKernel.threads 7).ID ∧
    50 ≤ (bootKernel.threads 7).priority ∧ (bootKernel.threads 7).priority ≤ 99 ∧
    (bootKernel.threads bootKernel.currentThread).priority < 50 ∧
    (ReadyToRun bootKernel 7).map (fun r => (r.threads 7).jump) = some false := by
  decide

/-- C9, amended: with interrupts off, for a newly-ready task T and the running
task R, ReadyToRun sets the deferred preemption flag on T exactly when R is a
different task (by id), the id of R is at least 2, and one of the aging rules
applies: the priority of T is at least 100 and that of R is below 100; or both
priorities are at least 100 and the burst time of T is strictly smaller than
that of R; or the priority of T is in [50,99] and that of R is below 50.  In
every other case, in particular whenever the id of R is below 2, the flag of T
is left as it was. -/
theorem ReadyToRun_flag_exactly (k : Kernel) (t : Nat)
    (hlevel : k.level = IntStatus.IntOff) :
    ∃ r, ReadyToRun k t = some r ∧
      (r.threads t).jump =
        if (k.threads k.currentThread).ID ≠ (k.threads t).ID ∧
            (k.threads k.currentThread).ID ≥ 2 ∧
            (((k.threads t).priority ≥ 100 ∧ (k.threads k.currentThread).priority < 100) ∨
             ((k.threads t).priority ≥ 100 ∧ (k.threads k.currentThread).priority ≥ 100 ∧
                (k.threads t).burstTime < (k.threads k.currentThread).burstTime) ∨
             ((k.threads t).priority ≥ 50 ∧ (k.threads t).priority ≤ 99 ∧
                (k.threads k.currentThread).priority < 50))
        then true else (k.threads t).jump := by
  refine ⟨_, ReadyToRun_eq k t hlevel, ?_⟩
  rw [markJump_jump, (enqueue_threads _ t _).1, (enqueue_threads _ t _).2]
  by_cases hcur : k.currentThread = t
  · simp [setWaitTime, setStatus, Kernel.store, hcur]
  · simp [setWaitTime, setStatus, Kernel.store, hcur]

/-- Witness for C9: with thread 9 running (id 9, priority 30), thread 7
(priority 70) becomes ready and its flag is set. -/
theorem ReadyToRun_flag_exactly_witness :
    ∃ r, ReadyToRun { demoKernel with currentThread := 9 } 7 = some r ∧
      (r.threads 7).jump = true := by
  obtain ⟨r, hr, hj⟩ := ReadyToRun_flag_exactly { demoKernel with currentThread := 9 } 7 rfl
  exact ⟨r, hr, by rw [hj]; decide⟩

/-- C10, counterexample: thread 10 of the sample state has priority 200, is
BLOCKED, has wait-start 0 and an unset flag.  After ReadyToRun at tick 2000 it
is READY, its wait-start is 2000 and its flag is set. -/
theorem ReadyToRun_out_of_range_counterexample :
    149 < (demoKernel.threads 10).priority ∧
    (demoKernel.threads 10).status = ThreadStatus.BLOCKED ∧
    (demoKernel.threads 10).waitTime = 0 ∧
    (demoKernel.threads 10).jump = false ∧
    (ReadyToRun demoKernel 10).map
        (fun r => ((r.threads 10).status, (r.threads 10).waitTime, (r.threads 10).jump))
      = some (ThreadStatus.READY, 2000, true) := by
  decide

/-- C10, amended: with interrupts off, ReadyToRun on a task whose priority is
outside [0,149] inserts it into no queue, so all three queues are the same
after the call as before it, and no other thread is touched; the status of the
task nevertheless becomes READY and its wait-start becomes the current total
tick count.  When the priority is negative the preemption flag is unchanged. -/
theorem ReadyToRun_out_of_range (k : Kernel) (t : Nat)
    (hlevel : k.level = IntStatus.IntOff)
    (hout : (k.threads t).priority < 0 ∨ 149 < (k.threads t).priority) :
    ∃ r, ReadyToRun k t = some r ∧
      r.QueueL1 = k.QueueL1 ∧ r.QueueL2 = k.QueueL2 ∧ r.QueueL3 = k.QueueL3 ∧
      (∀ x, x ≠ t → r.threads x = k.threads x) ∧
      (r.threads t).status = ThreadStatus.READY ∧
      (r.threads t).waitTime = k.totalTicks ∧
      (r.threads t).priority = (k.threads t).priority ∧
      ((k.threads t).priority < 0 → (r.threads t).jump = (k.threads t).jump) := by
  have hb : ¬ ((k.threads t).priority ≥ 100 ∧ (k.threads t).priority ≤ 149) := by omega
  have hc : ¬ ((k.threads t).priority ≥ 50 ∧ (k.threads t).priority ≤ 99) := by omega
  have hd : ¬ ((k.threads t).priority ≥ 0 ∧ (k.threads t).priority ≤ 49) := by omega
  have he : ReadyToRun.enqueue (setWaitTime (setStatus k t ThreadStatus.READY) t k.totalTicks) t
      (k.threads t).priority = setWaitTime (setStatus k t ThreadStatus.READY) t k.totalTicks := by
    simp only [ReadyToRun.enqueue, if_neg hb, if_neg hc, if_neg hd]
  refine ⟨_, ReadyToRun_eq k t hlevel, ?_, ?_, ?_, ?_, ?_, ?_, ?_, ?_⟩
  · rw [(markJump_queues _ t _).1, he]
    simp [setWaitTime, setStatus, Kernel.store]
  · rw [(markJump_queues _ t _).2.1, he]
    simp [setWaitTime, setStatus, Kernel.store]
  · rw [(markJump_queues _ t _).2.2, he]
    simp [setWaitTime, setStatus, Kernel.store]
  · intro x hx
    rw [markJump_other _ t x _ hx, he]
    simp [setWaitTime, setStatus, Kernel.store, hx]
  · rw [(markJump_thread _ t t _).2.2.1, he]
    simp [setWaitTime, setStatus, Kernel.store]
  · rw [(markJump_thread _ t t _).2.2.2.2.1, he]
    simp [setWaitTime, setStatus, Kernel.store]
  · rw [(markJump_thread _ t t _).2.1, he]
    simp [setWaitTime, setStatus, Kernel.store]
  · intro hneg
    rw [markJump_jump, he]
    have hn : ¬ ((k.threads t).priority ≥ 100) := by omega
    have hn2 : ¬ ((k.threads t).priority ≥ 50) := by omega
    simp [setWaitTime, setStatus, Kernel.store, hn, hn2]

/-- Witness for C10: thread 11 of the sample state has priority -5; ReadyToRun
leaves the three queues alone, makes it READY and stamps tick 2000. -/
theorem ReadyToRun_out_of_range_witness :
    ∃ r, ReadyToRun demoKernel 11 = some r ∧
      r.QueueL1 = [2, 3] ∧ r.QueueL2 = [4, 5] ∧ r.QueueL3 = [6] ∧
      (r.threads 11).status = ThreadStatus.READY ∧ (r.threads 11).waitTime = 2000 ∧
      (r.threads 11).jump = false := by
  obtain ⟨r, hr, h1, h2, h3, _, hs, hw, _, hj⟩ :=
    ReadyToRun_out_of_range demoKernel 11 rfl (Or.inl (by decide))
  exact ⟨r, hr, h1, h2, h3, hs, hw, hj (by decide)⟩


/-- C11: in every state reachable from the empty scheduler by ReadyToRun
(called only on tasks that are in no queue), CheckAging, FindNextToRun and Run
(and clock ticks), the three queues are pairwise disjoint and no task occurs
twice in one queue, so every task FindNextToRun returns occurred exactly once in
the three queues together immediately before the call. -/
theorem queues_hold_each_task_once (k : Kernel) (hk : Reachable readyOnlyUnqueued k) :
    queuesDisjoint k ∧ queuesNodup k ∧
    (∀ t r, FindNextToRun k = some (some t, r) →
      k.QueueL1.count t + k.QueueL2.count t + k.QueueL3.count t = 1) := by
  obtain ⟨hb, hn⟩ := Reachable_queues k hk
  have hd := queuesDisjoint_of_bands k hb
  refine ⟨hd, hn, ?_⟩
  intro t r hf
  obtain ⟨d12, d13, d23⟩ := hd
  obtain ⟨n1, n2, n3⟩ := hn
  obtain ⟨_, hq⟩ := FindNextToRun_queues k r (some t) hf
  rcases hq with ⟨h, _⟩ | ⟨t2, ht, hq⟩
  · exact absurd h (by simp)
  · have ht2 : t2 = t := (Option.some.inj ht).symm
    subst ht2
    rcases hq with ⟨e, _, _⟩ | ⟨_, e, _⟩ | ⟨_, _, e⟩
    · have hm : t2 ∈ k.QueueL1 := by rw [e]; exact List.mem_cons_self _ _
      rw [List.count_eq_one_of_mem n1 hm, List.count_eq_zero_of_not_mem (d12 t2 hm),
        List.count_eq_zero_of_not_mem (d13 t2 hm)]
    · have hm : t2 ∈ k.QueueL2 := by rw [e]; exact List.mem_cons_self _ _
      have h1 : t2 ∉ k.QueueL1 := fun h => d12 t2 h hm
      rw [List.count_eq_one_of_mem n2 hm, List.count_eq_zero_of_not_mem h1,
        List.count_eq_zero_of_not_mem (d23 t2 hm)]
    · have hm : t2 ∈ k.QueueL3 := by rw [e]; exact List.mem_cons_self _ _
      have h1 : t2 ∉ k.QueueL1 := fun h => d13 t2 h hm
      have h2 : t2 ∉ k.QueueL2 := fun h => d23 t2 h hm
      rw [List.count_eq_one_of_mem n3 hm, List.count_eq_zero_of_not_mem h1,
        List.count_eq_zero_of_not_mem h2]

/-- Witness for C11: after threads 4, 6 and 2 became ready and thread 4 aged
from L2 into L1, the queues are [4, 2], [] and [6]; they are disjoint and free
of duplicates. -/
theorem queues_hold_each_task_once_witness :
    mixedReached.QueueL1 = [4, 2] ∧ mixedReached.QueueL2 = [] ∧ mixedReached.QueueL3 = [6] ∧
    queuesDisjoint mixedReached ∧ queuesNodup mixedReached :=
  let h := queues_hold_each_task_once mixedReached
    ⟨{ demoKernel with totalTicks := 0 }, mixedTrace, rfl⟩
  ⟨by decide, by decide, by decide, h.1, h.2.1⟩

/-- C12: with interrupts off, Run(next, finishing) with finishing set and an
empty deferred-destruction slot leaves the outgoing task in the slot; with
finishing set and an occupied slot it fails its assertion; with finishing not
set it leaves the slot unchanged.  After CheckToBeDestroyed the slot is empty,
and CheckToBeDestroyed on an empty slot changes nothing. -/
theorem Run_defers_destruction (k : Kernel) (next : Nat)
    (hlevel : k.level = IntStatus.IntOff) :
    (k.toBeDestroyed = none →
      ∃ r, Run k next true = some r ∧ r.toBeDestroyed = some k.currentThread) ∧
    (k.toBeDestroyed ≠ none → Run k next true = none) ∧
    (∃ r, Run k next false = some r ∧ r.toBeDestroyed = k.toBeDestroyed) ∧
    (CheckToBeDestroyed k).toBeDestroyed = none ∧
    (k.toBeDestroyed = none → CheckToBeDestroyed k = k) := by
  refine ⟨?_, ?_, ?_, ?_, ?_⟩
  · intro h
    refine ⟨setStatus { setStartTime k next k.userTicks with
      toBeDestroyed := some k.currentThread, currentThread := next } next
      ThreadStatus.RUNNING, ?_, ?_⟩
    · simp [Run, setStatus, setStartTime, Kernel.store, hlevel, h]
    · simp [setStatus, setStartTime, Kernel.store]
  · intro h
    simp [Run, setStartTime, Kernel.store, hlevel, h]
  · refine ⟨setStatus { setStartTime k next k.userTicks with currentThread := next } next
      ThreadStatus.RUNNING, ?_, ?_⟩
    · simp [Run, setStatus, setStartTime, Kernel.store, hlevel]
    · simp [setStatus, setStartTime, Kernel.store]
  · unfold CheckToBeDestroyed
    split_ifs with h
    · rfl
    · simpa using h
  · intro h
    simp [CheckToBeDestroyed, h]

/-- Witness for C12: on the sample state, whose slot is empty and where thread
8 runs, a finishing Run to thread 2 parks thread 8 in the slot. -/
theorem Run_defers_destruction_witness :
    ∃ r, Run demoKernel 2 true = some r ∧ r.toBeDestroyed = some 8 :=
  (Run_defers_destruction demoKernel 2 rfl).1 rfl

/-- What a successful Create does, in terms of the name `getFileName` extracts:
it takes the lowest-numbered sector that was free before the call as the header
sector, and the number of allocated sectors in the persisted bitmap grows by
exactly 1 plus the number of sectors that cover S' bytes (S' / sectorSize
rounded up), where S' is S for a file and the fixed directory size (64 entries)
for a directory whatever S was passed.  When the bitmap marks the header sector
of the parent directory allocated, the parent directory gains exactly one
in-use entry, in a slot that was free, which maps the name `getFileName`
extracts to that header sector with the given is-directory flag. -/
theorem Create_allocates_and_registers (cfg : DiskConfig) (fs : FileSystem)
    (pathName : List Char) (initialSize : Nat) (isDir : Bool)
    (h : (fs.Create cfg pathName initialSize isDir).1 = true) :
    ∃ curDirFile sector,
      fs.getSubDir pathName = some curDirFile ∧
      sector < fs.freeMap.length ∧
      Bitmap.Test fs.freeMap sector = false ∧
      (∀ j, j < sector → Bitmap.Test fs.freeMap j = true) ∧
      Bitmap.numSet (fs.Create cfg pathName initialSize isDir).2.freeMap =
        Bitmap.numSet fs.freeMap + 1 +
          divRoundUp (if isDir then DirectoryFileSize cfg else initialSize) cfg.SectorSize ∧
      (0 < cfg.SectorSize →
        (if isDir then DirectoryFileSize cfg else initialSize) ≤
          divRoundUp (if isDir then DirectoryFileSize cfg else initialSize) cfg.SectorSize
            * cfg.SectorSize ∧
        ∀ n, (if isDir then DirectoryFileSize cfg else initialSize) ≤ n * cfg.SectorSize →
          divRoundUp (if isDir then DirectoryFileSize cfg else initialSize) cfg.SectorSize ≤ n) ∧
      (Bitmap.Test fs.freeMap curDirFile.sector = true →
        (∃ i old, (fs.directories curDirFile.sector).table[i]? = some old ∧
          old.inUse = false ∧
          ((fs.Create cfg pathName initialSize isDir).2.directories curDirFile.sector).table =
            (fs.directories curDirFile.sector).table.set i
              { inUse := true, isDir := isDir, sector := sector,
                name := getFileName pathName }) ∧
        ((fs.Create cfg pathName initialSize isDir).2.directories
            curDirFile.sector).inUseCount =
          (fs.directories curDirFile.sector).inUseCount + 1 ∧
        ((fs.Create cfg pathName initialSize isDir).2.directories curDirFile.sector).Find
            (getFileName pathName) = some sector ∧
        ((fs.Create cfg pathName initialSize isDir).2.directories curDirFile.sector).isDir
            (getFileName pathName) = isDir) := by
  obtain ⟨cur, sector, fm1, dir1, hdr, fm2, _, hcur, _, _, hfind, hadd, halloc, hfs⟩ :=
    Create_success cfg fs pathName initialSize isDir h
  obtain ⟨hlt, htest, hlow, _, hcount1⟩ := FindAndSet_some fs.freeMap fm1 sector hfind
  obtain ⟨hcount2, _⟩ := Allocate_some cfg fm1 fm2 _ hdr halloc
  obtain ⟨_, hset, hinuse, hfound, hflag, _⟩ := Add_true _ dir1 _ sector isDir hadd
  refine ⟨cur, sector, hcur, hlt, htest, hlow, ?_, ?_, ?_⟩
  · rw [hfs]
    simp only
    omega
  · intro hs
    exact divRoundUp_least _ _ hs
  · intro hparent
    have hne : cur.sector ≠ sector := by
      intro e
      rw [e, htest] at hparent
      exact absurd hparent (by simp)
    have hd : (fs.Create cfg pathName initialSize isDir).2.directories cur.sector = dir1 := by
      rw [hfs]
      simp [writeAt, hne]
    rw [hd]
    exact ⟨hset, hinuse, hfound, hflag⟩

/-- Sample: Create("/a", 100 bytes, file) on the formatted sample disk
takes sector 5 as header sector and one data sector: seven sectors are
allocated afterwards instead of five, and the root maps "a" to sector 5. -/
theorem Create_allocates_and_registers_witness :
    Bitmap.numSet diskWithA.freeMap = Bitmap.numSet formattedDisk.freeMap + 1 + 1 ∧
    (diskWithA.directories 1).Find ['a'] = some 5 := by
  obtain ⟨cur, sector, hcur, _, ht, hlow, hcount, _, hentry⟩ :=
    Create_allocates_and_registers demoConfig formattedDisk pathA 100 false (by decide)
  have hc : cur = directoryFile := by
    have : formattedDisk.getSubDir pathA = some directoryFile := by decide
    rw [this] at hcur
    exact (Option.some.inj hcur).symm
  subst hc
  refine ⟨hcount, ?_⟩
  have hs : sector = 5 := by
    have h5 : Bitmap.Test formattedDisk.freeMap 5 = false := by decide
    have h4 : ∀ j, j < 5 → Bitmap.Test formattedDisk.freeMap j = true := by decide
    rcases Nat.lt_trichotomy sector 5 with hlt | heq | hgt
    · rw [h4 sector hlt] at ht
      exact absurd ht (by simp)
    · exact heq
    · rw [hlow 5 hgt] at h5
      exact absurd h5 (by simp)
  rw [← hs]
  exact (hentry (by decide)).2.2.1

/-- When the parent directory of the path resolves and the name `getFileName`
extracts is already the name of an in-use entry of that directory, Create
returns failure and the file system, with its persisted bitmap and directories,
is unchanged.  On a disk whose bitmap marks the directories on the path
allocated, a second Create of the same path directly after a successful one
fails. -/
theorem Create_existing_name_fails (cfg : DiskConfig) (fs : FileSystem)
    (pathName : List Char) (initialSize : Nat) (isDir : Bool) :
    (∀ curDirFile, fs.getSubDir pathName = some curDirFile →
      ((fs.directories curDirFile.sector).Find (getFileName pathName)).isSome = true →
      fs.Create cfg pathName initialSize isDir = (false, fs)) ∧
    ((fs.Create cfg pathName initialSize isDir).1 = true →
      (∀ s ∈ fs.pathSectors pathName, Bitmap.Test fs.freeMap s = true) →
      ∀ size2 isDir2,
        (fs.Create cfg pathName initialSize isDir).2.Create cfg pathName size2 isDir2 =
          (false, (fs.Create cfg pathName initialSize isDir).2)) := by
  constructor
  · intro cur hcur hfound
    exact Create_found cfg fs pathName initialSize isDir cur hcur hfound
  · intro h hwf size2 isDir2
    obtain ⟨cur, sector, _, dir1, _, _, _, _, hadd, _, hcur2, hdir, _⟩ :=
      Create_then_resolve cfg fs pathName initialSize isDir h hwf
    apply Create_found cfg _ pathName size2 isDir2 cur hcur2
    rw [hdir, (Add_true _ dir1 _ sector isDir hadd).2.2.2.1]
    rfl

/-- Sample: on the sample disk that holds "/a", Create("/a") fails
and leaves the disk as it is; this is the second Create after the successful
one on the formatted disk. -/
theorem Create_existing_name_fails_witness :
    diskWithA.Create demoConfig pathA 100 false = (false, diskWithA) :=
  (Create_existing_name_fails demoConfig formattedDisk pathA 100 false).2
    (by decide) (by decide) 100 false

/-- For a path longer than 255 characters, and for a path on which the name
`getFileName` extracts is longer than 9 characters, Create returns failure and
leaves the file system, with its persisted bitmap and every persisted
directory, unchanged. -/
theorem Create_rejects_long_names (cfg : DiskConfig) (fs : FileSystem)
    (pathName : List Char) (initialSize : Nat) (isDir : Bool)
    (h : pathName.length > 255 ∨ (getFileName pathName).length > 9) :
    fs.Create cfg pathName initialSize isDir = (false, fs) := by
  unfold FileSystem.Create
  simp only
  by_cases hlen : pathName.length > 255
  · rw [if_pos hlen]
  · rw [if_neg hlen]
    have hname : (getFileName pathName).length > 9 := by
      rcases h with h | h
      · exact absurd h hlen
      · exact h
    cases hd : fs.getSubDir pathName with
    | none => rfl
    | some cur =>
      simp only
      rw [if_pos (Or.inr hname)]

/-- Sample: Create("/abcdefghij") on the formatted sample disk fails
and leaves the disk as it is. -/
theorem Create_rejects_long_names_witness :
    formattedDisk.Create demoConfig pathLongName 100 false = (false, formattedDisk) :=
  Create_rejects_long_names demoConfig formattedDisk pathLongName 100 false
    (Or.inr (by decide))

/-- C16: whenever Create returns failure, the file system after the call is the
one before it: the persisted bitmap and every persisted directory are exactly
what they were.  Create does return failure when the parent is not found, when
no sector is free for the header, when the parent directory has no free slot,
and when the free sectors do not suffice for the data. -/
theorem Create_failure_changes_nothing (cfg : DiskConfig) (fs : FileSystem)
    (pathName : List Char) (initialSize : Nat) (isDir : Bool) :
    ((fs.Create cfg pathName initialSize isDir).1 = false →
      (fs.Create cfg pathName initialSize isDir).2 = fs ∧
      (fs.Create cfg pathName initialSize isDir).2.freeMap = fs.freeMap ∧
      (fs.Create cfg pathName initialSize isDir).2.directories = fs.directories) ∧
    (fs.getSubDir pathName = none →
      (fs.Create cfg pathName initialSize isDir).1 = false) ∧
    (Bitmap.FindAndSet fs.freeMap = none →
      (fs.Create cfg pathName initialSize isDir).1 = false) ∧
    (∀ curDirFile sector freeMap1,
      fs.getSubDir pathName = some curDirFile →
      Bitmap.FindAndSet fs.freeMap = some (sector, freeMap1) →
      ((fs.directories curDirFile.sector).Add (getFileName pathName) sector isDir).1 = false →
      (fs.Create cfg pathName initialSize isDir).1 = false) ∧
    (∀ sector freeMap1,
      Bitmap.FindAndSet fs.freeMap = some (sector, freeMap1) →
      FileHeader.Allocate cfg freeMap1 (if isDir then DirectoryFileSize cfg else initialSize)
        = none →
      (fs.Create cfg pathName initialSize isDir).1 = false) := by
  refine ⟨?_, ?_, ?_, ?_, ?_⟩
  · intro h
    have := Create_fail_unchanged cfg fs pathName initialSize isDir h
    exact ⟨this, by rw [this], by rw [this]⟩
  · intro hd
    by_contra hc
    obtain ⟨cur, _, _, _, _, _, _, hcur, _⟩ :=
      Create_success cfg fs pathName initialSize isDir (by simpa using hc)
    rw [hd] at hcur
    exact absurd hcur (by simp)
  · intro hf
    by_contra hc
    obtain ⟨_, _, _, _, _, _, _, _, _, _, hfind, _⟩ :=
      Create_success cfg fs pathName initialSize isDir (by simpa using hc)
    rw [hf] at hfind
    exact absurd hfind (by simp)
  · intro cur0 sector0 fm0 hd hf hadd0
    by_contra hc
    obtain ⟨cur, sector, fm1, dir1, _, _, _, hcur, _, _, hfind, hadd, _⟩ :=
      Create_success cfg fs pathName initialSize isDir (by simpa using hc)
    rw [hd] at hcur
    rw [hf] at hfind
    have e1 : cur0 = cur := Option.some.inj hcur
    have e2 : sector0 = sector := (Prod.mk.inj (Option.some.inj hfind)).1
    rw [e1, e2, hadd] at hadd0
    exact absurd hadd0 (by simp)
  · intro sector0 fm0 hf halloc0
    by_contra hc
    obtain ⟨_, sector, fm1, _, hdr, fm2, _, _, _, _, hfind, _, halloc, _⟩ :=
      Create_success cfg fs pathName initialSize isDir (by simpa using hc)
    rw [hf] at hfind
    have e2 : fm0 = fm1 := (Prod.mk.inj (Option.some.inj hfind)).2
    rw [e2, halloc] at halloc0
    exact absurd halloc0 (by simp)

/-- Witness for C16: Create("/d/f") on the formatted sample disk fails because
"d" does not exist, and the disk is the one before the call. -/
theorem Create_failure_changes_nothing_witness :
    (formattedDisk.Create demoConfig pathDF 100 false).2 = formattedDisk :=
  ((Create_failure_changes_nothing demoConfig formattedDisk pathDF 100 false).1
    (by decide)).1

/-- On a disk whose bitmap marks the directories on the path allocated,
when Create(path, S, file) succeeds, following it with Open(path) and
Remove(false, path) succeeds and yields a persisted bitmap equal to the one
before the Create and a parent directory with the same number of in-use
entries as before the Create. -/
theorem Create_Open_Remove_restores (cfg : DiskConfig) (fs : FileSystem)
    (pathName : List Char) (initialSize fuel : Nat)
    (h : (fs.Create cfg pathName initialSize false).1 = true)
    (hwf : ∀ s ∈ fs.pathSectors pathName, Bitmap.Test fs.freeMap s = true) :
    ∃ curDirFile r,
      fs.getSubDir pathName = some curDirFile ∧
      FileSystem.Remove (fuel + 1)
        ((fs.Create cfg pathName initialSize false).2.Open pathName).2 false pathName
          = some (true, r) ∧
      r.freeMap = fs.freeMap ∧
      (r.directories curDirFile.sector).inUseCount =
        (fs.directories curDirFile.sector).inUseCount := by
  obtain ⟨cur, sector, fm1, dir1, hdr, fm2, hcur, hfind, hadd, halloc, hcur1, hdir1, hhdr1,
    hfm1, _⟩ := Create_then_resolve cfg fs pathName initialSize false h hwf
  obtain ⟨p1, p2, p3⟩ := Open_persisted (fs.Create cfg pathName initialSize false).2 pathName
  obtain ⟨_, htest, _, hmark, _⟩ := FindAndSet_some fs.freeMap fm1 sector hfind
  obtain ⟨_, hdealloc⟩ := Allocate_some cfg fm1 fm2 _ hdr halloc
  obtain ⟨_, _, _, hfound, _, _, _, hcount⟩ := Add_true _ dir1 _ sector false hadd
  have hcur2 : ((fs.Create cfg pathName initialSize false).2.Open pathName).2.getSubDir pathName
      = some cur := by
    apply getSubDir_congr _ _ pathName cur hcur1
    intro s _ c _
    rw [p3]
  have hdir2 : ((fs.Create cfg pathName initialSize false).2.Open pathName).2.directories
      cur.sector = dir1 := by rw [p3, hdir1]
  have hrem : FileSystem.Remove (fuel + 1)
      ((fs.Create cfg pathName initialSize false).2.Open pathName).2 false pathName =
      some (true,
        { ((fs.Create cfg pathName initialSize false).2.Open pathName).2 with
          freeMap := Bitmap.Clear
            ((((fs.Create cfg pathName initialSize false).2.Open pathName).2.headers
              sector).Deallocate
              ((fs.Create cfg pathName initialSize false).2.Open pathName).2.freeMap) sector,
          directories := writeAt
            ((fs.Create cfg pathName initialSize false).2.Open pathName).2.directories
            cur.sector (dir1.Remove (getFileName pathName)).2 }) := by
    simp only [FileSystem.Remove, hcur2, hdir2, hfound, Bool.and_false, Bool.false_eq_true,
      if_false]
  refine ⟨cur, _, hcur, hrem, ?_, ?_⟩
  · simp only
    rw [p2, p1, hhdr1, hfm1, hdealloc, hmark]
    exact Clear_Mark fs.freeMap sector htest
  · simp only [writeAt, if_true]
    exact hcount

/-- Sample: on the formatted sample disk, Create("/a", 100 bytes),
Open("/a") and Remove(false, "/a") give back the bitmap of the formatted
disk. -/
theorem Create_Open_Remove_restores_witness :
    ∃ r, FileSystem.Remove 1 (diskWithA.Open pathA).2 false pathA = some (true, r) ∧
      r.freeMap = formattedDisk.freeMap := by
  obtain ⟨_, r, _, hr, hm, _⟩ :=
    Create_Open_Remove_restores demoConfig formattedDisk pathA 100 0 (by decide) (by decide)
  exact ⟨r, hr, hm⟩

/-- Open(path) returns a handle if and only if the parent directory resolves,
the name `getFileName` extracts is an in-use entry of it, and fewer than 20
handles are registered.  In that case the handle refers to the sector of the
entry, is stored in the next slot of the open-file table, and the handle count
grows by one.  In every failing case the file system, with its open-file table
and its handle count, is unchanged. -/
theorem Open_registers_handle (fs : FileSystem) (pathName : List Char) :
    ((fs.Open pathName).1.isSome = true ↔
      ∃ curDirFile sector,
        fs.getSubDir pathName = some curDirFile ∧
        (fs.directories curDirFile.sector).Find (getFileName pathName) = some sector ∧
        fs.top < 20) ∧
    (∀ curDirFile sector,
      fs.getSubDir pathName = some curDirFile →
      (fs.directories curDirFile.sector).Find (getFileName pathName) = some sector →
      fs.top < 20 →
        (fs.Open pathName).1 = some { sector := sector } ∧
        (fs.Open pathName).2.fileDescriptorTable =
          fs.fileDescriptorTable.set fs.top (some { sector := sector }) ∧
        (fs.top < fs.fileDescriptorTable.length →
          (fs.Open pathName).2.fileDescriptorTable[fs.top]? = some (some { sector := sector })) ∧
        (fs.Open pathName).2.top = fs.top + 1) ∧
    ((fs.Open pathName).1 = none →
      (fs.Open pathName).2 = fs ∧
      (fs.Open pathName).2.fileDescriptorTable = fs.fileDescriptorTable ∧
      (fs.Open pathName).2.top = fs.top) := by
  rcases Open_cases fs pathName with ⟨cur, sector, hcur, hfind, hlt, h⟩ | ⟨hwhy, h⟩
  · refine ⟨?_, ?_, ?_⟩
    · rw [h]
      exact ⟨fun _ => ⟨cur, sector, hcur, hfind, hlt⟩, fun _ => rfl⟩
    · intro cur2 sector2 hcur2 hfind2 _
      rw [hcur] at hcur2
      have e1 : cur = cur2 := Option.some.inj hcur2
      subst e1
      rw [hfind] at hfind2
      have e2 : sector = sector2 := Option.some.inj hfind2
      subst e2
      rw [h]
      refine ⟨rfl, rfl, ?_, rfl⟩
      intro hlen
      simp only
      rw [List.getElem?_set]
      simp [hlen]
    · intro hnone
      rw [h] at hnone
      exact absurd hnone (by simp)
  · refine ⟨?_, ?_, ?_⟩
    · rw [h]
      constructor
      · intro hsome
        exact absurd hsome (by simp)
      · rintro ⟨cur, sector, hcur, hfind, hlt⟩
        rcases hwhy with hn | ⟨cur2, hcur2, hn⟩ | hfull
        · rw [hn] at hcur
          exact absurd hcur (by simp)
        · rw [hcur] at hcur2
          have e1 : cur = cur2 := Option.some.inj hcur2
          subst e1
          rw [hn] at hfind
          exact absurd hfind (by simp)
        · omega
    · intro cur sector hcur hfind hlt
      rcases hwhy with hn | ⟨cur2, hcur2, hn⟩ | hfull
      · rw [hn] at hcur
        exact absurd hcur (by simp)
      · rw [hcur] at hcur2
        have e1 : cur = cur2 := Option.some.inj hcur2
        subst e1
        rw [hn] at hfind
        exact absurd hfind (by simp)
      · omega
    · intro _
      rw [h]
      exact ⟨rfl, rfl, rfl⟩

/-- C19: in every file-system state reachable from the constructor by Create,
Open, Remove and List, the number of registered open-file handles is between 0
and 20, and exactly the table slots below that number hold a handle. -/
theorem open_table_stays_bounded (cfg : DiskConfig) (fs : FileSystem)
    (h : FsReachable cfg fs) :
    0 ≤ fs.top ∧ fs.top ≤ 20 ∧
    ∀ i, i < 20 → ((fs.fileDescriptorTable.getD i none).isSome = true ↔ i < fs.top) := by
  obtain ⟨h1, _, h3⟩ := FsReachable_table cfg fs h
  exact ⟨Nat.zero_le _, h1, h3⟩

/-- Witness for C19: after formatting, Create("/a") and Open("/a") on the
sample disk one handle is registered, in slot 0. -/
theorem open_table_stays_bounded_witness :
    (diskWithA.Open pathA).2.top = 1 ∧
    ((diskWithA.Open pathA).2.fileDescriptorTable.getD 0 none).isSome = true ∧
    ((diskWithA.Open pathA).2.fileDescriptorTable.getD 1 none).isSome = false := by
  have h := open_table_stays_bounded demoConfig (diskWithA.Open pathA).2
    (FsReachable.openFile diskWithA pathA
      (FsReachable.create formattedDisk pathA 100 false
        (FsReachable.init blankDisk formattedDisk true rfl)))
  have htop : (diskWithA.Open pathA).2.top = 1 := by decide
  refine ⟨htop, (h.2.2 0 (by omega)).2 (by omega), ?_⟩
  have := (h.2.2 1 (by omega)).not.2 (by omega)
  simpa using this

/-- For a path whose parent directory does not resolve or on which the name
`getFileName` extracts is not an in-use entry of the parent, Remove, with
either value of
recursive, returns failure and leaves the file system, with its persisted
bitmap and every persisted directory, unchanged. -/
theorem Remove_missing_fails (fs : FileSystem) (pathName : List Char)
    (h : fs.getSubDir pathName = none ∨
      ∃ curDirFile, fs.getSubDir pathName = some curDirFile ∧
        (fs.directories curDirFile.sector).Find (getFileName pathName) = none) :
    ∀ fuel recursive,
      FileSystem.Remove (fuel + 1) fs recursive pathName = some (false, fs) := by
  intro fuel recursive
  exact Remove_not_found fs fuel recursive pathName h

/-- Sample: the formatted sample disk has no "/a"; a recursive Remove
of it fails and returns the disk as it is. -/
theorem Remove_missing_fails_witness :
    FileSystem.Remove 1 formattedDisk true pathA = some (false, formattedDisk) :=
  Remove_missing_fails formattedDisk pathA
    (Or.inr ⟨directoryFile, by decide, by decide⟩) 0 true

/-- C25: when the priority of the task before the call and its priority after
the call lie in the same band, CheckAging returns false, does not call Yield on
the running task, and leaves the three queues as they were, element for element
and in the same order.  For every call, CheckAging returns true exactly when
the priority went from below 100 to at least 100 (into L1) or from below 50 to
at least 50 (into L2). -/
theorem CheckAging_same_band_is_silent (k : Kernel) (t : Nat) :
    (priorityBand (k.threads t).priority
        = priorityBand ((CheckAging k t).state.threads t).priority →
      (CheckAging k t).ret = false ∧
      (CheckAging k t).yielded = false ∧
      (CheckAging k t).state.QueueL1 = k.QueueL1 ∧
      (CheckAging k t).state.QueueL2 = k.QueueL2 ∧
      (CheckAging k t).state.QueueL3 = k.QueueL3) ∧
    ((CheckAging k t).ret = true ↔
      ((k.threads t).priority < 100 ∧ 100 ≤ ((CheckAging k t).state.threads t).priority) ∨
      ((k.threads t).priority < 50 ∧ 50 ≤ ((CheckAging k t).state.threads t).priority)) := by
  by_cases h : (k.threads t).status = ThreadStatus.READY
      ∧ k.totalTicks - (k.threads t).waitTime ≥ 1500 ∧ (k.threads t).ID ≥ 2
  · rw [CheckAging_priority, if_pos h, CheckAging_due k t h]
    have hmin : min ((k.threads t).priority + 10) 149 ≤ 149 := min_le_right _ _
    have hmin2 : min ((k.threads t).priority + 10) 149 ≤ (k.threads t).priority + 10 :=
      min_le_left _ _
    by_cases hc1 : (k.threads t).priority < 100 ∧ min ((k.threads t).priority + 10) 149 ≥ 100
    · rw [if_pos hc1]
      constructor
      · intro hb
        exfalso
        have h1 : priorityBand (min ((k.threads t).priority + 10) 149) = some 1 := by
          unfold priorityBand
          rw [if_pos ⟨hc1.2, hmin⟩]
        have h2 : priorityBand (k.threads t).priority ≠ some 1 := by
          unfold priorityBand
          have hn : ¬ ((k.threads t).priority ≥ 100 ∧ (k.threads t).priority ≤ 149) := by omega
          rw [if_neg hn]
          split_ifs <;> simp
        exact h2 (hb.trans h1)
      · exact ⟨fun _ => Or.inl ⟨hc1.1, hc1.2⟩, fun _ => rfl⟩
    · rw [if_neg hc1]
      by_cases hc2 : (k.threads t).priority < 50 ∧ min ((k.threads t).priority + 10) 149 ≥ 50
      · rw [if_pos hc2]
        constructor
        · intro hb
          exfalso
          have h1 : priorityBand (min ((k.threads t).priority + 10) 149) = some 2 := by
            unfold priorityBand
            have hn : ¬ (min ((k.threads t).priority + 10) 149 ≥ 100
                ∧ min ((k.threads t).priority + 10) 149 ≤ 149) := by omega
            rw [if_neg hn, if_pos ⟨hc2.2, by omega⟩]
          have h2 : priorityBand (k.threads t).priority ≠ some 2 := by
            unfold priorityBand
            have hn1 : ¬ ((k.threads t).priority ≥ 100 ∧ (k.threads t).priority ≤ 149) := by
              omega
            have hn2 : ¬ ((k.threads t).priority ≥ 50 ∧ (k.threads t).priority ≤ 99) := by omega
            rw [if_neg hn1, if_neg hn2]
            split_ifs <;> simp
          exact h2 (hb.trans h1)
        · exact ⟨fun _ => Or.inr ⟨hc2.1, hc2.2⟩, fun _ => rfl⟩
      · rw [if_neg hc2]
        constructor
        · intro _
          simp [setWaitTime, setPriority, Kernel.store]
        · constructor
          · intro hr
            simp at hr
          · rintro (hx | hx)
            · exact absurd hx hc1
            · exact absurd hx hc2
  · rw [CheckAging_not_due k t h]
    constructor
    · intro _
      simp
    · constructor
      · intro hr
        simp at hr
      · rintro (hx | hx) <;> simp at hx <;> omega

/-- Witness for C25: thread 5 of the sample state waits in L2 with priority 60;
aging raises it to 70, inside the same band, and CheckAging returns false, calls
no Yield and keeps the three queues. -/
theorem CheckAging_same_band_is_silent_witness :
    (CheckAging demoKernel 5).ret = false ∧
    (CheckAging demoKernel 5).yielded = false ∧
    (CheckAging demoKernel 5).state.QueueL1 = demoKernel.QueueL1 ∧
    (CheckAging demoKernel 5).state.QueueL2 = demoKernel.QueueL2 ∧
    (CheckAging demoKernel 5).state.QueueL3 = demoKernel.QueueL3 :=
  (CheckAging_same_band_is_silent demoKernel 5).1 (by decide)

/-- C26: for a path that begins with a slash and does not end with one, the
name `getFileName` returns is the last component of the path split at the
slashes with the empty pieces skipped (which are the tokens `strtok` delivers),
and `getSubDir` resolves exactly the components in front of it.  So Create
refuses the path when the directory reached holds that last component, Open
returns the handle of the entry of that last component, and Remove fails when
the directory reached does not hold it. -/
theorem getFileName_is_unresolved_component (cfg : DiskConfig) (fs : FileSystem)
    (pathName : List Char) (initialSize : Nat) (isDir recursive : Bool) (fuel : Nat)
    (hhead : pathName.head? = some '/') (hlast : pathName.getLast? ≠ some '/') :
    ∃ toks name,
      pathComponents pathName = toks ++ [name] ∧
      strtok pathName = toks ++ [name] ∧
      getFileName pathName = name ∧
      fs.getSubDir pathName = fs.resolveAll directoryFile toks ∧
      (∀ d, fs.resolveAll directoryFile toks = some d →
        ((fs.directories d.sector).Find name).isSome →
        fs.Create cfg pathName initialSize isDir = (false, fs)) ∧
      (∀ d sector, fs.resolveAll directoryFile toks = some d →
        (fs.directories d.sector).Find name = some sector → fs.top < 20 →
        (fs.Open pathName).1 = some { sector := sector }) ∧
      (∀ d, fs.resolveAll directoryFile toks = some d →
        (fs.directories d.sector).Find name = none →
        FileSystem.Remove (fuel + 1) fs recursive pathName = some (false, fs)) := by
  have hmem : '/' ∈ pathName := by
    cases pathName with
    | nil => simp at hhead
    | cons c rest =>
      simp only [List.head?_cons, Option.some.injEq] at hhead
      simp [hhead]
  obtain ⟨pre, name, hp, hn⟩ := split_last_slash pathName hmem
  have hne : name ≠ [] := by
    intro e
    apply hlast
    rw [hp, e]
    simp
  have htok : strtok pathName = strtok pre ++ [name] := by
    rw [hp]
    exact strtok_append_name pre name hne hn
  have hname : getFileName pathName = name := by
    rw [hp]
    exact getFileName_append_name pre name hn
  have hsub : fs.getSubDir pathName = fs.resolveAll directoryFile (strtok pre) :=
    getSubDir_eq_resolveAll fs pathName (strtok pre) name htok
  refine ⟨strtok pre, name, ?_, htok, hname, hsub, ?_, ?_, ?_⟩
  · rw [← strtok_eq_pathComponents, htok]
  · intro d hd hf
    exact Create_found cfg fs pathName initialSize isDir d (hsub.trans hd) (by rw [hname]; exact hf)
  · intro d sector hd hf htop
    have htop2 : ¬ fs.top ≥ 20 := by omega
    simp [FileSystem.Open, hsub, hd, hname, hf, htop2]
  · intro d hd hf
    exact Remove_not_found fs fuel recursive pathName
      (Or.inr ⟨d, hsub.trans hd, by rw [hname]; exact hf⟩)

/-- Witness for C26: for "/d/f" on the formatted sample disk the components are
"d" and "f", the name is "f", and `getSubDir` fails because the root directory
has no entry "d". -/
theorem getFileName_is_unresolved_component_witness :
    ∃ toks name,
      pathComponents pathDF = toks ++ [name] ∧
      strtok pathDF = toks ++ [name] ∧
      getFileName pathDF = name ∧
      formattedDisk.getSubDir pathDF = formattedDisk.resolveAll directoryFile toks :=
  let ⟨toks, name, h1, h2, h3, h4, _⟩ :=
    getFileName_is_unresolved_component demoConfig formattedDisk pathDF 0 false false 0
      (by decide) (by decide)
  ⟨toks, name, h1, h2, h3, h4⟩

/-- C28: for a path made of slashes only (the empty path and "/" among them)
the path has no component, `getSubDir` yields no directory, and Create, Open
and Remove return failure and hand back the file system as it was: the bitmap,
every directory and the open-file table are unchanged. -/
theorem slash_only_paths_fail (cfg : DiskConfig) (fs : FileSystem) (pathName : List Char)
    (initialSize : Nat) (isDir recursive : Bool) (fuel : Nat)
    (h : ∀ c ∈ pathName, c = '/') :
    pathComponents pathName = [] ∧
    fs.getSubDir pathName = none ∧
    fs.Create cfg pathName initialSize isDir = (false, fs) ∧
    fs.Open pathName = (none, fs) ∧
    FileSystem.Remove (fuel + 1) fs recursive pathName = some (false, fs) := by
  have htok : strtok pathName = [] := strtokAux_slashes pathName h
  have hsub : fs.getSubDir pathName = none := by
    unfold FileSystem.getSubDir
    rw [htok]
  refine ⟨by rw [← strtok_eq_pathComponents, htok], hsub, ?_, ?_, ?_⟩
  · unfold FileSystem.Create
    simp only [hsub]
    split_ifs <;> rfl
  · unfold FileSystem.Open
    simp only [hsub]
  · exact Remove_not_found fs fuel recursive pathName (Or.inl hsub)

/-- Witness for C28: on the formatted sample disk the root path "/" can be
neither created as a directory, nor opened, nor removed. -/
theorem slash_only_paths_fail_witness :
    pathComponents ['/'] = [] ∧
    formattedDisk.getSubDir ['/'] = none ∧
    formattedDisk.Create demoConfig ['/'] 0 true = (false, formattedDisk) ∧
    formattedDisk.Open ['/'] = (none, formattedDisk) ∧
    FileSystem.Remove 1 formattedDisk true ['/'] = some (false, formattedDisk) :=
  slash_only_paths_fail demoConfig formattedDisk ['/'] 0 true true 0 (by simp)

/-- C22, the code at the failing input: on the sample disk that holds the plain
file "/a" (header sector 5), the root directory lists "a" as an entry that is
not a directory, and yet `getSubDir` on "/a/b" does not fail: it returns the
file "a" as the directory that holds "b", and Create("/a/b") then succeeds. -/
theorem getSubDir_walks_through_file :
    (diskWithA.directories DirectorySector).Find ['a'] = some 5 ∧
    (diskWithA.directories DirectorySector).isDir ['a'] = false ∧
    strtok pathAB = [['a'], ['b']] ∧
    diskWithA.getSubDir pathAB = some { sector := 5 } ∧
    (diskWithA.Create demoConfig pathAB 100 false).1 = true := by
  decide

/-- C23, the code at the failing input: from the formatted sample disk,
Create("/d", directory), Create("/d/x/", file), Create("/y/", file) and
Remove(recursive, "/d") lead to a state in which the root directory holds an
in-use entry (the one with the empty name) whose header sector 10 and data
sector 11 are clear in the bitmap; after Create("/p", 256 bytes) and
Create("/q", 100 bytes) the in-use root entries "" and "q" refer to the same
header sector 10. -/
theorem Remove_revives_freed_entry :
    FormatReachable demoConfig formattedDisk sharedDisk ∧
    (FileSystem.Remove 3 trailDisk true pathD).map Prod.fst = some true ∧
    (revivedDisk.directories DirectorySector).Find [] = some 10 ∧
    (revivedDisk.headers 10).dataSectors = [11] ∧
    Bitmap.Test revivedDisk.freeMap 10 = false ∧
    Bitmap.Test revivedDisk.freeMap 11 = false ∧
    (sharedDisk.directories DirectorySector).Find [] = some 10 ∧
    (sharedDisk.directories DirectorySector).Find ['q'] = some 10 := by
  refine ⟨?_, by decide, by decide, by decide, by decide, by decide, by decide, by decide⟩
  have h0 : FormatReachable demoConfig formattedDisk formattedDisk :=
    FormatReachable.format blankDisk rfl
  have h3 : FormatReachable demoConfig formattedDisk trailDisk :=
    FormatReachable.create _ pathYSlash 100 false
      (FormatReachable.create _ pathDXSlash 100 false
        (FormatReachable.create _ pathD 0 true h0))
  have hr : ∃ r, FileSystem.Remove 3 trailDisk true pathD = some r := by
    cases h : FileSystem.Remove 3 trailDisk true pathD with
    | none =>
      have : (FileSystem.Remove 3 trailDisk true pathD).map Prod.fst = some true := by decide
      rw [h] at this
      simp at this
    | some r => exact ⟨r, rfl⟩
  obtain ⟨r, hr⟩ := hr
  have h4 : FormatReachable demoConfig formattedDisk revivedDisk := by
    have := FormatReachable.remove trailDisk 3 true pathD r h3 hr
    unfold revivedDisk
    rw [hr]
    exact this
  exact FormatReachable.create _ pathQ 100 false (FormatReachable.create _ pathP 256 false h4)

/-- C27: in a state in which the sectors of the entries of a directory are
marked allocated and are none of the directory's own sectors, Remove without
recursion on that directory, which still has in-use entries, succeeds; the
bitmap afterwards is the one before with the data sectors and the header sector
of the directory cleared, so every other bit is as before; the header sector
and the data sectors of every in-use entry of the directory are still marked
allocated; and the parent directory has exactly one in-use entry less. -/
theorem Remove_flat_leaves_children (fs : FileSystem) (fuel : Nat) (pathName : List Char)
    (curDirFile : OpenFile) (sector : Nat)
    (hsub : fs.getSubDir pathName = some curDirFile)
    (hfind : (fs.directories curDirFile.sector).Find (getFileName pathName) = some sector)
    (_hdir : (fs.directories curDirFile.sector).isDir (getFileName pathName) = true)
    (_hkids : 0 < (fs.directories sector).inUseCount)
    (hcons : ∀ e ∈ (fs.directories sector).table, e.inUse = true →
      ∀ s ∈ e.sector :: (fs.headers e.sector).dataSectors,
        Bitmap.Test fs.freeMap s = true ∧ s ≠ sector ∧ s ∉ (fs.headers sector).dataSectors) :
    ∃ fs2, FileSystem.Remove (fuel + 1) fs false pathName = some (true, fs2) ∧
      fs2.freeMap = Bitmap.Clear ((fs.headers sector).Deallocate fs.freeMap) sector ∧
      (∀ s, s ≠ sector → s ∉ (fs.headers sector).dataSectors →
        Bitmap.Test fs2.freeMap s = Bitmap.Test fs.freeMap s) ∧
      (∀ e ∈ (fs.directories sector).table, e.inUse = true →
        ∀ s ∈ e.sector :: (fs.headers e.sector).dataSectors,
          Bitmap.Test fs2.freeMap s = true) ∧
      (fs2.directories curDirFile.sector).inUseCount + 1
        = (fs.directories curDirFile.sector).inUseCount := by
  have hframe : ∀ s, s ≠ sector → s ∉ (fs.headers sector).dataSectors →
      Bitmap.Test (Bitmap.Clear ((fs.headers sector).Deallocate fs.freeMap) sector) s
        = Bitmap.Test fs.freeMap s := by
    intro s h1 h2
    rw [Test_Clear, FileHeader.Deallocate, Test_foldl_Clear]
    simp [h1, h2]
  refine ⟨{ fs with
      freeMap := Bitmap.Clear ((fs.headers sector).Deallocate fs.freeMap) sector,
      directories := writeAt fs.directories curDirFile.sector
        ((fs.directories curDirFile.sector).Remove (getFileName pathName)).2 },
    by simp [FileSystem.Remove, hsub, hfind], rfl, hframe, ?_, ?_⟩
  · intro e he hu s hs
    obtain ⟨h1, h2, h3⟩ := hcons e he hu s hs
    simp only
    rw [hframe s h2 h3]
    exact h1
  · simp only [writeAt, if_true]
    exact (Remove_found _ _ sector hfind).2

/-- Witness for C27: on the sample disk that holds the directory "/d" (sectors
5, 6, 7) with the file "/d/f" (sectors 8, 9), Remove(false, "/d") succeeds and
frees sectors 5, 6 and 7 while sectors 8 and 9 stay allocated. -/
theorem Remove_flat_leaves_children_witness :
    ∃ fs2, FileSystem.Remove 1 nestedDisk false pathD = some (true, fs2) ∧
      fs2.freeMap = Bitmap.Clear ((nestedDisk.headers 5).Deallocate nestedDisk.freeMap) 5 ∧
      Bitmap.Test fs2.freeMap 8 = true ∧
      (fs2.directories 1).inUseCount + 1 = (nestedDisk.directories 1).inUseCount :=
  let ⟨fs2, h1, h2, _, h4, h5⟩ :=
    Remove_flat_leaves_children nestedDisk 0 pathD directoryFile 5
      (by decide) (by decide) (by decide) (by decide) (by decide)
  ⟨fs2, h1, h2,
    h4 { inUse := true, isDir := false, sector := 8, name := ['f'] } (by decide) rfl 8
      (by decide), h5⟩

/-- C24: formatting a disk of at least two sectors sets the bits of sectors 0
and 1 and writes a root directory with no entry in use.  In every state reached
from the formatted disk by Create and Remove the headers of the bitmap file and
of the root directory file are the ones formatting wrote, and the bits of
sectors 0 and 1 and of the data sectors of the two files are set.  A Create
that succeeds in such a state takes its header sector from `FindAndSet` and its
data sectors from `Allocate`, and none of them is one of those sectors. -/
theorem reserved_sectors_stay_allocated (cfg : DiskConfig) (disk fs0 fs : FileSystem)
    (pathName : List Char) (initialSize : Nat) (isDir : Bool)
    (hgeo : 2 ≤ cfg.NumSectors)
    (hinit : FileSystem.init cfg disk true = some fs0)
    (hreach : FormatReachable cfg fs0 fs) :
    Bitmap.Test fs0.freeMap FreeMapSector = true ∧
    Bitmap.Test fs0.freeMap DirectorySector = true ∧
    (fs0.directories DirectorySector).inUseCount = 0 ∧
    reservedSectors fs = reservedSectors fs0 ∧
    (∀ s ∈ reservedSectors fs0, Bitmap.Test fs.freeMap s = true) ∧
    ((fs.Create cfg pathName initialSize isDir).1 = true →
      ∃ sector freeMap1 hdr freeMap2,
        Bitmap.FindAndSet fs.freeMap = some (sector, freeMap1) ∧
        FileHeader.Allocate cfg freeMap1 (if isDir then DirectoryFileSize cfg else initialSize)
          = some (hdr, freeMap2) ∧
        (fs.Create cfg pathName initialSize isDir).2.headers sector = hdr ∧
        sector ∉ reservedSectors fs0 ∧ ∀ d ∈ hdr.dataSectors, d ∉ reservedSectors fs0) := by
  obtain ⟨h0, hroot⟩ := init_reservedKept cfg disk fs0 hgeo hinit
  obtain ⟨G, hG⟩ := FormatReachable_reservedKept cfg fs0 fs hgeo hreach
  refine ⟨h0.2.1 _ (by simp [reservedSectors]), h0.2.1 _ (by simp [reservedSectors]), ?_,
    hG.1, hG.2.1, ?_⟩
  · rw [hroot]
    simp [Directory.inUseCount, Directory.new]
  · intro hok
    exact Create_outside_reserved cfg _ G fs pathName initialSize isDir hG hok

/-- Witness for C24: on the sample disk sectors 0 to 4 are reserved; after
Create("/d", directory), Create("/d/f", file) and Remove(recursive, "/d") they
are still allocated. -/
theorem reserved_sectors_stay_allocated_witness :
    reservedSectors formattedDisk = [0, 1, 2, 3, 4] ∧
    ∀ s ∈ reservedSectors formattedDisk,
      Bitmap.Test ((FileSystem.Remove 2 nestedDisk true pathD).getD (false, nestedDisk)).2.freeMap s
        = true := by
  have hr : ∃ r, FileSystem.Remove 2 nestedDisk true pathD = some r := by
    cases h : FileSystem.Remove 2 nestedDisk true pathD with
    | none =>
      have : (FileSystem.Remove 2 nestedDisk true pathD).isSome = true := by decide
      rw [h] at this
      simp at this
    | some r => exact ⟨r, rfl⟩
  obtain ⟨r, hr⟩ := hr
  have h := reserved_sectors_stay_allocated demoConfig blankDisk formattedDisk r.2 pathA 0 false
    (by decide) rfl
    (FormatReachable.remove nestedDisk 2 true pathD r
      (FormatReachable.create _ pathDF 100 false
        (FormatReachable.create _ pathD 0 true (FormatReachable.format blankDisk rfl))) hr)
  rw [hr]
  exact ⟨by decide, h.2.2.2.2.1⟩

/-- C21: let the plain components `toks` lead from the root to the directory
`P`, let `D` be the entry of `name` in `P`, and let the tree below `D` be well
formed: of bounded depth, with plain names, with pairwise different
directories, none of which is read on the way to `P`.  Then Remove(recursive)
on the path of `D` returns success, given a recursion bound above the depth.
Afterwards no sector of the tree (the header sector and the data sectors of `D`
and of every entry below it) is marked in the bitmap, every other bit of the
bitmap is as before, and the parent table is the one before with the in-use
flag of the entry `D` cleared. -/
theorem recursive_Remove_frees_subtree (fs : FileSystem) (toks : List (List Char))
    (name : List Char) (P : OpenFile) (D : DirectoryEntry) (depth : Nat)
    (hplain : ∀ c ∈ toks ++ [name], plainName c = true)
    (hres : fs.resolveAll directoryFile toks = some P)
    (hlook : (fs.directories P.sector).lookup name = some D)
    (hshape : fs.shaped depth D = true)
    (hnodup : (fs.treeDirs depth D).Nodup)
    (hdisj : ∀ s ∈ fs.resolveSectors directoryFile toks, s ∉ fs.treeDirs depth D) :
    ∃ fs2, FileSystem.Remove (depth + 1) fs true (pathOf (toks ++ [name])) = some (true, fs2) ∧
      (∀ s ∈ fs.treeSectors depth D, Bitmap.Test fs2.freeMap s = false) ∧
      (∀ s, s ∉ fs.treeSectors depth D → Bitmap.Test fs2.freeMap s = Bitmap.Test fs.freeMap s) ∧
      fs2.freeMap.length = fs.freeMap.length ∧
      ∃ i, (fs.directories P.sector).table[i]? = some D ∧
        (fs2.directories P.sector).table =
          (fs.directories P.sector).table.set i { D with inUse := false } := by
  obtain ⟨fs2, h1, _, h3, h4, _, _, _⟩ :=
    Remove_removesTree depth fs (pathOf (toks ++ [name])) toks name P D
      (strtok_pathOf _ hplain) (getFileName_pathOf toks name (hplain name (by simp)))
      hres hlook hshape hnodup hdisj
  have hlen : ∀ (l : List Nat) (m : List Bool), (l.foldl Bitmap.Clear m).length = m.length := by
    intro l
    induction l with
    | nil => intro m; rfl
    | cons a rest ih => intro m; simp [List.foldl_cons, ih, Bitmap.Clear]
  refine ⟨fs2, h1, ?_, ?_, ?_, ?_⟩
  · intro s hs
    rw [h3, Test_foldl_Clear]
    simp [hs]
  · intro s hs
    rw [h3, Test_foldl_Clear]
    simp [hs]
  · rw [h3, hlen]
  · unfold Directory.lookup at hlook
    obtain ⟨i, hi, hr⟩ := releaseSlot_spec name _ D hlook
    refine ⟨i, hi, ?_⟩
    rw [h4]
    simp only [Directory.Remove, hr]

/-- Witness for C21: on the sample disk with the directory "/d" (sectors 5 to
7) that holds the directory "e" (sectors 8 to 10, with the file "f" in sectors
11 and 12) and the file "g" (sectors 13 and 14), Remove(recursive, "/d")
succeeds and clears the bits 5 to 14; the reserved bits 0 to 4 stay set. -/
theorem recursive_Remove_frees_subtree_witness :
    ∃ fs2, FileSystem.Remove 3 deepDisk true pathD = some (true, fs2) ∧
      (∀ s ∈ [5, 6, 7, 8, 9, 10, 11, 12, 13, 14], Bitmap.Test fs2.freeMap s = false) ∧
      (∀ s ∈ [0, 1, 2, 3, 4], Bitmap.Test fs2.freeMap s = true) :=
  let ⟨fs2, h1, h2, h3, _⟩ :=
    recursive_Remove_frees_subtree deepDisk [] ['d'] directoryFile entryD 2
      (by decide) (by decide) (by decide) (by decide) (by decide) (by decide)
  ⟨fs2, h1,
    fun s hs => h2 s (by revert s; decide),
    fun s hs => (h3 s (by revert s; decide)).trans (by revert s; decide)⟩

/-- C13, the code at the failing inputs.  On the formatted sample disk
Create("/a/", 100 bytes, file) succeeds; the only component of the path is "a",
but the entry the root directory gains has the empty name: afterwards the root
has no entry "a" and maps "" to the new header sector 5.  On the sample disk
`orphanDisk`, reached from the formatted disk by Create and Remove,
Create("/q/z", 100 bytes, file) succeeds with the parent "q" at sector 10, and
the parent has no in-use entry before and none after. -/
theorem Create_enters_other_name :
    pathComponents pathASlash = [['a']] ∧
    (formattedDisk.Create demoConfig pathASlash 100 false).1 = true ∧
    ((formattedDisk.Create demoConfig pathASlash 100 false).2.directories DirectorySector).Find
      ['a'] = none ∧
    ((formattedDisk.Create demoConfig pathASlash 100 false).2.directories DirectorySector).Find
      [] = some 5 ∧
    orphanDisk.getSubDir pathQZ = some { sector := 10 } ∧
    (orphanDisk.Create demoConfig pathQZ 100 false).1 = true ∧
    (orphanDisk.directories 10).inUseCount = 0 ∧
    ((orphanDisk.Create demoConfig pathQZ 100 false).2.directories 10).inUseCount = 0 := by
  decide

/-- C14, the code at the failing inputs.  On the sample disk that holds "/a",
the path "/a/" has the single component "a", its parent directory resolves to
the root, and "a" is an in-use entry of the root; yet Create("/a/", 100 bytes,
file) succeeds and sets the bits of sectors 7 and 8.  On the sample disk
`orphanDisk`, a second Create("/q/z") directly after a successful one succeeds
as well. -/
theorem Create_twice_succeeds :
    pathComponents pathASlash = [['a']] ∧
    diskWithA.getSubDir pathASlash = some directoryFile ∧
    (diskWithA.directories DirectorySector).Find ['a'] = some 5 ∧
    (diskWithA.Create demoConfig pathASlash 100 false).1 = true ∧
    Bitmap.Test diskWithA.freeMap 7 = false ∧
    Bitmap.Test (diskWithA.Create demoConfig pathASlash 100 false).2.freeMap 7 = true ∧
    Bitmap.Test (diskWithA.Create demoConfig pathASlash 100 false).2.freeMap 8 = true ∧
    (orphanDisk.Create demoConfig pathQZ 100 false).1 = true ∧
    ((orphanDisk.Create demoConfig pathQZ 100 false).2.Create demoConfig pathQZ 100 false).1
      = true := by
  decide

/-- C15, the code at the failing input.  The path "abcdefghij" has a single
component of ten characters, yet on the formatted sample disk
Create("abcdefghij", 100 bytes, file) succeeds: `getFileName` drops the first
character, and the root directory gains an entry "bcdefghij" at header sector
5, with the bits of sectors 5 and 6 set. -/
theorem Create_shortens_long_name :
    pathComponents pathTenChars = [pathTenChars] ∧
    pathTenChars.length = 10 ∧
    getFileName pathTenChars = ['b', 'c', 'd', 'e', 'f', 'g', 'h', 'i', 'j'] ∧
    (formattedDisk.Create demoConfig pathTenChars 100 false).1 = true ∧
    ((formattedDisk.Create demoConfig pathTenChars 100 false).2.directories DirectorySector).Find
      ['b', 'c', 'd', 'e', 'f', 'g', 'h', 'i', 'j'] = some 5 ∧
    Bitmap.Test formattedDisk.freeMap 5 = false ∧
    Bitmap.Test (formattedDisk.Create demoConfig pathTenChars 100 false).2.freeMap 5 = true ∧
    Bitmap.Test (formattedDisk.Create demoConfig pathTenChars 100 false).2.freeMap 6 = true := by
  decide

/-- C17, the code at the failing input.  The sample disk `orphanDisk` is
reached from the formatted disk by Create and Remove.  On it Create("/q/z", 100
bytes, file) succeeds, the Open("/q/z") that follows returns no handle, the
Remove(not recursive, "/q/z") that follows fails, and the bits of sectors 10
and 11, clear before the Create, are set at the end. -/
theorem round_trip_leaks_on_orphan_directory :
    FormatReachable demoConfig formattedDisk orphanDisk ∧
    (orphanDisk.Create demoConfig pathQZ 100 false).1 = true ∧
    ((orphanDisk.Create demoConfig pathQZ 100 false).2.Open pathQZ).1 = none ∧
    (FileSystem.Remove 1 ((orphanDisk.Create demoConfig pathQZ 100 false).2.Open pathQZ).2
      false pathQZ).map Prod.fst = some false ∧
    Bitmap.Test orphanDisk.freeMap 10 = false ∧
    Bitmap.Test orphanDisk.freeMap 11 = false ∧
    (∀ r, FileSystem.Remove 1 ((orphanDisk.Create demoConfig pathQZ 100 false).2.Open pathQZ).2
        false pathQZ = some r →
      Bitmap.Test r.2.freeMap 10 = true ∧ Bitmap.Test r.2.freeMap 11 = true) := by
  refine ⟨?_, by decide, by decide, by decide, by decide, by decide, ?_⟩
  · have h0 : FormatReachable demoConfig formattedDisk formattedDisk :=
      FormatReachable.format blankDisk rfl
    have h3 : FormatReachable demoConfig formattedDisk trailDisk :=
      FormatReachable.create _ pathYSlash 100 false
        (FormatReachable.create _ pathDXSlash 100 false
          (FormatReachable.create _ pathD 0 true h0))
    have h4 : FormatReachable demoConfig formattedDisk revivedDisk := by
      cases h : FileSystem.Remove 3 trailDisk true pathD with
      | none =>
        have : (FileSystem.Remove 3 trailDisk true pathD).isSome = true := by decide
        rw [h] at this
        simp at this
      | some r =>
        have := FormatReachable.remove trailDisk 3 true pathD r h3 h
        unfold revivedDisk
        rw [h]
        exact this
    have h6 : FormatReachable demoConfig formattedDisk doubledDisk :=
      FormatReachable.create _ pathQ 0 true (FormatReachable.create _ pathP 256 false h4)
    cases h : FileSystem.Remove 1 doubledDisk false pathYSlash with
    | none =>
      have : (FileSystem.Remove 1 doubledDisk false pathYSlash).isSome = true := by decide
      rw [h] at this
      simp at this
    | some r =>
      have := FormatReachable.remove doubledDisk 1 false pathYSlash r h6 h
      unfold orphanDisk
      rw [h]
      exact this
  · intro r hr
    have hfail : FileSystem.Remove 1
        ((orphanDisk.Create demoConfig pathQZ 100 false).2.Open pathQZ).2 false pathQZ
        = some (false, ((orphanDisk.Create demoConfig pathQZ 100 false).2.Open pathQZ).2) :=
      Remove_not_found _ 0 false pathQZ (Or.inr ⟨{ sector := 10 }, by decide, by decide⟩)
    rw [hfail] at hr
    simp only [Option.some.injEq] at hr
    subst hr
    exact ⟨by decide, by decide⟩

/-- C18, the code at the failing inputs.  On the sample disk that holds "/a",
the path "/a/" has the single component "a", its parent directory resolves to
the root, "a" is an in-use entry of the root and no handle is registered; yet
Open("/a/") returns no handle.  On the sample disk whose root holds an entry
with the empty name, "zz" is no entry of the root; yet Open("/zz/") returns a
handle, on sector 5. -/
theorem Open_misses_existing_entry :
    pathComponents pathASlash = [['a']] ∧
    diskWithA.getSubDir pathASlash = some directoryFile ∧
    (diskWithA.directories DirectorySector).Find ['a'] = some 5 ∧
    diskWithA.top = 0 ∧
    (diskWithA.Open pathASlash).1 = none ∧
    pathComponents pathZZSlash = [['z', 'z']] ∧
    (emptyNameDisk.directories DirectorySector).Find ['z', 'z'] = none ∧
    (emptyNameDisk.Open pathZZSlash).1 = some { sector := 5 } := by
  decide

/-- C20, the code at the failing input.  On the sample disk whose root holds an
entry with the empty name (header sector 5, data sector 6), the path "/zz/" has
the single component "zz", its parent directory resolves to the root, and "zz"
is no entry of the root; yet Remove(not recursive, "/zz/") succeeds, clears the
bits of sectors 5 and 6, and the root no longer holds the entry with the empty
name. -/
theorem Remove_frees_other_entry :
    pathComponents pathZZSlash = [['z', 'z']] ∧
    emptyNameDisk.getSubDir pathZZSlash = some directoryFile ∧
    (emptyNameDisk.directories DirectorySector).Find ['z', 'z'] = none ∧
    (emptyNameDisk.directories DirectorySector).Find [] = some 5 ∧
    Bitmap.Test emptyNameDisk.freeMap 5 = true ∧
    Bitmap.Test emptyNameDisk.freeMap 6 = true ∧
    (FileSystem.Remove 1 emptyNameDisk false pathZZSlash).map Prod.fst = some true ∧
    (FileSystem.Remove 1 emptyNameDisk false pathZZSlash).map
      (fun r => (Bitmap.Test r.2.freeMap 5, Bitmap.Test r.2.freeMap 6,
        (r.2.directories DirectorySector).Find [])) = some (false, false, none) := by
  decide

end NachOS
